import Mathlib

/-!
# Auto-increment tables of the ORM table engine

A shallow embedding of `orm/model/ormtable/auto_increment.go`.

* Go `uint64` values are natural numbers; the one arithmetic operation of the
  file, `seq++`, is computed modulo `2 ^ 64`.
* A Go function returning `(value, error)` returns a pair whose second
  component is `none` for a `nil` error.
* Stores are finite maps kept as association lists.  A message passed by
  reference is returned together with the results of the call, and so is the
  backend the call worked on.
* The base table engine (`tableImpl`), the batch writer and the codecs live in
  files that are not part of this development; they are either parameters of
  the table or modelled from the specification, as said at each definition.
-/

namespace Ormtable

/-! ## Basic data -/

/-- Byte strings (`[]byte`), one list element per byte. -/
abbrev Bytes := List Nat

/-- Modulus of Go `uint64` arithmetic. -/
abbrev uint64Mod : Nat := 2 ^ 64

/-- Errors returned by the table code.  `Errorf` carries the text built by
`fmt.Errorf`; `Collaborator` stands for any error produced by code outside the
table engine (store, codec, context, JSON decoder). -/
inductive Error where
  | PrimaryKeyInvalidOnUpdate
  | AutoIncrementKeyAlreadySet
  | AlreadyExists
  | NotFound
  | JSONImportError
  | Errorf (text : String)
  | Collaborator (code : Nat)
  deriving DecidableEq, Repr

/-- The three save modes of the table engine. -/
inductive saveMode where
  | saveModeDefault
  | saveModeInsert
  | saveModeUpdate
  deriving DecidableEq, Repr

export saveMode (saveModeDefault saveModeInsert saveModeUpdate)

/-- A record of the table's message type: the value of the auto-increment
field (`messageRef.Get(t.autoIncField).Uint()`) and the remaining fields in
their deterministic encoding. -/
structure Message where
  autoIncField : Nat
  body : Bytes
  deriving DecidableEq, Repr

/-! ## Key-value stores -/

/-- Value stored under `k`, if any. -/
def kvGet {κ ν : Type} [DecidableEq κ] (k : κ) : List (κ × ν) → Option ν
  | [] => none
  | (k', v) :: rest => if k' = k then some v else kvGet k rest

/-- Store `v` under `k`, replacing the value already there. -/
def kvSet {κ ν : Type} [DecidableEq κ] (k : κ) (v : ν) : List (κ × ν) → List (κ × ν)
  | [] => [(k, v)]
  | (k', v') :: rest => if k' = k then (k, v) :: rest else (k', v') :: kvSet k v rest

/-- Apply buffered writes, oldest first. -/
def flushWrites {κ ν : Type} [DecidableEq κ] (store : List (κ × ν)) (buf : List (κ × ν)) :
    List (κ × ν) :=
  buf.foldl (fun s kv => kvSet kv.1 kv.2 s) store

/-- A backend: the commitment store holds the primary-key entries (surrogate
key to encoded record), the index store holds raw index entries, among them
the sequence entry. -/
structure Backend where
  commitmentStore : List (Nat × Bytes)
  indexStore : List (Bytes × Bytes)
  deriving DecidableEq, Repr

/-- The `kv.ReadonlyStore` interface, over the state `σ` of an implementation. -/
structure ReadonlyStore (σ : Type) where
  Get : σ → Bytes → (Bytes × Option Error) × σ

/-- The `kv.Store` interface. -/
structure Store (σ : Type) extends ReadonlyStore σ where
  Set : σ → Bytes → Bytes → Option Error × σ

/-- Calls observed on a batch writer, in the order they are made.  The trace is
ghost state: it influences no result and exists so that statements about which
calls an operation makes can be written down. -/
inductive Event where
  | indexGet (key : Bytes)
  | indexSet (key value : Bytes)
  | commitmentGet (key : Nat)
  | commitmentSet (key : Nat) (value : Bytes)
  | doSave (mode : saveMode) (message : Message)
  | Write
  | Close
  deriving DecidableEq, Repr

/-- Modelled from the spec: the batch writer (`newBatchIndexCommitmentWriter`
and its methods are not in this file).  It wraps a backend and buffers the
writes to both stores; reads see the buffered writes on top of the backend;
`Write` flushes the buffers to the backend, `Close` drops them. -/
structure batchIndexCommitmentWriter where
  backend : Backend
  commitmentWriter : List (Nat × Bytes)
  indexWriter : List (Bytes × Bytes)
  trace : List Event
  deriving DecidableEq, Repr

/-- Modelled from the spec: a fresh writer over `backend`, nothing buffered. -/
def newBatchIndexCommitmentWriter (backend : Backend) : batchIndexCommitmentWriter :=
  { backend := backend, commitmentWriter := [], indexWriter := [], trace := [] }

namespace batchIndexCommitmentWriter

/-- Modelled from the spec: `writer.IndexStore().Get(key)`; an absent key reads as the
empty (nil) byte string. -/
def IndexStoreGet (w : batchIndexCommitmentWriter) (key : Bytes) :
    (Bytes × Option Error) × batchIndexCommitmentWriter :=
  (((kvGet key (flushWrites w.backend.indexStore w.indexWriter)).getD [], none),
    { w with trace := w.trace ++ [Event.indexGet key] })

/-- Modelled from the spec: `writer.IndexStore().Set(key, value)` buffers the write. -/
def IndexStoreSet (w : batchIndexCommitmentWriter) (key value : Bytes) :
    Option Error × batchIndexCommitmentWriter :=
  (none, { w with indexWriter := w.indexWriter ++ [(key, value)],
                  trace := w.trace ++ [Event.indexSet key value] })

/-- Modelled from the spec: `writer.IndexStore()` as a `kv.Store`. -/
def IndexStore : Store batchIndexCommitmentWriter :=
  { Get := IndexStoreGet, Set := IndexStoreSet }

/-- Modelled from the spec: read of a primary-key entry through the writer. -/
def CommitmentStoreGet (w : batchIndexCommitmentWriter) (key : Nat) :
    Option Bytes × batchIndexCommitmentWriter :=
  (kvGet key (flushWrites w.backend.commitmentStore w.commitmentWriter),
    { w with trace := w.trace ++ [Event.commitmentGet key] })

/-- Modelled from the spec: buffered write of a primary-key entry. -/
def CommitmentStoreSet (w : batchIndexCommitmentWriter) (key : Nat) (value : Bytes) :
    batchIndexCommitmentWriter :=
  { w with commitmentWriter := w.commitmentWriter ++ [(key, value)],
           trace := w.trace ++ [Event.commitmentSet key value] }

/-- Modelled from the spec: `writer.Write()` flushes both buffers to the backend and
leaves the writer empty. -/
def Write (w : batchIndexCommitmentWriter) : Option Error × batchIndexCommitmentWriter :=
  (none,
    { backend :=
        { commitmentStore := flushWrites w.backend.commitmentStore w.commitmentWriter,
          indexStore := flushWrites w.backend.indexStore w.indexWriter },
      commitmentWriter := [], indexWriter := [],
      trace := w.trace ++ [Event.Write] })

/-- Modelled from the spec: `writer.Close()` releases the writer; what is still buffered
is dropped. -/
def Close (w : batchIndexCommitmentWriter) : batchIndexCommitmentWriter :=
  { w with commitmentWriter := [], indexWriter := [], trace := w.trace ++ [Event.Close] }

end batchIndexCommitmentWriter

/-- Modelled from the spec: `backend.IndexStoreReader()` as a `kv.ReadonlyStore`. -/
def Backend.IndexStoreReader : ReadonlyStore Backend :=
  { Get := fun b key => (((kvGet key b.indexStore).getD [], none), b) }

/-! ## The table -/

/-- The sequence codec `ormkv.SeqCodec`, a parameter of the table: the fixed key
of the sequence entry and the value encoding. -/
structure SeqCodec where
  Prefix : Bytes
  EncodeValue : Nat → Bytes
  DecodeValue : Bytes → Nat × Option Error

/-- What `tableImpl.doSave` hands back: its error, the message it worked on and
the writer after the call. -/
structure DoSaveResult where
  err : Option Error
  message : Message
  writer : batchIndexCommitmentWriter
  deriving DecidableEq, Repr

/-- The base table engine as far as the auto-increment table uses it.  `doSave`
is the base engine's save; `customJSONValidator` is the optional validator of
the table and `DefaultJSONValidator` the package's default one. -/
structure tableImpl where
  doSave : batchIndexCommitmentWriter → Message → saveMode → DoSaveResult
  customJSONValidator : Option (Message → Option Error)
  DefaultJSONValidator : Message → Option Error

/-- The table type `autoIncrementTable`.  The field descriptor `autoIncField` is
the accessor `Message.autoIncField`. -/
structure autoIncrementTable where
  tableImpl : tableImpl
  seqCodec : SeqCodec

/-- Results of `save`: the two Go results, the caller's message and the backend
after the call, and the calls made on the writer up to its deferred `Close`. -/
structure SaveResult where
  newId : Nat
  err : Option Error
  message : Message
  backend : Backend
  trace : List Event
  deriving DecidableEq, Repr

/-- The request context as far as the table reads it: what `t.getBackend(ctx)`
yields, a backend or an error. -/
abbrev Context := Except Error Backend

instance : DecidableEq Context := fun a b =>
  match a, b with
  | .ok x, .ok y => if h : x = y then isTrue (by rw [h]) else isFalse (fun e => h (by cases e; rfl))
  | .error x, .error y =>
    if h : x = y then isTrue (by rw [h]) else isFalse (fun e => h (by cases e; rfl))
  | .ok _, .error _ => isFalse (fun e => by cases e)
  | .error _, .ok _ => isFalse (fun e => by cases e)

/-- Results of the exported save operations: the Go error, the caller's message
and the context after the call, and the calls made on the writer. -/
structure CallResult where
  err : Option Error
  message : Message
  ctx : Context
  trace : List Event
  deriving DecidableEq

namespace autoIncrementTable

/-- The method `curSeqValue`. -/
def curSeqValue {σ : Type} (t : autoIncrementTable) (kv : ReadonlyStore σ) (s : σ) :
    (Nat × Option Error) × σ :=
  match kv.Get s t.seqCodec.Prefix with
  | ((_, some err), s) => ((0, some err), s)
  | ((bz, none), s) => (t.seqCodec.DecodeValue bz, s)

/-- The method `setSeqValue`. -/
def setSeqValue {σ : Type} (t : autoIncrementTable) (kv : Store σ) (s : σ) (seq : Nat) :
    Option Error × σ :=
  kv.Set s t.seqCodec.Prefix (t.seqCodec.EncodeValue seq)

/-- The method `nextSeqValue`. -/
def nextSeqValue {σ : Type} (t : autoIncrementTable) (kv : Store σ) (s : σ) :
    (Nat × Option Error) × σ :=
  match t.curSeqValue kv.toReadonlyStore s with
  | ((_, some err), s) => ((0, some err), s)
  | ((seq, none), s) =>
    let seq := (seq + 1) % uint64Mod
    let (err, s) := t.setSeqValue kv s seq
    ((seq, err), s)

/-- The method `save`. -/
def save (t : autoIncrementTable) (backend : Backend) (message : Message) (mode : saveMode) :
    SaveResult :=
  let val := message.autoIncField
  let writer := newBatchIndexCommitmentWriter backend
  if val = 0 then
    if mode = saveModeUpdate then
      let writer := writer.Close
      { newId := 0, err := some Error.PrimaryKeyInvalidOnUpdate, message := message,
        backend := writer.backend, trace := writer.trace }
    else
      let mode := saveModeInsert
      match t.nextSeqValue batchIndexCommitmentWriter.IndexStore writer with
      | ((_, some err), writer) =>
        let writer := writer.Close
        { newId := 0, err := some err, message := message,
          backend := writer.backend, trace := writer.trace }
      | ((newId, none), writer) =>
        let message := { message with autoIncField := newId }
        let r := t.tableImpl.doSave
          { writer with trace := writer.trace ++ [Event.doSave mode message] } message mode
        let writer := r.writer.Close
        { newId := newId, err := r.err, message := r.message,
          backend := writer.backend, trace := writer.trace }
  else
    if mode = saveModeInsert then
      let writer := writer.Close
      { newId := 0, err := some Error.AutoIncrementKeyAlreadySet, message := message,
        backend := writer.backend, trace := writer.trace }
    else
      let mode := saveModeUpdate
      let r := t.tableImpl.doSave
        { writer with trace := writer.trace ++ [Event.doSave mode message] } message mode
      let writer := r.writer.Close
      { newId := 0, err := r.err, message := r.message,
        backend := writer.backend, trace := writer.trace }

/-- The method `InsertReturningID`. -/
def InsertReturningID (t : autoIncrementTable) (ctx : Context) (message : Message) :
    Nat × CallResult :=
  match ctx with
  | .error err => (0, { err := some err, message := message, ctx := ctx, trace := [] })
  | .ok backend =>
    let r := t.save backend message saveModeInsert
    (r.newId, { err := r.err, message := r.message, ctx := .ok r.backend, trace := r.trace })

/-- The method `Save`. -/
def Save (t : autoIncrementTable) (ctx : Context) (message : Message) : CallResult :=
  match ctx with
  | .error err => { err := some err, message := message, ctx := ctx, trace := [] }
  | .ok backend =>
    let r := t.save backend message saveModeDefault
    { err := r.err, message := r.message, ctx := .ok r.backend, trace := r.trace }

/-- The method `Insert`. -/
def Insert (t : autoIncrementTable) (ctx : Context) (message : Message) : CallResult :=
  match ctx with
  | .error err => { err := some err, message := message, ctx := ctx, trace := [] }
  | .ok backend =>
    let r := t.save backend message saveModeInsert
    { err := r.err, message := r.message, ctx := .ok r.backend, trace := r.trace }

/-- The method `Update`. -/
def Update (t : autoIncrementTable) (ctx : Context) (message : Message) : CallResult :=
  match ctx with
  | .error err => { err := some err, message := message, ctx := ctx, trace := [] }
  | .ok backend =>
    let r := t.save backend message saveModeUpdate
    { err := r.err, message := r.message, ctx := .ok r.backend, trace := r.trace }

end autoIncrementTable

/-! ## The base engine, modelled -/

/-- Modelled from the spec: `tableImpl.doSave`, the save state machine of the base
table engine (its file is not part of this development), for a table without
secondary indexes.  Mode `default` behaves as `insert` on the zero key and as
`update` otherwise; `insert` on a key already present fails, `update` on an
absent key fails; otherwise the primary-key entry is staged.  The caller in
`auto_increment.go` never calls `Write` on the writer it hands over, so the
commit is the last step here. -/
def doSaveModel (writer : batchIndexCommitmentWriter) (message : Message) (mode : saveMode) :
    DoSaveResult :=
  let k := message.autoIncField
  let mode :=
    if mode = saveModeDefault then (if k = 0 then saveModeInsert else saveModeUpdate) else mode
  match writer.CommitmentStoreGet k with
  | (existing, writer) =>
    if existing.isSome ∧ mode = saveModeInsert then
      { err := some Error.AlreadyExists, message := message, writer := writer }
    else if existing.isNone ∧ mode = saveModeUpdate then
      { err := some Error.NotFound, message := message, writer := writer }
    else
      match (writer.CommitmentStoreSet k message.body).Write with
      | (err, writer) => { err := err, message := message, writer := writer }

/-- The base engine with the modelled `doSave`; the two validators stay parameters. -/
def modelTableImpl (custom : Option (Message → Option Error))
    (dflt : Message → Option Error) : tableImpl :=
  { doSave := doSaveModel, customJSONValidator := custom, DefaultJSONValidator := dflt }

/-- An auto-increment table over the modelled base engine, without custom validator. -/
def modelTable (codec : SeqCodec) : autoIncrementTable :=
  { tableImpl := modelTableImpl none (fun _ => none), seqCodec := codec }

/-! ## Sequence codecs -/

/-- What the table code relies on from a sequence codec: the absent (nil) value
decodes to 0, decoding inverts encoding on `uint64`, and decoded values are
`uint64`. -/
structure SeqCodec.Lawful (c : SeqCodec) : Prop where
  decode_nil : c.DecodeValue [] = (0, none)
  decode_encode : ∀ n, n < uint64Mod → c.DecodeValue (c.EncodeValue n) = (n, none)
  decode_lt : ∀ bz n, c.DecodeValue bz = (n, none) → n < uint64Mod

/-- A concrete sequence codec, used to instantiate the statements: eight bytes,
little-endian, under the key `[3, 1]`.  Any other byte string but the empty one
is a decoding error. -/
def fixed64SeqCodec : SeqCodec :=
  { Prefix := [3, 1]
    EncodeValue := fun n =>
      [n % 256, n / 256 % 256, n / 256 ^ 2 % 256, n / 256 ^ 3 % 256,
       n / 256 ^ 4 % 256, n / 256 ^ 5 % 256, n / 256 ^ 6 % 256, n / 256 ^ 7 % 256]
    DecodeValue := fun bz =>
      match bz with
      | [] => (0, none)
      | [b0, b1, b2, b3, b4, b5, b6, b7] =>
        if b0 < 256 ∧ b1 < 256 ∧ b2 < 256 ∧ b3 < 256 ∧ b4 < 256 ∧ b5 < 256 ∧ b6 < 256 ∧ b7 < 256 then
          (b0 + 256 * b1 + 256 ^ 2 * b2 + 256 ^ 3 * b3 + 256 ^ 4 * b4 + 256 ^ 5 * b5
            + 256 ^ 6 * b6 + 256 ^ 7 * b7, none)
        else (0, some (Error.Collaborator 1))
      | _ => (0, some (Error.Collaborator 1)) }

/-- How `save` returns after a call of `doSave`: the id it holds, the error and
message of `doSave`, and the writer of `doSave` once the deferred `Close` has run. -/
def afterDoSave (newId : Nat) (r : DoSaveResult) : SaveResult :=
  { newId := newId, err := r.err, message := r.message,
    backend := r.writer.Close.backend, trace := r.writer.Close.trace }

/-- Modelled from the spec: the base engine's `tableImpl.save` (not in this file): one
writer over the backend, one `doSave`, the writer closed on return. -/
def tableImpl.save (t : tableImpl) (backend : Backend) (message : Message) (mode : saveMode) :
    SaveResult :=
  let writer := newBatchIndexCommitmentWriter backend
  afterDoSave 0
    (t.doSave { writer with trace := writer.trace ++ [Event.doSave mode message] } message mode)

/-! ## The JSON bulk protocol -/

/-- One element of the top-level JSON array (a `json.RawMessage`), told apart by
what the two unmarshalers make of it: `number n` is an element that
`json.Unmarshal` stores into a `uint64` as `n`; `object m` is an element that
unmarshals into the message `m`; `invalid err` is an element that does neither
(or fails to decode) and produces `err`. -/
inductive RawMessage where
  | number (n : Nat)
  | object (m : Message)
  | invalid (err : Error)
  deriving DecidableEq, Repr

/-- The input of a JSON import: the error of `startDecodeJson` when the input
does not open a JSON array, the elements of the array, and the error of the
final check for the closing bracket, if any. -/
structure Reader where
  start : Option Error
  elems : List RawMessage
  finish : Option Error
  deriving DecidableEq, Repr

/-- How a call ends: it returns its error result, or it panics. -/
inductive Outcome where
  | returned (err : Option Error)
  | panicked (err : Error)
  deriving DecidableEq, Repr

/-- The call `json.Unmarshal(message, &seq)`: the new value of `seq` and the error. -/
def RawMessage.unmarshalUint64 (message : RawMessage) (seq : Nat) : Nat × Option Error :=
  match message with
  | .number n => if n < uint64Mod then (n, none) else (seq, some Error.JSONImportError)
  | .object _ => (seq, some Error.JSONImportError)
  | .invalid err => (seq, some err)

/-- Unmarshaling of an element into a fresh message of the table's type. -/
def RawMessage.unmarshalMessage (message : RawMessage) : Message × Option Error :=
  match message with
  | .number _ => ({ autoIncField := 0, body := [] }, some Error.JSONImportError)
  | .object m => (m, none)
  | .invalid err => ({ autoIncField := 0, body := [] }, some err)

/-- Modelled from the spec: the decode loop of `tableImpl.doDecodeJson` (not in this
file) over the remaining elements.  The first element is offered to `onFirst`;
an element that `onFirst` does not take, and every later element, is unmarshaled
into a message and passed to `onMsg`; the loop stops at the first error. -/
def doDecodeLoop {σ : Type} (onFirst : RawMessage → σ → Except Error Bool × σ)
    (onMsg : Message → σ → Option Error × σ) : Bool → List RawMessage → σ → Outcome × σ
  | _, [], s => (Outcome.returned none, s)
  | first, raw :: rest, s =>
    let onMessage (s : σ) : Outcome × σ :=
      match raw.unmarshalMessage with
      | (_, some err) => (Outcome.returned (some err), s)
      | (msg, none) =>
        match onMsg msg s with
        | (some err, s) => (Outcome.returned (some err), s)
        | (none, s) => doDecodeLoop onFirst onMsg false rest s
    if first then
      match onFirst raw s with
      | (.error err, s) => (Outcome.panicked err, s)
      | (.ok true, s) => doDecodeLoop onFirst onMsg false rest s
      | (.ok false, s) => onMessage s
    else onMessage s

/-- Modelled from the spec: `tableImpl.doDecodeJson`: the decode loop, then the check
for the closing bracket. -/
def doDecodeJson {σ : Type} (reader : Reader) (onFirst : RawMessage → σ → Except Error Bool × σ)
    (onMsg : Message → σ → Option Error × σ) (s : σ) : Outcome × σ :=
  match doDecodeLoop onFirst onMsg true reader.elems s with
  | (Outcome.returned none, s) => (Outcome.returned reader.finish, s)
  | res => res

/-- State of one run of `decodeAutoIncJson`: the captured variable `seq`, the
contents of the stores, and the calls made on the writers of the run. -/
structure ImportState where
  seq : Nat
  backend : Backend
  trace : List Event
  deriving DecidableEq, Repr

/-- The text of the error for an id above the declared maximum. -/
def invalidIDError (id maxID : Nat) : Error :=
  Error.Errorf ("invalid ID " ++ toString id ++ ", expected a value <= " ++ toString maxID
    ++ ", the highest sequence number")

namespace autoIncrementTable

/-- The first closure `decodeAutoIncJson` passes to `doDecodeJson`: it tries the
element as the sequence number and, with a backend, persists it through a writer
of its own.  A panic is the `error` result. -/
def decodeAutoIncJson.onFirst (t : autoIncrementTable) (backend : Bool)
    (message : RawMessage) (st : ImportState) : Except Error Bool × ImportState :=
  match message.unmarshalUint64 st.seq with
  | (seq, none) =>
    if backend then
      let writer := newBatchIndexCommitmentWriter st.backend
      match t.setSeqValue batchIndexCommitmentWriter.IndexStore writer seq with
      | (some err, writer) =>
        let writer := writer.Close
        (.error err, { seq := seq, backend := writer.backend, trace := st.trace ++ writer.trace })
      | (none, writer) =>
        match writer.Write with
        | (some err, writer) =>
          let writer := writer.Close
          (.error err,
            { seq := seq, backend := writer.backend, trace := st.trace ++ writer.trace })
        | (none, writer) =>
          let writer := writer.Close
          (.ok true, { seq := seq, backend := writer.backend, trace := st.trace ++ writer.trace })
    else (.ok true, { st with seq := seq })
  | (seq, some _) => (.ok false, { st with seq := seq })

/-- The second closure `decodeAutoIncJson` passes to `doDecodeJson`: `onMsg` on the
message and the current value of `seq`. -/
def decodeAutoIncJson.onMessage
    (onMsg : Message → Nat → Backend → Option Error × Backend × List Event)
    (message : Message) (st : ImportState) : Option Error × ImportState :=
  match onMsg message st.seq st.backend with
  | (err, world, calls) => (err, { st with backend := world, trace := st.trace ++ calls })

/-- The method `decodeAutoIncJson`.  `backend` tells whether the backend
argument is non-nil; `world` is the content of the stores when the call starts.
`onMsg` gets the message, the maximal id and the stores, and returns its error,
the stores and the calls it made. -/
def decodeAutoIncJson (t : autoIncrementTable) (backend : Bool) (reader : Reader)
    (onMsg : Message → Nat → Backend → Option Error × Backend × List Event)
    (world : Backend) : Outcome × ImportState :=
  match reader.start with
  | some err => (Outcome.returned (some err), { seq := 0, backend := world, trace := [] })
  | none =>
    doDecodeJson reader (decodeAutoIncJson.onFirst t backend)
      (decodeAutoIncJson.onMessage onMsg) { seq := 0, backend := world, trace := [] }

/-- The closure `ValidateJSON` passes to `decodeAutoIncJson`. -/
def ValidateJSON.onMsg (t : autoIncrementTable) (message : Message) (maxID : Nat)
    (world : Backend) : Option Error × Backend × List Event :=
  let id := message.autoIncField
  if id > maxID then (some (invalidIDError id maxID), world, [])
  else
    match t.tableImpl.customJSONValidator with
    | some validator => (validator message, world, [])
    | none => (t.tableImpl.DefaultJSONValidator message, world, [])

/-- The method `ValidateJSON`; `world` is the content of the stores, to which the
method holds no reference. -/
def ValidateJSON (t : autoIncrementTable) (reader : Reader) (world : Backend) :
    Outcome × ImportState :=
  t.decodeAutoIncJson false reader (ValidateJSON.onMsg t) world

/-- The closure `ImportJSON` passes to `decodeAutoIncJson`. -/
def ImportJSON.onMsg (t : autoIncrementTable) (message : Message) (maxID : Nat)
    (backend : Backend) : Option Error × Backend × List Event :=
  let id := message.autoIncField
  if id = 0 then
    let r := t.save backend message saveModeInsert
    (r.err, r.backend, r.trace)
  else
    if id > maxID then (some (invalidIDError id maxID), backend, [])
    else
      let r := t.tableImpl.save backend message saveModeInsert
      (r.err, r.backend, r.trace)

/-- The method `ImportJSON`. -/
def ImportJSON (t : autoIncrementTable) (ctx : Context) (reader : Reader) :
    Outcome × Context × List Event :=
  match ctx with
  | .error err => (Outcome.returned (some err), ctx, [])
  | .ok backend =>
    match t.decodeAutoIncJson true reader (ImportJSON.onMsg t) backend with
    | (out, st) => (out, .ok st.backend, st.trace)

end autoIncrementTable

/-! ## Runs and the sequence counter -/

/-- The committed sequence counter: `curSeqValue` on the backend's index store. -/
def committedSeq (t : autoIncrementTable) (b : Backend) : Nat × Option Error :=
  (t.curSeqValue Backend.IndexStoreReader b).1

/-- A sequence of `save` calls on one table, each on the backend the previous one
left.  Returns the final backend and, in order, the ids returned by the
successful calls whose message came with auto-increment field 0. -/
def runSaves (t : autoIncrementTable) : Backend → List (Message × saveMode) → Backend × List Nat
  | b, [] => (b, [])
  | b, (m, mode) :: ops =>
    let r := t.save b m mode
    let rest := runSaves t r.backend ops
    (rest.1, if m.autoIncField = 0 ∧ r.err = none then r.newId :: rest.2 else rest.2)

/-- The base `doSave` commits the writer exactly when it succeeds, as far as the
sequence entry goes: after a successful call the backend holds under `seqKey`
what a `Write` of the writer it was given puts there, and after a failing call
the backend is the one the writer was opened on. -/
def CommitsOnSuccess (seqKey : Bytes)
    (doSave : batchIndexCommitmentWriter → Message → saveMode → DoSaveResult) : Prop :=
  ∀ w m mode,
    ((doSave w m mode).err = none →
      kvGet seqKey (doSave w m mode).writer.backend.indexStore =
        kvGet seqKey w.Write.2.backend.indexStore)
    ∧ ((doSave w m mode).err ≠ none → (doSave w m mode).writer.backend = w.backend)

/-- Every record of the commitment store has a surrogate key that is at most the
committed sequence counter. -/
def keysBounded (t : autoIncrementTable) (b : Backend) : Prop :=
  (committedSeq t b).2 = none ∧ ∀ kv ∈ b.commitmentStore, kv.1 ≤ (committedSeq t b).1

instance (t : autoIncrementTable) (b : Backend) : Decidable (keysBounded t b) := by
  unfold keysBounded; infer_instance

/-- The invariant `keysBounded` on the backend of a context, if it has one. -/
def ctxKeysBounded (t : autoIncrementTable) (ctx : Context) : Prop :=
  match ctx with
  | .ok b => keysBounded t b
  | .error _ => True

instance (t : autoIncrementTable) (ctx : Context) : Decidable (ctxKeysBounded t ctx) := by
  unfold ctxKeysBounded; split <;> infer_instance

/-- The loop invariant of an import with `n` elements to go: the keys are bounded,
the declared maximum is at most the committed counter, and the counter cannot
reach `2 ^ 64` within `n` increments. -/
def importInv (t : autoIncrementTable) (n : Nat) (st : ImportState) : Prop :=
  keysBounded t st.backend ∧ st.seq ≤ (committedSeq t st.backend).1
    ∧ (committedSeq t st.backend).1 + n < uint64Mod

/-- The first element of the input is a number that fits a `uint64`. -/
def Reader.leadingNumber (reader : Reader) : Option Nat :=
  match reader.elems with
  | .number n :: _ => if n < uint64Mod then some n else none
  | _ => none

/-- The base `doSave` commits nothing when it fails: after a failing call the
backend is the one the writer was opened on. -/
def NoCommitOnFailure
    (doSave : batchIndexCommitmentWriter → Message → saveMode → DoSaveResult) : Prop :=
  ∀ w m mode, (doSave w m mode).err ≠ none → (doSave w m mode).writer.backend = w.backend

/-- The validator `ValidateJSON` runs on a message: the custom validator of the
table when one is configured, the default validator otherwise. -/
def autoIncrementTable.jsonValidator (t : autoIncrementTable) (message : Message) :
    Option Error :=
  match t.tableImpl.customJSONValidator with
  | some validator => validator message
  | none => t.tableImpl.DefaultJSONValidator message

/-- The state of a run of `decodeAutoIncJson` once its first closure has taken the
leading number `n`: `seq` is `n` and, with a backend, the sequence entry has been
written to the index store by a writer of its own, written out and closed. -/
def afterLeadingNumber (t : autoIncrementTable) (backend : Bool) (n : Nat) (st : ImportState) :
    ImportState :=
  if backend then
    { seq := n,
      backend := { commitmentStore := st.backend.commitmentStore,
                   indexStore := kvSet t.seqCodec.Prefix (t.seqCodec.EncodeValue n)
                     st.backend.indexStore },
      trace := st.trace ++ [Event.indexSet t.seqCodec.Prefix (t.seqCodec.EncodeValue n),
        Event.Write, Event.Close] }
  else { st with seq := n }

/-- Number of message elements with surrogate key 0 among `elems`. -/
def zeroKeyCount : List RawMessage → Nat
  | [] => 0
  | .object m :: rest => (if m.autoIncField = 0 then 1 else 0) + zeroKeyCount rest
  | _ :: rest => zeroKeyCount rest

/-- The non-zero surrogate keys of the message elements among `elems`, in order. -/
def explicitKeys : List RawMessage → List Nat
  | [] => []
  | .object m :: rest =>
    if m.autoIncField = 0 then explicitKeys rest else m.autoIncField :: explicitKeys rest
  | _ :: rest => explicitKeys rest

/-- The loop invariant of an import into which the elements `rem` are still to go and
whose messages pass validation: `importInv`, no stored key within the declared
maximum is a key of an element to come, the keys to come are pairwise distinct, and
the validator accepts the messages to come. -/
def importFresh (t : autoIncrementTable) (rem : List RawMessage) (st : ImportState) : Prop :=
  importInv t rem.length st
    ∧ (∀ kv ∈ st.backend.commitmentStore, kv.1 ≤ st.seq → kv.1 ∉ explicitKeys rem)
    ∧ (explicitKeys rem).Nodup
    ∧ ∀ m, RawMessage.object m ∈ rem → t.jsonValidator m = none

/-- The entries the codecs of `ormkv` work on: a primary-key entry, an index
entry, or the sequence entry. -/
inductive Entry where
  | PrimaryKeyEntry (key : Nat) (value : Bytes)
  | IndexKeyEntry (indexKey : Bytes) (primaryKey : Nat)
  | SeqEntry (value : Nat)
  deriving DecidableEq, Repr

/-- The method `EncodeEntry`.  The two encoders it chooses between,
`t.seqCodec.EncodeEntry` and `t.tableImpl.EncodeEntry`, are not in this file and
are parameters; each returns key, value and error. -/
def autoIncrementTable.EncodeEntry
    (seqCodecEncodeEntry tableImplEncodeEntry : Entry → Bytes × Bytes × Option Error)
    (entry : Entry) : Bytes × Bytes × Option Error :=
  match entry with
  | .SeqEntry _ => seqCodecEncodeEntry entry
  | _ => tableImplEncodeEntry entry

/-- The method `GetTable`.  `messageType` is the full name of the message type
the table is configured with (`t.MessageType().Descriptor().FullName()`, from the
base engine), `fullName` the full name of the type of the message passed in; the
nil table is `none`. -/
def autoIncrementTable.GetTable (t : autoIncrementTable) (messageType : String)
    (fullName : String) : Option autoIncrementTable :=
  if fullName = messageType then some t else none

end Ormtable

/-!
# Store keys of the fee grant module

A shallow embedding of `x/feegrant/key.go`.  Byte strings are lists of
natural numbers below 256; a panic of a function is a result of its own.  The
calls of `fmt.Println` in `FeeAllowanceKey` print and have no part in the result.
-/

namespace Feegrant

/-- Byte strings (`[]byte`), one list element per byte. -/
abbrev Bytes := List Nat

/-- The address type `sdk.AccAddress`, a byte string; `Bytes()` is the identity. -/
abbrev AccAddress := Bytes

/-- Every element is a byte. -/
def wellFormed (bz : Bytes) : Prop := ∀ b ∈ bz, b < 256

instance (bz : Bytes) : Decidable (wellFormed bz) := by
  unfold wellFormed; infer_instance

/-- The variable `FeeAllowanceKeyPrefix`. -/
def FeeAllowanceKeyPrefix : Bytes := [0x00]

/-- The variable `FeeAllowanceQueueKeyPrefix`. -/
def FeeAllowanceQueueKeyPrefix : Bytes := [0x01]

/-- Modelled from the spec: `address.MustLengthPrefix` (package `types/address`, not in
this file), after the key format documented at `FeeAllowanceKey`: the length of
the address in one byte, then the address.  It panics, which is `none`, when the
address is longer than 255 bytes. -/
def MustLengthPrefix (bz : Bytes) : Option Bytes :=
  if bz.length ≤ 255 then some (bz.length :: bz) else none

/-- The function `FeeAllowancePrefixByGrantee`; `none` is a panic. -/
def FeeAllowancePrefixByGrantee (grantee : AccAddress) : Option Bytes :=
  match MustLengthPrefix grantee with
  | none => none
  | some lp => some (FeeAllowanceKeyPrefix ++ lp)

/-- The function `FeeAllowanceKey`; `none` is a panic. -/
def FeeAllowanceKey (granter : AccAddress) (grantee : AccAddress) : Option Bytes :=
  match MustLengthPrefix granter, MustLengthPrefix grantee with
  | some _, some _ =>
    match FeeAllowancePrefixByGrantee grantee, MustLengthPrefix granter with
    | some p, some lp => some (p ++ lp)
    | _, _ => none
  | _, _ => none

/-- How `ParseAddressesFromFeeAllowanceKey` ends: with its two results, with the
panic of `kv.AssertKeyAtLeastLength` for the length it asked for, or with the
run-time panic of an index or of a slice expression that is out of range. -/
inductive ParseResult where
  | ok (granter grantee : AccAddress)
  | assertFailed (length : Nat)
  | indexOutOfRange (index : Nat)
  | sliceOutOfRange (low high : Nat)
  deriving DecidableEq, Repr

/-- The slice expression `key[low:high]` on a slice whose capacity is its length. -/
def slice (key : Bytes) (low high : Nat) : Option Bytes :=
  if low ≤ high ∧ high ≤ key.length then some ((key.drop low).take (high - low)) else none

/-- Modelled from the spec: `kv.AssertKeyAtLeastLength` (package `types/kv`, not in this
file), after its name: it panics when the key is shorter than `length`, and
`true` is that it passes. -/
def AssertKeyAtLeastLength (key : Bytes) (length : Nat) : Bool :=
  decide (length ≤ key.length)

/-- The function `ParseAddressesFromFeeAllowanceKey`.  `granteeAddrLen` is a
`byte`, so the index `1+granteeAddrLen` is computed modulo 256; the other sums are
sums of `int`. -/
def ParseAddressesFromFeeAllowanceKey (key : Bytes) : ParseResult :=
  if ¬ AssertKeyAtLeastLength key 1 then ParseResult.assertFailed 1
  else
    match key[0]? with
    | none => ParseResult.indexOutOfRange 0
    | some granteeAddrLen =>
      if ¬ AssertKeyAtLeastLength key (1 + granteeAddrLen) then
        ParseResult.assertFailed (1 + granteeAddrLen)
      else
        match slice key 1 (1 + granteeAddrLen) with
        | none => ParseResult.sliceOutOfRange 1 (1 + granteeAddrLen)
        | some grantee =>
          match key[(1 + granteeAddrLen) % 256]? with
          | none => ParseResult.indexOutOfRange ((1 + granteeAddrLen) % 256)
          | some granterAddrLen =>
            if ¬ AssertKeyAtLeastLength key (2 + granteeAddrLen + granterAddrLen) then
              ParseResult.assertFailed (2 + granteeAddrLen + granterAddrLen)
            else
              match slice key (2 + granterAddrLen) (2 + granteeAddrLen + granterAddrLen) with
              | none =>
                ParseResult.sliceOutOfRange (2 + granterAddrLen)
                  (2 + granteeAddrLen + granterAddrLen)
              | some granter => ParseResult.ok granter grantee

end Feegrant

namespace Ormtable

/-! ## Export -/

/-- What one call of `Write` hands to the output: a literal byte string, the
bytes `json.Marshal` makes of a `uint64`, or the JSON object marshaled from a
record. -/
inductive Chunk where
  | text (s : String)
  | uint64 (n : Nat)
  | message (m : Message)
  deriving DecidableEq, Repr

/-- The bytes of a chunk; `marshal` is the JSON marshaling of a record, which
is not part of this file.  A `uint64` is rendered in decimal. -/
def Chunk.render (marshal : Message → String) : Chunk → String
  | .text s => s
  | .uint64 n => toString n
  | .message m => marshal m

/-- The bytes of a sequence of chunks, in the order they were written. -/
def render (marshal : Message → String) : List Chunk → String
  | [] => ""
  | p :: ps => p.render marshal ++ render marshal ps

/-- An `io.Writer`: what has been written so far, and the number of calls of
`Write` it still accepts before it fails; `none` is a writer that never fails. -/
structure Writer where
  written : List Chunk
  accepts : Option Nat
  deriving DecidableEq, Repr

/-- The call `writer.Write(p)`. -/
def Writer.Write (w : Writer) (p : Chunk) : Option Error × Writer :=
  match w.accepts with
  | none => (none, { w with written := w.written ++ [p] })
  | some 0 => (some (Error.Collaborator 2), w)
  | some (n + 1) => (none, { written := w.written ++ [p], accepts := some n })

/-- An empty output that never fails. -/
def Writer.buffer : Writer := { written := [], accepts := none }

/-- The method `ExportJSON`.  The base engine's `doExportJSON` is not in this file
and is a parameter.  `json.Marshal` of a `uint64` does not fail. -/
def autoIncrementTable.ExportJSON (t : autoIncrementTable)
    (doExportJSON : Context → Writer → Option Error × Writer) (ctx : Context)
    (writer : Writer) : Option Error × Writer :=
  match ctx with
  | .error err => (some err, writer)
  | .ok backend =>
    match writer.Write (Chunk.text "[") with
    | (some err, writer) => (some err, writer)
    | (none, writer) =>
      match t.curSeqValue Backend.IndexStoreReader backend with
      | ((_, some err), _) => (some err, writer)
      | ((seq, none), _) =>
        if seq ≠ 0 then
          match writer.Write (Chunk.uint64 seq) with
          | (some err, writer) => (some err, writer)
          | (none, writer) =>
            match writer.Write (Chunk.text ",\n") with
            | (some err, writer) => (some err, writer)
            | (none, writer) => doExportJSON ctx writer
        else doExportJSON ctx writer

/-- The calls `Write(p)` for the chunks `ps` in order, up to the first that fails. -/
def Writer.WriteAll : Writer → List Chunk → Option Error × Writer
  | w, [] => (none, w)
  | w, p :: ps =>
    match w.Write p with
    | (some err, w) => (some err, w)
    | (none, w) => Writer.WriteAll w ps

/-- The records of the commitment store as a scan in primary-key order yields
them: each stored key once, in increasing order, with the value read under it. -/
def recordsInOrder (b : Backend) : List (Nat × Bytes) :=
  (((b.commitmentStore.map Prod.fst).dedup).insertionSort (fun j k => j ≤ k)).map
    (fun k => (k, (kvGet k b.commitmentStore).getD []))

/-- The chunks for the records `recs`: one JSON object per record, a separator
before each but the first (`start` tells whether the next record is the first). -/
def recordChunks : Bool → List (Nat × Bytes) → List Chunk
  | _, [] => []
  | start, (k, v) :: rest =>
    (if start then [] else [Chunk.text ",\n"])
      ++ Chunk.message { autoIncField := k, body := v } :: recordChunks false rest

/-- Modelled from the spec: the base engine's `tableImpl.doExportJSON` (not in this
file): it writes every stored record as a JSON object, in primary-key order,
separated by commas, and then the closing bracket. -/
def doExportJSONModel (ctx : Context) (writer : Writer) : Option Error × Writer :=
  match ctx with
  | .error err => (some err, writer)
  | .ok backend =>
    writer.WriteAll (recordChunks true (recordsInOrder backend) ++ [Chunk.text "]"])

/-- Modelled from the spec: the elements the JSON decoder of the import (not in this
file) reads from the chunks after the opening bracket, and the error of the
final check for the closing bracket.  With `value` set a value has to come next,
and anything else is an element that fails to decode; otherwise a value has just
been read and a separator or the closing bracket has to come next.  A record
written by the export is read back as the same record. -/
def readArray : Bool → List Chunk → List RawMessage × Option Error
  | true, Chunk.uint64 n :: rest =>
    (RawMessage.number n :: (readArray false rest).1, (readArray false rest).2)
  | true, Chunk.message m :: rest =>
    (RawMessage.object m :: (readArray false rest).1, (readArray false rest).2)
  | true, _ => ([RawMessage.invalid Error.JSONImportError], none)
  | false, Chunk.text s :: rest =>
    if s = ",\n" then readArray true rest
    else if s = "]" then ([], none)
    else ([], some Error.JSONImportError)
  | false, _ => ([], some Error.JSONImportError)

/-- Modelled from the spec: the input of an import that the JSON decoder (not in this
file) makes of written chunks: the opening bracket, then the closing bracket or
the elements. -/
def readerOf : List Chunk → Reader
  | Chunk.text s :: rest =>
    if s = "[" then
      match rest with
      | [] => { start := none, elems := [], finish := some Error.JSONImportError }
      | Chunk.text s' :: rest' =>
        if s' = "]" then { start := none, elems := [], finish := none }
        else { start := none, elems := (readArray true (Chunk.text s' :: rest')).1,
               finish := (readArray true (Chunk.text s' :: rest')).2 }
      | _ => { start := none, elems := (readArray true rest).1,
               finish := (readArray true rest).2 }
    else { start := some Error.JSONImportError, elems := [], finish := none }
  | _ => { start := some Error.JSONImportError, elems := [], finish := none }

/-! ## Sequence codecs, continued -/


theorem fixed64SeqCodec_lawful : fixed64SeqCodec.Lawful := by
  refine ⟨rfl, ?_, ?_⟩
  · intro n hn
    have h : n < 2 ^ 64 := hn
    simp only [fixed64SeqCodec]
    rw [if_pos (by omega)]
    congr 1
    omega
  · intro bz n h
    simp only [fixed64SeqCodec] at h
    split at h
    · simp at h; show n < 2 ^ 64; omega
    · split at h
      · rename_i hb
        simp only [Prod.mk.injEq, and_true] at h
        show n < 2 ^ 64
        omega
      · simp at h
    · simp at h

/-! ## Stores -/

theorem kvGet_kvSet_self {κ ν : Type} [DecidableEq κ] (k : κ) (v : ν) (s : List (κ × ν)) :
    kvGet k (kvSet k v s) = some v := by
  induction s with
  | nil => simp [kvSet, kvGet]
  | cons hd tl ih =>
    obtain ⟨k', v'⟩ := hd
    by_cases h : k' = k
    · simp [kvSet, kvGet, h]
    · simp [kvSet, kvGet, h, ih]

theorem mem_kvSet {κ ν : Type} [DecidableEq κ] (k : κ) (v : ν) (s : List (κ × ν))
    (e : κ × ν) (he : e ∈ kvSet k v s) : e = (k, v) ∨ e ∈ s := by
  induction s with
  | nil => simpa [kvSet] using he
  | cons hd tl ih =>
    obtain ⟨k', v'⟩ := hd
    by_cases h : k' = k
    · simp only [kvSet, h, if_true, List.mem_cons] at he
      rcases he with he | he
      · exact Or.inl he
      · exact Or.inr (List.mem_cons_of_mem _ he)
    · simp only [kvSet, h, if_false, List.mem_cons] at he
      rcases he with he | he
      · exact Or.inr (by rw [he]; exact List.mem_cons_self _ _)
      · rcases ih he with h1 | h1
        · exact Or.inl h1
        · exact Or.inr (List.mem_cons_of_mem _ h1)

theorem length_kvSet_of_isSome {κ ν : Type} [DecidableEq κ] (k : κ) (v : ν) (s : List (κ × ν))
    (h : (kvGet k s).isSome) : (kvSet k v s).length = s.length := by
  induction s with
  | nil => simp [kvGet] at h
  | cons hd tl ih =>
    obtain ⟨k', v'⟩ := hd
    by_cases hk : k' = k
    · simp [kvSet, hk]
    · simp only [kvGet, hk, if_false] at h
      simp [kvSet, hk, ih h]

theorem kvSet_kvSet_self {κ ν : Type} [DecidableEq κ] (k : κ) (v : ν) (s : List (κ × ν)) :
    kvSet k v (kvSet k v s) = kvSet k v s := by
  induction s with
  | nil => simp [kvSet]
  | cons hd tl ih =>
    obtain ⟨k', v'⟩ := hd
    by_cases h : k' = k
    · simp [kvSet, h]
    · simp [kvSet, h, ih]

theorem mem_of_kvGet_isSome {κ ν : Type} [DecidableEq κ] (k : κ) (s : List (κ × ν))
    (h : (kvGet k s).isSome) : ∃ v, (k, v) ∈ s := by
  induction s with
  | nil => simp [kvGet] at h
  | cons hd tl ih =>
    obtain ⟨k', v'⟩ := hd
    by_cases hk : k' = k
    · exact ⟨v', by rw [hk]; exact List.mem_cons_self _ _⟩
    · simp only [kvGet, hk, if_false] at h
      obtain ⟨v, hv⟩ := ih h
      exact ⟨v, List.mem_cons_of_mem _ hv⟩

/-! ## The equations of `save` -/

theorem curSeqValue_newWriter (t : autoIncrementTable) (backend : Backend) :
    (t.curSeqValue batchIndexCommitmentWriter.IndexStore.toReadonlyStore
      (newBatchIndexCommitmentWriter backend)).1 = committedSeq t backend := by
  simp [autoIncrementTable.curSeqValue, committedSeq, batchIndexCommitmentWriter.IndexStore,
    batchIndexCommitmentWriter.IndexStoreGet, newBatchIndexCommitmentWriter, flushWrites,
    Backend.IndexStoreReader]

theorem committedSeq_eq (t : autoIncrementTable) (backend : Backend) :
    committedSeq t backend =
      t.seqCodec.DecodeValue ((kvGet t.seqCodec.Prefix backend.indexStore).getD []) := by
  simp [autoIncrementTable.curSeqValue, committedSeq, Backend.IndexStoreReader]

theorem save_eq_of_zero_key (t : autoIncrementTable) (backend : Backend) (message : Message)
    (mode : saveMode) (c : Nat)
    (hval : message.autoIncField = 0)
    (hmode : mode ≠ saveModeUpdate)
    (hcur : committedSeq t backend = (c, none)) :
    t.save backend message mode =
      afterDoSave ((c + 1) % uint64Mod)
        (t.tableImpl.doSave
          { backend := backend, commitmentWriter := [],
            indexWriter := [(t.seqCodec.Prefix, t.seqCodec.EncodeValue ((c + 1) % uint64Mod))],
            trace := [Event.indexGet t.seqCodec.Prefix,
              Event.indexSet t.seqCodec.Prefix (t.seqCodec.EncodeValue ((c + 1) % uint64Mod)),
              Event.doSave saveModeInsert { message with autoIncField := (c + 1) % uint64Mod }] }
          { message with autoIncField := (c + 1) % uint64Mod } saveModeInsert) := by
  rw [committedSeq_eq] at hcur
  simp only [autoIncrementTable.save, hval, if_true, hmode, if_false,
    autoIncrementTable.nextSeqValue, autoIncrementTable.curSeqValue,
    autoIncrementTable.setSeqValue, batchIndexCommitmentWriter.IndexStore,
    batchIndexCommitmentWriter.IndexStoreGet, batchIndexCommitmentWriter.IndexStoreSet,
    newBatchIndexCommitmentWriter, flushWrites, List.foldl_nil, hcur, afterDoSave,
    List.nil_append, List.cons_append]

theorem save_eq_of_zero_key_error (t : autoIncrementTable) (backend : Backend)
    (message : Message) (mode : saveMode) (c : Nat) (e : Error)
    (hval : message.autoIncField = 0)
    (hmode : mode ≠ saveModeUpdate)
    (hcur : committedSeq t backend = (c, some e)) :
    t.save backend message mode =
      { newId := 0, err := some e, message := message, backend := backend,
        trace := [Event.indexGet t.seqCodec.Prefix, Event.Close] } := by
  rw [committedSeq_eq] at hcur
  simp only [autoIncrementTable.save, hval, if_true, hmode, if_false,
    autoIncrementTable.nextSeqValue, autoIncrementTable.curSeqValue,
    batchIndexCommitmentWriter.IndexStore,
    batchIndexCommitmentWriter.IndexStoreGet, batchIndexCommitmentWriter.Close,
    newBatchIndexCommitmentWriter, flushWrites, List.foldl_nil, hcur,
    List.nil_append, List.cons_append]

theorem save_update_eq_of_zero_key (t : autoIncrementTable) (backend : Backend)
    (message : Message) (hval : message.autoIncField = 0) :
    t.save backend message saveModeUpdate =
      { newId := 0, err := some Error.PrimaryKeyInvalidOnUpdate, message := message,
        backend := backend, trace := [Event.Close] } := by
  simp [autoIncrementTable.save, hval, batchIndexCommitmentWriter.Close,
    newBatchIndexCommitmentWriter]

theorem save_insert_eq_of_nonzero_key (t : autoIncrementTable) (backend : Backend)
    (message : Message) (hval : message.autoIncField ≠ 0) :
    t.save backend message saveModeInsert =
      { newId := 0, err := some Error.AutoIncrementKeyAlreadySet, message := message,
        backend := backend, trace := [Event.Close] } := by
  simp [autoIncrementTable.save, hval, batchIndexCommitmentWriter.Close,
    newBatchIndexCommitmentWriter]

theorem save_eq_of_nonzero_key (t : autoIncrementTable) (backend : Backend)
    (message : Message) (mode : saveMode)
    (hval : message.autoIncField ≠ 0) (hmode : mode ≠ saveModeInsert) :
    t.save backend message mode =
      afterDoSave 0
        (t.tableImpl.doSave
          { backend := backend, commitmentWriter := [], indexWriter := [],
            trace := [Event.doSave saveModeUpdate message] }
          message saveModeUpdate) := by
  simp [autoIncrementTable.save, hval, hmode, afterDoSave, newBatchIndexCommitmentWriter]

/-! ## The modelled base engine -/

theorem doSaveModel_message (w : batchIndexCommitmentWriter) (m : Message) (mode : saveMode) :
    (doSaveModel w m mode).message = m := by
  simp only [doSaveModel, batchIndexCommitmentWriter.CommitmentStoreGet,
    batchIndexCommitmentWriter.Write]
  split_ifs <;> rfl

theorem doSaveModel_backend_of_error (w : batchIndexCommitmentWriter) (m : Message)
    (mode : saveMode) (h : (doSaveModel w m mode).err ≠ none) :
    (doSaveModel w m mode).writer.backend = w.backend := by
  revert h
  simp only [doSaveModel, batchIndexCommitmentWriter.CommitmentStoreGet,
    batchIndexCommitmentWriter.Write]
  split_ifs <;> simp

theorem doSaveModel_backend_of_ok (w : batchIndexCommitmentWriter) (m : Message)
    (mode : saveMode) (h : (doSaveModel w m mode).err = none) :
    (doSaveModel w m mode).writer.backend =
      { commitmentStore := flushWrites w.backend.commitmentStore
          (w.commitmentWriter ++ [(m.autoIncField, m.body)]),
        indexStore := flushWrites w.backend.indexStore w.indexWriter } := by
  revert h
  simp only [doSaveModel, batchIndexCommitmentWriter.CommitmentStoreGet,
    batchIndexCommitmentWriter.Write, batchIndexCommitmentWriter.CommitmentStoreSet]
  split_ifs <;> simp

theorem doSaveModel_insert_err (w : batchIndexCommitmentWriter) (m : Message) :
    (doSaveModel w m saveModeInsert).err =
      if (kvGet m.autoIncField
          (flushWrites w.backend.commitmentStore w.commitmentWriter)).isSome
      then some Error.AlreadyExists else none := by
  simp only [doSaveModel, batchIndexCommitmentWriter.CommitmentStoreGet,
    batchIndexCommitmentWriter.Write]
  split_ifs <;> simp_all

theorem doSaveModel_update_err (w : batchIndexCommitmentWriter) (m : Message) :
    (doSaveModel w m saveModeUpdate).err =
      if (kvGet m.autoIncField
          (flushWrites w.backend.commitmentStore w.commitmentWriter)).isSome
      then none else some Error.NotFound := by
  simp only [doSaveModel, batchIndexCommitmentWriter.CommitmentStoreGet,
    batchIndexCommitmentWriter.Write]
  split_ifs <;> simp_all

theorem doSaveModel_commits (seqKey : Bytes) : CommitsOnSuccess seqKey doSaveModel := by
  intro w m mode
  refine ⟨fun h => ?_, fun h => doSaveModel_backend_of_error w m mode h⟩
  rw [doSaveModel_backend_of_ok w m mode h]
  rfl

theorem doSaveModel_insert_of_absent (w : batchIndexCommitmentWriter) (m : Message)
    (h : kvGet m.autoIncField
      (flushWrites w.backend.commitmentStore w.commitmentWriter) = none) :
    doSaveModel w m saveModeInsert =
      { err := none, message := m,
        writer :=
          { backend :=
              { commitmentStore := flushWrites w.backend.commitmentStore
                  (w.commitmentWriter ++ [(m.autoIncField, m.body)]),
                indexStore := flushWrites w.backend.indexStore w.indexWriter },
            commitmentWriter := [], indexWriter := [],
            trace := w.trace ++ [Event.commitmentGet m.autoIncField,
              Event.commitmentSet m.autoIncField m.body, Event.Write] } } := by
  simp [doSaveModel, batchIndexCommitmentWriter.CommitmentStoreGet,
    batchIndexCommitmentWriter.Write, batchIndexCommitmentWriter.CommitmentStoreSet, h]

theorem doSaveModel_update_of_present (w : batchIndexCommitmentWriter) (m : Message)
    (h : (kvGet m.autoIncField
      (flushWrites w.backend.commitmentStore w.commitmentWriter)).isSome) :
    doSaveModel w m saveModeUpdate =
      { err := none, message := m,
        writer :=
          { backend :=
              { commitmentStore := flushWrites w.backend.commitmentStore
                  (w.commitmentWriter ++ [(m.autoIncField, m.body)]),
                indexStore := flushWrites w.backend.indexStore w.indexWriter },
            commitmentWriter := [], indexWriter := [],
            trace := w.trace ++ [Event.commitmentGet m.autoIncField,
              Event.commitmentSet m.autoIncField m.body, Event.Write] } } := by
  have h' : ¬ (kvGet m.autoIncField
      (flushWrites w.backend.commitmentStore w.commitmentWriter)).isNone := by
    cases hk : kvGet m.autoIncField (flushWrites w.backend.commitmentStore w.commitmentWriter)
    · simp [hk] at h
    · simp
  simp [doSaveModel, batchIndexCommitmentWriter.CommitmentStoreGet,
    batchIndexCommitmentWriter.Write, batchIndexCommitmentWriter.CommitmentStoreSet, h']

/-! ## The sequence counter along a run -/

theorem committedSeq_of_kvGet_eq (t : autoIncrementTable) (b b' : Backend)
    (h : kvGet t.seqCodec.Prefix b'.indexStore = kvGet t.seqCodec.Prefix b.indexStore) :
    committedSeq t b' = committedSeq t b := by
  rw [committedSeq_eq, committedSeq_eq, h]

theorem save_committedSeq_step (t : autoIncrementTable) (hlaw : t.seqCodec.Lawful)
    (hdo : CommitsOnSuccess t.seqCodec.Prefix t.tableImpl.doSave)
    (b : Backend) (m : Message) (mode : saveMode) (c : Nat)
    (hcur : committedSeq t b = (c, none)) :
    (m.autoIncField = 0 ∧ (t.save b m mode).err = none →
        (t.save b m mode).newId = (c + 1) % uint64Mod
          ∧ committedSeq t (t.save b m mode).backend = ((c + 1) % uint64Mod, none))
      ∧ (¬ (m.autoIncField = 0 ∧ (t.save b m mode).err = none) →
        committedSeq t (t.save b m mode).backend = (c, none)) := by
  by_cases hval : m.autoIncField = 0
  · by_cases hmode : mode = saveModeUpdate
    · subst hmode
      rw [save_update_eq_of_zero_key t b m hval]
      simp [hcur]
    · rw [save_eq_of_zero_key t b m mode c hval hmode hcur]
      simp only [afterDoSave, batchIndexCommitmentWriter.Close]
      constructor
      · rintro ⟨-, hok⟩
        refine ⟨trivial, ?_⟩
        rw [committedSeq_eq, (hdo _ _ _).1 hok]
        simp only [batchIndexCommitmentWriter.Write, flushWrites, List.foldl_cons,
          List.foldl_nil, kvGet_kvSet_self, Option.getD_some]
        exact hlaw.decode_encode _ (Nat.mod_lt _ (by decide))
      · intro hno
        have herr : ¬ (t.tableImpl.doSave
            { backend := b, commitmentWriter := [],
              indexWriter := [(t.seqCodec.Prefix, t.seqCodec.EncodeValue ((c + 1) % uint64Mod))],
              trace := [Event.indexGet t.seqCodec.Prefix,
                Event.indexSet t.seqCodec.Prefix (t.seqCodec.EncodeValue ((c + 1) % uint64Mod)),
                Event.doSave saveModeInsert { m with autoIncField := (c + 1) % uint64Mod }] }
            { m with autoIncField := (c + 1) % uint64Mod } saveModeInsert).err = none :=
          fun h => hno ⟨hval, h⟩
        rw [(hdo _ _ _).2 herr]
        exact hcur
  · refine ⟨fun h => absurd h.1 hval, fun _ => ?_⟩
    by_cases hmode : mode = saveModeInsert
    · subst hmode
      rw [save_insert_eq_of_nonzero_key t b m hval]
      exact hcur
    · rw [save_eq_of_nonzero_key t b m mode hval hmode]
      simp only [afterDoSave, batchIndexCommitmentWriter.Close]
      by_cases hok : (t.tableImpl.doSave
          { backend := b, commitmentWriter := [], indexWriter := [],
            trace := [Event.doSave saveModeUpdate m] } m saveModeUpdate).err = none
      · rw [← hcur]
        apply committedSeq_of_kvGet_eq
        rw [(hdo _ _ _).1 hok]
        simp [batchIndexCommitmentWriter.Write, flushWrites]
      · rw [(hdo _ _ _).2 hok]
        exact hcur

theorem runSaves_counter_and_ids (t : autoIncrementTable) (hlaw : t.seqCodec.Lawful)
    (hdo : CommitsOnSuccess t.seqCodec.Prefix t.tableImpl.doSave)
    (ops : List (Message × saveMode)) :
    ∀ (b : Backend) (c : Nat), committedSeq t b = (c, none) →
      committedSeq t (runSaves t b ops).1 =
          ((c + (runSaves t b ops).2.length) % uint64Mod, none)
        ∧ (runSaves t b ops).2 =
          (List.range (runSaves t b ops).2.length).map (fun k => (c + (k + 1)) % uint64Mod) := by
  induction ops with
  | nil =>
    intro b c hcur
    have hc : c < uint64Mod := hlaw.decode_lt _ _ ((committedSeq_eq t b).symm.trans hcur)
    simp [runSaves, hcur, Nat.mod_eq_of_lt hc]
  | cons op ops ih =>
    intro b c hcur
    obtain ⟨m, mode⟩ := op
    have hstep := save_committedSeq_step t hlaw hdo b m mode c hcur
    by_cases hmint : m.autoIncField = 0 ∧ (t.save b m mode).err = none
    · obtain ⟨hid, hseq⟩ := hstep.1 hmint
      obtain ⟨ih1, ih2⟩ := ih (t.save b m mode).backend ((c + 1) % uint64Mod) hseq
      have hids : (runSaves t b ((m, mode) :: ops)).2 =
          (c + 1) % uint64Mod :: (runSaves t (t.save b m mode).backend ops).2 := by
        simp only [runSaves, hmint, and_self, if_true, hid]
      have hfst : (runSaves t b ((m, mode) :: ops)).1 =
          (runSaves t (t.save b m mode).backend ops).1 := rfl
      rw [hids, hfst, ih1]
      refine ⟨?_, ?_⟩
      · simp only [List.length_cons, Nat.mod_add_mod]
        congr 2; omega
      · simp only [List.length_cons, List.range_succ_eq_map, List.map_cons, List.map_map]
        congr 1
        conv_lhs => rw [ih2]
        apply List.map_congr_left
        intro k _
        simp only [Function.comp, Nat.mod_add_mod]
        congr 1; omega
    · have hseq := hstep.2 hmint
      obtain ⟨ih1, ih2⟩ := ih (t.save b m mode).backend c hseq
      have hids : (runSaves t b ((m, mode) :: ops)).2 =
          (runSaves t (t.save b m mode).backend ops).2 := by
        simp only [runSaves, hmint, if_false]
      have hfst : (runSaves t b ((m, mode) :: ops)).1 =
          (runSaves t (t.save b m mode).backend ops).1 := rfl
      rw [hids, hfst]
      exact ⟨ih1, ih2⟩

/-! ## The bound on the stored keys -/

theorem keysBounded_of (t : autoIncrementTable) (b : Backend) (c : Nat)
    (hcur : committedSeq t b = (c, none)) (hle : ∀ kv ∈ b.commitmentStore, kv.1 ≤ c) :
    keysBounded t b := by
  unfold keysBounded
  rw [hcur]
  exact ⟨rfl, hle⟩

theorem committedSeq_of_keysBounded (t : autoIncrementTable) (b : Backend)
    (h : keysBounded t b) : committedSeq t b = ((committedSeq t b).1, none) := by
  have h2 := h.1
  rcases hc : committedSeq t b with ⟨c, e⟩
  rw [hc] at h2
  simp only at h2
  rw [h2]

theorem save_keysBounded (t : autoIncrementTable) (hlaw : t.seqCodec.Lawful)
    (hdo : t.tableImpl.doSave = doSaveModel)
    (b : Backend) (m : Message) (mode : saveMode)
    (hinv : keysBounded t b)
    (hno : m.autoIncField = 0 → (committedSeq t b).1 + 1 < uint64Mod) :
    keysBounded t (t.save b m mode).backend
      ∧ (committedSeq t b).1 ≤ (committedSeq t (t.save b m mode).backend).1
      ∧ (committedSeq t (t.save b m mode).backend).1 ≤ (committedSeq t b).1 + 1 := by
  have hcur := committedSeq_of_keysBounded t b hinv
  generalize hc : (committedSeq t b).1 = c at hcur hno
  have hle : ∀ kv ∈ b.commitmentStore, kv.1 ≤ c := by
    intro kv hkv; rw [← hc]; exact hinv.2 kv hkv
  have hsame : keysBounded t b ∧ c ≤ (committedSeq t b).1 ∧ (committedSeq t b).1 ≤ c + 1 := by
    refine ⟨hinv, ?_, ?_⟩
    · rw [hc]
    · rw [hc]; exact Nat.le_succ c
  by_cases hval : m.autoIncField = 0
  · by_cases hmode : mode = saveModeUpdate
    · subst hmode
      rw [save_update_eq_of_zero_key t b m hval]
      exact hsame
    · have hmod : (c + 1) % uint64Mod = c + 1 := Nat.mod_eq_of_lt (hno hval)
      rw [save_eq_of_zero_key t b m mode c hval hmode hcur, hmod, hdo]
      simp only [afterDoSave, batchIndexCommitmentWriter.Close]
      by_cases herr : (doSaveModel
          { backend := b, commitmentWriter := [],
            indexWriter := [(t.seqCodec.Prefix, t.seqCodec.EncodeValue (c + 1))],
            trace := [Event.indexGet t.seqCodec.Prefix,
              Event.indexSet t.seqCodec.Prefix (t.seqCodec.EncodeValue (c + 1)),
              Event.doSave saveModeInsert { m with autoIncField := c + 1 }] }
          { m with autoIncField := c + 1 } saveModeInsert).err = none
      · rw [doSaveModel_backend_of_ok _ _ _ herr]
        simp only [flushWrites, List.nil_append, List.foldl_cons, List.foldl_nil]
        have hseq : committedSeq t
            { commitmentStore := kvSet (c + 1) m.body b.commitmentStore,
              indexStore := kvSet t.seqCodec.Prefix (t.seqCodec.EncodeValue (c + 1))
                b.indexStore } = (c + 1, none) := by
          rw [committedSeq_eq]
          simp only [kvGet_kvSet_self, Option.getD_some]
          exact hlaw.decode_encode _ (hno hval)
        refine ⟨keysBounded_of t _ (c + 1) hseq ?_, ?_, ?_⟩
        · intro kv hkv
          rcases mem_kvSet _ _ _ _ hkv with h | h
          · rw [h]
          · exact Nat.le_succ_of_le (hle kv h)
        · rw [hseq]; exact Nat.le_succ c
        · rw [hseq]
      · rw [doSaveModel_backend_of_error _ _ _ herr]
        exact hsame
  · by_cases hmode : mode = saveModeInsert
    · subst hmode
      rw [save_insert_eq_of_nonzero_key t b m hval]
      exact hsame
    · rw [save_eq_of_nonzero_key t b m mode hval hmode, hdo]
      simp only [afterDoSave, batchIndexCommitmentWriter.Close]
      by_cases herr : (doSaveModel
          { backend := b, commitmentWriter := [], indexWriter := [],
            trace := [Event.doSave saveModeUpdate m] } m saveModeUpdate).err = none
      · have hpres : (kvGet m.autoIncField b.commitmentStore).isSome := by
          rw [doSaveModel_update_err] at herr
          by_contra hnot
          rw [if_neg (by simpa [flushWrites] using hnot)] at herr
          exact absurd herr (by simp)
        rw [doSaveModel_backend_of_ok _ _ _ herr]
        simp only [flushWrites, List.nil_append, List.foldl_cons, List.foldl_nil]
        have hseq : committedSeq t
            { commitmentStore := kvSet m.autoIncField m.body b.commitmentStore,
              indexStore := b.indexStore } = (c, none) := by
          rw [← hcur]
          exact committedSeq_of_kvGet_eq t b _ rfl
        refine ⟨keysBounded_of t _ c hseq ?_, ?_, ?_⟩
        · intro kv hkv
          rcases mem_kvSet _ _ _ _ hkv with h | h
          · obtain ⟨v, hv⟩ := mem_of_kvGet_isSome _ _ hpres
            rw [h]
            exact hle (m.autoIncField, v) hv
          · exact hle kv h
        · rw [hseq]
        · rw [hseq]; exact Nat.le_succ c
      · rw [doSaveModel_backend_of_error _ _ _ herr]
        exact hsame

theorem baseSave_insert_keysBounded (t : autoIncrementTable)
    (hdo : t.tableImpl.doSave = doSaveModel)
    (b : Backend) (m : Message)
    (hinv : keysBounded t b) (hid : m.autoIncField ≤ (committedSeq t b).1) :
    keysBounded t (t.tableImpl.save b m saveModeInsert).backend
      ∧ committedSeq t (t.tableImpl.save b m saveModeInsert).backend = committedSeq t b := by
  simp only [tableImpl.save, afterDoSave, batchIndexCommitmentWriter.Close, hdo,
    newBatchIndexCommitmentWriter, List.nil_append]
  by_cases herr : (doSaveModel
      { backend := b, commitmentWriter := [], indexWriter := [],
        trace := [Event.doSave saveModeInsert m] } m saveModeInsert).err = none
  · rw [doSaveModel_backend_of_ok _ _ _ herr]
    simp only [flushWrites, List.nil_append, List.foldl_cons, List.foldl_nil]
    have hseq : committedSeq t
        { commitmentStore := kvSet m.autoIncField m.body b.commitmentStore,
          indexStore := b.indexStore } = committedSeq t b :=
      committedSeq_of_kvGet_eq t b _ rfl
    refine ⟨?_, hseq⟩
    refine keysBounded_of t _ (committedSeq t b).1
      (hseq.trans (committedSeq_of_keysBounded t b hinv)) ?_
    intro kv hkv
    rcases mem_kvSet _ _ _ _ hkv with h | h
    · rw [h]; exact hid
    · exact hinv.2 kv h
  · rw [doSaveModel_backend_of_error _ _ _ herr]
    exact ⟨hinv, rfl⟩

/-! ## The decode loop -/

theorem doDecodeLoop_invariant {σ : Type} (onFirst : RawMessage → σ → Except Error Bool × σ)
    (onMsg : Message → σ → Option Error × σ) (I : Nat → σ → Prop)
    (hmono : ∀ n s, I (n + 1) s → I n s)
    (hstep : ∀ n msg s, I (n + 1) s → I n (onMsg msg s).2) :
    ∀ (elems : List RawMessage) (s : σ), I elems.length s →
      I 0 (doDecodeLoop onFirst onMsg false elems s).2 := by
  have hzero : ∀ n s, I n s → I 0 s := by
    intro n
    induction n with
    | zero => exact fun _ h => h
    | succ n ih => exact fun s h => ih s (hmono n s h)
  intro elems
  induction elems with
  | nil => intro s h; simpa [doDecodeLoop] using h
  | cons raw rest ih =>
    intro s h
    simp only [doDecodeLoop, Bool.false_eq_true, if_false]
    rcases hu : raw.unmarshalMessage with ⟨msg, _ | err⟩
    · simp only []
      have hs := hstep rest.length msg s h
      rcases hm : onMsg msg s with ⟨_ | err, s'⟩
      · rw [hm] at hs
        exact ih s' hs
      · rw [hm] at hs
        exact hzero _ _ hs
    · exact hzero _ _ h

theorem doDecodeLoop_first_not_taken {σ : Type}
    (onFirst : RawMessage → σ → Except Error Bool × σ)
    (onMsg : Message → σ → Option Error × σ) (raw : RawMessage) (rest : List RawMessage)
    (s s' : σ) (h : onFirst raw s = (.ok false, s')) :
    doDecodeLoop onFirst onMsg true (raw :: rest) s =
      doDecodeLoop onFirst onMsg false (raw :: rest) s' := by
  simp only [doDecodeLoop, if_true, h, Bool.false_eq_true, if_false]

theorem doDecodeLoop_first_taken {σ : Type}
    (onFirst : RawMessage → σ → Except Error Bool × σ)
    (onMsg : Message → σ → Option Error × σ) (raw : RawMessage) (rest : List RawMessage)
    (s s' : σ) (h : onFirst raw s = (.ok true, s')) :
    doDecodeLoop onFirst onMsg true (raw :: rest) s =
      doDecodeLoop onFirst onMsg false rest s' := by
  simp only [doDecodeLoop, if_true, h]

theorem doDecodeJson_state {σ : Type} (reader : Reader)
    (onFirst : RawMessage → σ → Except Error Bool × σ)
    (onMsg : Message → σ → Option Error × σ) (s : σ) :
    (doDecodeJson reader onFirst onMsg s).2 =
      (doDecodeLoop onFirst onMsg true reader.elems s).2 := by
  unfold doDecodeJson
  split <;> simp_all

/-! ## The bound on the stored keys along an import -/

theorem importInv_step (t : autoIncrementTable) (hlaw : t.seqCodec.Lawful)
    (hdo : t.tableImpl.doSave = doSaveModel) (n : Nat) (msg : Message) (st : ImportState)
    (h : importInv t (n + 1) st) :
    importInv t n
      (autoIncrementTable.decodeAutoIncJson.onMessage
        (autoIncrementTable.ImportJSON.onMsg t) msg st).2 := by
  obtain ⟨hinv, hseq, hlt⟩ := h
  simp only [autoIncrementTable.decodeAutoIncJson.onMessage,
    autoIncrementTable.ImportJSON.onMsg, importInv]
  by_cases hval : msg.autoIncField = 0
  · simp only [hval, if_true]
    obtain ⟨h1, h2, h3⟩ := save_keysBounded t hlaw hdo st.backend msg saveModeInsert hinv
      (fun _ => by omega)
    exact ⟨h1, by omega, by omega⟩
  · simp only [hval, if_false]
    by_cases hgt : msg.autoIncField > st.seq
    · simp only [hgt, if_true]
      exact ⟨hinv, hseq, by omega⟩
    · simp only [hgt, if_false]
      obtain ⟨h1, h2⟩ := baseSave_insert_keysBounded t hdo st.backend msg hinv (by omega)
      refine ⟨h1, ?_, ?_⟩
      · rw [h2]; exact hseq
      · rw [h2]; omega

theorem decodeAutoIncJson_import_keysBounded (t : autoIncrementTable)
    (hlaw : t.seqCodec.Lawful) (hdo : t.tableImpl.doSave = doSaveModel)
    (b : Backend) (reader : Reader)
    (hinv : keysBounded t b)
    (hlead : ∀ n, reader.leadingNumber = some n → ∀ kv ∈ b.commitmentStore, kv.1 ≤ n)
    (hno : reader.leadingNumber.getD (committedSeq t b).1 + reader.elems.length < uint64Mod) :
    keysBounded t
      (t.decodeAutoIncJson true reader (autoIncrementTable.ImportJSON.onMsg t) b).2.backend := by
  have hloop := doDecodeLoop_invariant (autoIncrementTable.decodeAutoIncJson.onFirst t true)
    (autoIncrementTable.decodeAutoIncJson.onMessage (autoIncrementTable.ImportJSON.onMsg t))
    (importInv t) (fun n s h => ⟨h.1, h.2.1, by have := h.2.2; omega⟩)
    (importInv_step t hlaw hdo)
  unfold autoIncrementTable.decodeAutoIncJson
  rcases hstart : reader.start with _ | err
  · simp only [doDecodeJson_state]
    rcases helems : reader.elems with _ | ⟨raw, rest⟩
    · simpa [doDecodeLoop] using hinv
    · have hnotTaken : ∀ st', autoIncrementTable.decodeAutoIncJson.onFirst t true raw
          { seq := 0, backend := b, trace := [] } = (.ok false, st') →
          st'.backend = b → st'.seq = 0 → reader.leadingNumber = none →
          keysBounded t (doDecodeLoop (autoIncrementTable.decodeAutoIncJson.onFirst t true)
            (autoIncrementTable.decodeAutoIncJson.onMessage
              (autoIncrementTable.ImportJSON.onMsg t)) true (raw :: rest)
            { seq := 0, backend := b, trace := [] }).2.backend := by
        intro st' hfirst hb hs hnone
        rw [doDecodeLoop_first_not_taken _ _ _ _ _ _ hfirst]
        refine (hloop (raw :: rest) st' ⟨by rw [hb]; exact hinv, by rw [hs]; exact Nat.zero_le _, ?_⟩).1
        rw [hnone, helems] at hno
        rw [hb]
        simpa using hno
      cases raw with
      | number n =>
        by_cases hn : n < uint64Mod
        · have hlN : reader.leadingNumber = some n := by
            simp [Reader.leadingNumber, helems, hn]
          have hfirst : autoIncrementTable.decodeAutoIncJson.onFirst t true (RawMessage.number n)
              { seq := 0, backend := b, trace := [] } =
              (.ok true,
                { seq := n,
                  backend := { commitmentStore := b.commitmentStore,
                               indexStore := kvSet t.seqCodec.Prefix (t.seqCodec.EncodeValue n)
                                 b.indexStore },
                  trace := [Event.indexSet t.seqCodec.Prefix (t.seqCodec.EncodeValue n),
                    Event.Write, Event.Close] }) := by
            simp [autoIncrementTable.decodeAutoIncJson.onFirst, RawMessage.unmarshalUint64, hn,
              autoIncrementTable.setSeqValue, batchIndexCommitmentWriter.IndexStore,
              batchIndexCommitmentWriter.IndexStoreSet, batchIndexCommitmentWriter.Write,
              batchIndexCommitmentWriter.Close, newBatchIndexCommitmentWriter, flushWrites]
          rw [doDecodeLoop_first_taken _ _ _ _ _ _ hfirst]
          have hseq : committedSeq t
              { commitmentStore := b.commitmentStore,
                indexStore := kvSet t.seqCodec.Prefix (t.seqCodec.EncodeValue n) b.indexStore }
              = (n, none) := by
            rw [committedSeq_eq]
            simp only [kvGet_kvSet_self, Option.getD_some]
            exact hlaw.decode_encode _ hn
          refine (hloop rest _ ⟨keysBounded_of t _ n hseq (hlead n hlN), ?_, ?_⟩).1
          · rw [hseq]
          · rw [hseq]
            rw [hlN, helems] at hno
            simp only [Option.getD_some, List.length_cons] at hno
            show n + rest.length < uint64Mod
            omega
        · exact hnotTaken { seq := 0, backend := b, trace := [] }
            (by simp [autoIncrementTable.decodeAutoIncJson.onFirst, RawMessage.unmarshalUint64,
              hn]) rfl rfl (by simp [Reader.leadingNumber, helems, hn])
      | object m =>
        exact hnotTaken { seq := 0, backend := b, trace := [] }
          (by simp [autoIncrementTable.decodeAutoIncJson.onFirst, RawMessage.unmarshalUint64])
          rfl rfl (by simp [Reader.leadingNumber, helems])
      | invalid err =>
        exact hnotTaken { seq := 0, backend := b, trace := [] }
          (by simp [autoIncrementTable.decodeAutoIncJson.onFirst, RawMessage.unmarshalUint64])
          rfl rfl (by simp [Reader.leadingNumber, helems])
  · exact hinv

/-! ## Failing saves -/

theorem save_backend_of_error (t : autoIncrementTable)
    (hfail : NoCommitOnFailure t.tableImpl.doSave)
    (b : Backend) (m : Message) (mode : saveMode)
    (herr : (t.save b m mode).err ≠ none) : (t.save b m mode).backend = b := by
  by_cases hval : m.autoIncField = 0
  · by_cases hmode : mode = saveModeUpdate
    · subst hmode
      rw [save_update_eq_of_zero_key t b m hval]
    · rcases hcur : committedSeq t b with ⟨c, _ | e⟩
      · rw [save_eq_of_zero_key t b m mode c hval hmode hcur] at herr ⊢
        exact hfail _ _ _ herr
      · rw [save_eq_of_zero_key_error t b m mode c e hval hmode hcur]
  · by_cases hmode : mode = saveModeInsert
    · subst hmode
      rw [save_insert_eq_of_nonzero_key t b m hval]
    · rw [save_eq_of_nonzero_key t b m mode hval hmode] at herr ⊢
      exact hfail _ _ _ herr

theorem baseSave_backend_of_error (t : tableImpl) (hfail : NoCommitOnFailure t.doSave)
    (b : Backend) (m : Message) (mode : saveMode)
    (herr : (t.save b m mode).err ≠ none) : (t.save b m mode).backend = b :=
  hfail _ _ _ herr

theorem doSaveModel_noCommitOnFailure : NoCommitOnFailure doSaveModel :=
  fun w m mode h => doSaveModel_backend_of_error w m mode h

/-! ## The closures of the JSON methods -/

theorem onMessage_validate (t : autoIncrementTable) (message : Message) (st : ImportState) :
    autoIncrementTable.decodeAutoIncJson.onMessage (autoIncrementTable.ValidateJSON.onMsg t)
        message st =
      (if message.autoIncField > st.seq then
          some (invalidIDError message.autoIncField st.seq)
        else t.jsonValidator message, st) := by
  obtain ⟨seq, backend, trace⟩ := st
  simp only [autoIncrementTable.decodeAutoIncJson.onMessage,
    autoIncrementTable.ValidateJSON.onMsg, autoIncrementTable.jsonValidator]
  split_ifs
  · simp
  · cases t.tableImpl.customJSONValidator <;> simp

theorem onMessage_seq (onMsg : Message → Nat → Backend → Option Error × Backend × List Event)
    (message : Message) (st : ImportState) :
    (autoIncrementTable.decodeAutoIncJson.onMessage onMsg message st).2.seq = st.seq := rfl

theorem doDecodeLoop_preserves {σ : Type} (onFirst : RawMessage → σ → Except Error Bool × σ)
    (onMsg : Message → σ → Option Error × σ) (P : σ → Prop)
    (hfirst : ∀ raw s, P s → P (onFirst raw s).2)
    (hmsg : ∀ msg s, P s → P (onMsg msg s).2) :
    ∀ (elems : List RawMessage) (first : Bool) (s : σ), P s →
      P (doDecodeLoop onFirst onMsg first elems s).2 := by
  intro elems
  induction elems with
  | nil => intro first s h; simpa [doDecodeLoop] using h
  | cons raw rest ih =>
    intro first s h
    have hmessage : ∀ s', P s' → P (doDecodeLoop onFirst onMsg false (raw :: rest) s').2 := by
      intro s' h'
      simp only [doDecodeLoop, Bool.false_eq_true, if_false]
      rcases hu : raw.unmarshalMessage with ⟨msg, _ | err⟩
      · simp only []
        have hs := hmsg msg s' h'
        rcases hm : onMsg msg s' with ⟨_ | err, s''⟩
        · rw [hm] at hs
          exact ih false s'' hs
        · rw [hm] at hs
          exact hs
      · exact h'
    cases first with
    | false => exact hmessage s h
    | true =>
      have hf := hfirst raw s h
      rcases ho : onFirst raw s with ⟨_ | _ | _, s'⟩
      · rw [ho] at hf
        simp only [doDecodeLoop, if_true, ho]
        exact hf
      · rw [ho] at hf
        rw [doDecodeLoop_first_not_taken _ _ _ _ _ _ ho]
        exact hmessage s' hf
      · rw [ho] at hf
        rw [doDecodeLoop_first_taken _ _ _ _ _ _ ho]
        exact ih false s' hf

/-! ## The leading number -/

theorem onFirst_number (t : autoIncrementTable) (backend : Bool) (n : Nat) (st : ImportState)
    (hn : n < uint64Mod) :
    autoIncrementTable.decodeAutoIncJson.onFirst t backend (RawMessage.number n) st =
      (.ok true, afterLeadingNumber t backend n st) := by
  cases backend <;>
    simp [autoIncrementTable.decodeAutoIncJson.onFirst, RawMessage.unmarshalUint64, hn,
      afterLeadingNumber, autoIncrementTable.setSeqValue, batchIndexCommitmentWriter.IndexStore,
      batchIndexCommitmentWriter.IndexStoreSet, batchIndexCommitmentWriter.Write,
      batchIndexCommitmentWriter.Close, newBatchIndexCommitmentWriter, flushWrites]

theorem onFirst_not_number (t : autoIncrementTable) (backend : Bool) (raw : RawMessage)
    (st : ImportState) (h : ∀ n, raw = RawMessage.number n → ¬ n < uint64Mod) :
    autoIncrementTable.decodeAutoIncJson.onFirst t backend raw st = (.ok false, st) := by
  cases raw with
  | number n =>
    simp [autoIncrementTable.decodeAutoIncJson.onFirst, RawMessage.unmarshalUint64, h n rfl]
  | object m => simp [autoIncrementTable.decodeAutoIncJson.onFirst, RawMessage.unmarshalUint64]
  | invalid err =>
    simp [autoIncrementTable.decodeAutoIncJson.onFirst, RawMessage.unmarshalUint64]

theorem leadingNumber_eq_some (reader : Reader) (n : Nat) (h : reader.leadingNumber = some n) :
    n < uint64Mod ∧ ∃ rest, reader.elems = RawMessage.number n :: rest := by
  unfold Reader.leadingNumber at h
  split at h
  · rename_i k rest hk
    split_ifs at h with hlt
    have hkn : k = n := Option.some.inj h
    subst hkn
    exact ⟨hlt, rest, hk⟩
  · exact absurd h (by simp)

theorem leadingNumber_eq_none (reader : Reader) (h : reader.leadingNumber = none) :
    reader.elems = [] ∨ ∃ raw rest, reader.elems = raw :: rest
      ∧ ∀ n, raw = RawMessage.number n → ¬ n < uint64Mod := by
  unfold Reader.leadingNumber at h
  rcases he : reader.elems with _ | ⟨raw, rest⟩
  · exact Or.inl rfl
  · refine Or.inr ⟨raw, rest, rfl, ?_⟩
    intro n hn hlt
    subst hn
    rw [he] at h
    simp [hlt] at h

theorem afterLeadingNumber_seq (t : autoIncrementTable) (backend : Bool) (n : Nat)
    (st : ImportState) : (afterLeadingNumber t backend n st).seq = n := by
  cases backend <;> rfl

/-- The run of the decode loop from the first element on: the leading number is
taken by the first closure, and the loop goes on with the other elements;
without leading number the loop treats all elements as messages. -/
theorem doDecodeLoop_start (t : autoIncrementTable) (backend : Bool) (reader : Reader)
    (onMsg : Message → ImportState → Option Error × ImportState) (st : ImportState) :
    doDecodeLoop (autoIncrementTable.decodeAutoIncJson.onFirst t backend) onMsg true
        reader.elems st =
      match reader.leadingNumber with
      | some n =>
        doDecodeLoop (autoIncrementTable.decodeAutoIncJson.onFirst t backend) onMsg false
          reader.elems.tail (afterLeadingNumber t backend n st)
      | none =>
        doDecodeLoop (autoIncrementTable.decodeAutoIncJson.onFirst t backend) onMsg false
          reader.elems st := by
  rcases hl : reader.leadingNumber with _ | n
  · rcases leadingNumber_eq_none reader hl with he | ⟨raw, rest, he, hraw⟩
    · rw [he]; simp [doDecodeLoop]
    · rw [he]
      exact doDecodeLoop_first_not_taken _ _ _ _ _ _ (onFirst_not_number t backend raw st hraw)
  · obtain ⟨hn, rest, he⟩ := leadingNumber_eq_some reader n hl
    rw [he]
    exact doDecodeLoop_first_taken _ _ _ _ _ _ (onFirst_number t backend n st hn)

theorem doDecodeLoop_maxID (onFirst : RawMessage → ImportState → Except Error Bool × ImportState)
    (onMsg : Message → Nat → Backend → Option Error × Backend × List Event) (M : Nat) :
    ∀ (elems : List RawMessage) (st : ImportState), st.seq = M →
      doDecodeLoop onFirst (autoIncrementTable.decodeAutoIncJson.onMessage onMsg) false elems st =
      doDecodeLoop onFirst
        (autoIncrementTable.decodeAutoIncJson.onMessage (fun m _ w => onMsg m M w))
        false elems st := by
  intro elems
  induction elems with
  | nil => intro st _; simp [doDecodeLoop]
  | cons raw rest ih =>
    intro st hst
    have hstep : ∀ msg,
        autoIncrementTable.decodeAutoIncJson.onMessage (fun m _ w => onMsg m M w) msg st =
        autoIncrementTable.decodeAutoIncJson.onMessage onMsg msg st := by
      intro msg
      simp only [autoIncrementTable.decodeAutoIncJson.onMessage, hst]
    simp only [doDecodeLoop, Bool.false_eq_true, if_false, hstep]
    rcases hu : raw.unmarshalMessage with ⟨msg, _ | err⟩
    · simp only []
      rcases hm : autoIncrementTable.decodeAutoIncJson.onMessage onMsg msg st with ⟨_ | err, s'⟩
      · simp only []
        have hseq : s'.seq = M := by
          have := onMessage_seq onMsg msg st
          rw [hm] at this
          exact this.trans hst
        exact ih s' hseq
      · rfl
    · rfl

theorem decodeAutoIncJson_maxID (t : autoIncrementTable) (backend : Bool) (reader : Reader)
    (onMsg : Message → Nat → Backend → Option Error × Backend × List Event)
    (world : Backend) :
    t.decodeAutoIncJson backend reader onMsg world =
      t.decodeAutoIncJson backend reader
        (fun m _ w => onMsg m (reader.leadingNumber.getD 0) w) world := by
  unfold autoIncrementTable.decodeAutoIncJson
  rcases reader.start with _ | err
  · simp only [doDecodeJson, doDecodeLoop_start]
    rcases hl : reader.leadingNumber with _ | n
    · simp only [Option.getD_none]
      rw [doDecodeLoop_maxID _ onMsg 0 reader.elems _ rfl]
    · simp only [Option.getD_some]
      rw [doDecodeLoop_maxID _ onMsg n reader.elems.tail _ (afterLeadingNumber_seq _ _ _ _)]
  · rfl

/-! ## Splitting the decode loop -/

theorem doDecodeLoop_object_step {σ : Type} (onFirst : RawMessage → σ → Except Error Bool × σ)
    (onMsg : Message → σ → Option Error × σ) (m : Message) (post : List RawMessage) (s : σ) :
    doDecodeLoop onFirst onMsg false (RawMessage.object m :: post) s =
      match onMsg m s with
      | (some err, s') => (Outcome.returned (some err), s')
      | (none, s') => doDecodeLoop onFirst onMsg false post s' := by
  simp only [doDecodeLoop, Bool.false_eq_true, if_false, RawMessage.unmarshalMessage]

theorem doDecodeLoop_append {σ : Type} (onFirst : RawMessage → σ → Except Error Bool × σ)
    (onMsg : Message → σ → Option Error × σ) (post : List RawMessage) :
    ∀ (pre : List RawMessage) (s s' : σ),
      doDecodeLoop onFirst onMsg false pre s = (Outcome.returned none, s') →
      doDecodeLoop onFirst onMsg false (pre ++ post) s =
        doDecodeLoop onFirst onMsg false post s' := by
  intro pre
  induction pre with
  | nil =>
    intro s s' h
    simp only [doDecodeLoop] at h
    rw [(Prod.mk.inj h).2]
    rfl
  | cons raw rest ih =>
    intro s s' h
    simp only [doDecodeLoop, Bool.false_eq_true, if_false, List.cons_append] at h ⊢
    rcases hu : raw.unmarshalMessage with ⟨msg, _ | err⟩
    · rw [hu] at h
      simp only [] at h ⊢
      rcases hm : onMsg msg s with ⟨_ | err, s''⟩
      · rw [hm] at h
        simp only [] at h ⊢
        exact ih s'' s' h
      · rw [hm] at h
        simp at h
    · rw [hu] at h
      simp at h

theorem doDecodeLoop_append_first {σ : Type} (onFirst : RawMessage → σ → Except Error Bool × σ)
    (onMsg : Message → σ → Option Error × σ) (first : Bool) (pre : List RawMessage)
    (x : RawMessage) (post : List RawMessage) (s s' : σ)
    (hpre : doDecodeLoop onFirst onMsg first pre s = (Outcome.returned none, s'))
    (hx : ∀ s0, onFirst x s0 = (.ok false, s0)) :
    doDecodeLoop onFirst onMsg first (pre ++ x :: post) s =
      doDecodeLoop onFirst onMsg false (x :: post) s' := by
  cases first with
  | false => exact doDecodeLoop_append _ _ _ pre s s' hpre
  | true =>
    cases pre with
    | nil =>
      simp only [doDecodeLoop] at hpre
      rw [← (Prod.mk.inj hpre).2]
      exact doDecodeLoop_first_not_taken _ _ _ _ _ _ (hx s)
    | cons raw rest =>
      rcases ho : onFirst raw s with ⟨_ | _ | _, s1⟩
      · simp [doDecodeLoop, ho] at hpre
      · rw [doDecodeLoop_first_not_taken _ _ _ _ _ _ ho] at hpre
        rw [List.cons_append, doDecodeLoop_first_not_taken _ _ _ _ _ _ ho,
          ← List.cons_append]
        exact doDecodeLoop_append _ _ _ (raw :: rest) s1 s' hpre
      · rw [doDecodeLoop_first_taken _ _ _ _ _ _ ho] at hpre
        rw [List.cons_append, doDecodeLoop_first_taken _ _ _ _ _ _ ho]
        exact doDecodeLoop_append _ _ _ rest s1 s' hpre

theorem doDecodeJson_finish_none {σ : Type} (reader : Reader)
    (onFirst : RawMessage → σ → Except Error Bool × σ)
    (onMsg : Message → σ → Option Error × σ) (s : σ) (h : reader.finish = none) :
    doDecodeJson reader onFirst onMsg s = doDecodeLoop onFirst onMsg true reader.elems s := by
  unfold doDecodeJson
  split
  · rename_i s' heq
    rw [heq, h]
  · rfl

theorem doDecodeJson_of_loop_error {σ : Type} (reader : Reader)
    (onFirst : RawMessage → σ → Except Error Bool × σ)
    (onMsg : Message → σ → Option Error × σ) (s s' : σ) (e : Error)
    (h : doDecodeLoop onFirst onMsg true reader.elems s = (Outcome.returned (some e), s')) :
    doDecodeJson reader onFirst onMsg s = (Outcome.returned (some e), s') := by
  unfold doDecodeJson
  rw [h]

theorem doDecodeLoop_fails_of_mem {σ : Type} (onFirst : RawMessage → σ → Except Error Bool × σ)
    (onMsg : Message → σ → Option Error × σ) (P : σ → Prop) (m : Message)
    (hP : ∀ msg s, P s → P (onMsg msg s).2)
    (hm : ∀ s, P s → (onMsg m s).1 ≠ none) :
    ∀ (elems : List RawMessage) (s : σ), P s → RawMessage.object m ∈ elems →
      ∃ e, (doDecodeLoop onFirst onMsg false elems s).1 = Outcome.returned (some e) := by
  intro elems
  induction elems with
  | nil => intro s _ h; simp at h
  | cons raw rest ih =>
    intro s hs hmem
    simp only [doDecodeLoop, Bool.false_eq_true, if_false]
    rcases hu : raw.unmarshalMessage with ⟨msg, _ | err⟩
    · simp only []
      have hs' := hP msg s hs
      rcases hmsg : onMsg msg s with ⟨_ | err, s''⟩
      · rw [hmsg] at hs'
        simp only []
        apply ih s'' hs'
        rcases List.mem_cons.mp hmem with heq | hrest
        · exfalso
          rw [← heq] at hu
          simp only [RawMessage.unmarshalMessage] at hu
          have hmm : m = msg := (Prod.mk.inj hu).1
          rw [← hmm] at hmsg
          exact hm s hs (by rw [hmsg])
        · exact hrest
      · exact ⟨err, rfl⟩
    · exact ⟨err, rfl⟩

theorem leadingNumber_prefix_object (s1 s2 f1 f2 : Option Error) (pre post : List RawMessage)
    (m : Message) :
    Reader.leadingNumber { start := s1, elems := pre, finish := f1 } =
      Reader.leadingNumber
        { start := s2, elems := pre ++ RawMessage.object m :: post, finish := f2 } := by
  cases pre with
  | nil => simp [Reader.leadingNumber]
  | cons raw rest => cases raw <;> simp [Reader.leadingNumber]

theorem doDecodeLoop_seq (onFirst : RawMessage → ImportState → Except Error Bool × ImportState)
    (onMsg : Message → Nat → Backend → Option Error × Backend × List Event)
    (elems : List RawMessage) (st : ImportState) :
    (doDecodeLoop onFirst (autoIncrementTable.decodeAutoIncJson.onMessage onMsg) false
      elems st).2.seq = st.seq :=
  doDecodeLoop_invariant onFirst (autoIncrementTable.decodeAutoIncJson.onMessage onMsg)
    (fun _ (s : ImportState) => s.seq = st.seq) (fun _ _ h => h) (fun _ _ _ h => h) elems st rfl

theorem decodeAutoIncJson_seq (t : autoIncrementTable) (backend : Bool) (reader : Reader)
    (onMsg : Message → Nat → Backend → Option Error × Backend × List Event)
    (world : Backend) (hstart : reader.start = none) :
    (t.decodeAutoIncJson backend reader onMsg world).2.seq = reader.leadingNumber.getD 0 := by
  unfold autoIncrementTable.decodeAutoIncJson
  rw [hstart]
  simp only [doDecodeJson_state, doDecodeLoop_start]
  rcases hl : reader.leadingNumber with _ | n
  · simp only [Option.getD_none]
    exact doDecodeLoop_seq _ _ _ _
  · simp only [Option.getD_some]
    rw [doDecodeLoop_seq, afterLeadingNumber_seq]

theorem decodeAutoIncJson_stops_at (t : autoIncrementTable) (backend : Bool)
    (onMsg : Message → Nat → Backend → Option Error × Backend × List Event)
    (world : Backend) (pre : List RawMessage) (m : Message) (post : List RawMessage)
    (fin : Option Error) (st st' : ImportState) (e : Error)
    (hpre : t.decodeAutoIncJson backend { start := none, elems := pre, finish := none }
      onMsg world = (Outcome.returned none, st))
    (hk : autoIncrementTable.decodeAutoIncJson.onMessage onMsg m st = (some e, st')) :
    t.decodeAutoIncJson backend
        { start := none, elems := pre ++ RawMessage.object m :: post, finish := fin }
        onMsg world = (Outcome.returned (some e), st') := by
  unfold autoIncrementTable.decodeAutoIncJson at hpre ⊢
  simp only [] at hpre ⊢
  rw [doDecodeJson_finish_none _ _ _ _ rfl] at hpre
  apply doDecodeJson_of_loop_error
  simp only []
  rw [doDecodeLoop_append_first _ _ true pre _ post _ st hpre
    (fun s0 => onFirst_not_number t backend _ s0 (fun k hk => by cases hk)),
    doDecodeLoop_object_step, hk]

theorem decodeAutoIncJson_error_of_mem (t : autoIncrementTable) (backend : Bool)
    (reader : Reader) (onMsg : Message → Nat → Backend → Option Error × Backend × List Event)
    (world : Backend) (m : Message)
    (hnone : reader.leadingNumber = none)
    (hmem : RawMessage.object m ∈ reader.elems)
    (hm : ∀ w, (onMsg m 0 w).1 ≠ none) :
    ∃ e, (t.decodeAutoIncJson backend reader onMsg world).1 = Outcome.returned (some e) := by
  unfold autoIncrementTable.decodeAutoIncJson
  rcases reader.start with _ | err
  · simp only []
    obtain ⟨e, he⟩ := doDecodeLoop_fails_of_mem
      (autoIncrementTable.decodeAutoIncJson.onFirst t backend)
      (autoIncrementTable.decodeAutoIncJson.onMessage onMsg)
      (fun s : ImportState => s.seq = 0) m (fun _ _ h => h)
      (fun s hs => by
        simp only [autoIncrementTable.decodeAutoIncJson.onMessage, hs]
        exact hm s.backend)
      reader.elems { seq := 0, backend := world, trace := [] } rfl hmem
    refine ⟨e, ?_⟩
    have hstart := doDecodeLoop_start t backend reader
      (autoIncrementTable.decodeAutoIncJson.onMessage onMsg)
      { seq := 0, backend := world, trace := [] }
    rw [hnone] at hstart
    simp only [] at hstart
    rw [← hstart] at he
    rcases hloop : doDecodeLoop (autoIncrementTable.decodeAutoIncJson.onFirst t backend)
      (autoIncrementTable.decodeAutoIncJson.onMessage onMsg) true reader.elems
      { seq := 0, backend := world, trace := [] } with ⟨out, s'⟩
    rw [hloop] at he
    simp only [] at he
    rw [he] at hloop
    rw [doDecodeJson_of_loop_error _ _ _ _ _ _ hloop]
  · exact ⟨err, rfl⟩

/-! ## The sequence counter along an import -/

theorem baseSave_eq (t : tableImpl) (b : Backend) (m : Message) (mode : saveMode) :
    t.save b m mode =
      afterDoSave 0
        (t.doSave { backend := b, commitmentWriter := [], indexWriter := [],
                    trace := [Event.doSave mode m] } m mode) := rfl

theorem importOnMsg_zero_key (t : autoIncrementTable) (m : Message) (maxID : Nat) (b : Backend)
    (hval : m.autoIncField = 0) :
    autoIncrementTable.ImportJSON.onMsg t m maxID b =
      ((t.save b m saveModeInsert).err, (t.save b m saveModeInsert).backend,
        (t.save b m saveModeInsert).trace) := by
  simp [autoIncrementTable.ImportJSON.onMsg, hval]

theorem importOnMsg_above_max (t : autoIncrementTable) (m : Message) (maxID : Nat) (b : Backend)
    (hval : m.autoIncField ≠ 0) (hgt : m.autoIncField > maxID) :
    autoIncrementTable.ImportJSON.onMsg t m maxID b =
      (some (invalidIDError m.autoIncField maxID), b, []) := by
  simp [autoIncrementTable.ImportJSON.onMsg, hval, hgt]

theorem importOnMsg_within_max (t : autoIncrementTable) (m : Message) (maxID : Nat) (b : Backend)
    (hval : m.autoIncField ≠ 0) (hle : m.autoIncField ≤ maxID) :
    autoIncrementTable.ImportJSON.onMsg t m maxID b =
      ((t.tableImpl.save b m saveModeInsert).err, (t.tableImpl.save b m saveModeInsert).backend,
        (t.tableImpl.save b m saveModeInsert).trace) := by
  simp [autoIncrementTable.ImportJSON.onMsg, hval, Nat.not_lt.mpr hle]

theorem importOnMsg_backend_of_error (t : autoIncrementTable)
    (hfail : NoCommitOnFailure t.tableImpl.doSave) (m : Message) (maxID : Nat) (b : Backend)
    (herr : (autoIncrementTable.ImportJSON.onMsg t m maxID b).1 ≠ none) :
    (autoIncrementTable.ImportJSON.onMsg t m maxID b).2.1 = b := by
  by_cases hval : m.autoIncField = 0
  · rw [importOnMsg_zero_key t m maxID b hval] at herr ⊢
    exact save_backend_of_error t hfail b m saveModeInsert herr
  · by_cases hgt : m.autoIncField > maxID
    · rw [importOnMsg_above_max t m maxID b hval hgt]
    · rw [importOnMsg_within_max t m maxID b hval (Nat.not_lt.mp hgt)] at herr ⊢
      exact baseSave_backend_of_error t.tableImpl hfail b m saveModeInsert herr

theorem importOnMsg_counter (t : autoIncrementTable) (hlaw : t.seqCodec.Lawful)
    (hdo : CommitsOnSuccess t.seqCodec.Prefix t.tableImpl.doSave)
    (m : Message) (maxID : Nat) (b : Backend) (c : Nat)
    (hcur : committedSeq t b = (c, none))
    (hok : (autoIncrementTable.ImportJSON.onMsg t m maxID b).1 = none) :
    committedSeq t (autoIncrementTable.ImportJSON.onMsg t m maxID b).2.1 =
      (if m.autoIncField = 0 then (c + 1) % uint64Mod else c, none) := by
  by_cases hval : m.autoIncField = 0
  · rw [importOnMsg_zero_key t m maxID b hval] at hok ⊢
    rw [if_pos hval]
    exact ((save_committedSeq_step t hlaw hdo b m saveModeInsert c hcur).1 ⟨hval, hok⟩).2
  · rw [if_neg hval]
    by_cases hgt : m.autoIncField > maxID
    · rw [importOnMsg_above_max t m maxID b hval hgt]
      exact hcur
    · rw [importOnMsg_within_max t m maxID b hval (Nat.not_lt.mp hgt)] at hok ⊢
      rw [baseSave_eq] at hok ⊢
      simp only [afterDoSave, batchIndexCommitmentWriter.Close] at hok ⊢
      rw [← hcur]
      apply committedSeq_of_kvGet_eq
      rw [(hdo _ _ _).1 hok]
      simp [batchIndexCommitmentWriter.Write, flushWrites]

theorem importLoop_counter (t : autoIncrementTable) (hlaw : t.seqCodec.Lawful)
    (hdo : CommitsOnSuccess t.seqCodec.Prefix t.tableImpl.doSave)
    (onFirst : RawMessage → ImportState → Except Error Bool × ImportState) :
    ∀ (pre : List RawMessage) (st st' : ImportState) (c : Nat),
      committedSeq t st.backend = (c, none) →
      doDecodeLoop onFirst
        (autoIncrementTable.decodeAutoIncJson.onMessage (autoIncrementTable.ImportJSON.onMsg t))
        false pre st = (Outcome.returned none, st') →
      committedSeq t st'.backend = ((c + zeroKeyCount pre) % uint64Mod, none) := by
  intro pre
  induction pre with
  | nil =>
    intro st st' c hcur hrun
    simp only [doDecodeLoop] at hrun
    rw [← (Prod.mk.inj hrun).2, hcur]
    have hc : c < uint64Mod := hlaw.decode_lt _ _ ((committedSeq_eq t st.backend).symm.trans hcur)
    simp [zeroKeyCount, Nat.mod_eq_of_lt hc]
  | cons raw rest ih =>
    intro st st' c hcur hrun
    cases raw with
    | number n => simp [doDecodeLoop, RawMessage.unmarshalMessage] at hrun
    | invalid err => simp [doDecodeLoop, RawMessage.unmarshalMessage] at hrun
    | object m =>
      rw [doDecodeLoop_object_step] at hrun
      rcases hm : autoIncrementTable.decodeAutoIncJson.onMessage
        (autoIncrementTable.ImportJSON.onMsg t) m st with ⟨_ | err, s1⟩
      · rw [hm] at hrun
        simp only [] at hrun
        have hok : (autoIncrementTable.ImportJSON.onMsg t m st.seq st.backend).1 = none := by
          have := congrArg Prod.fst hm
          simpa [autoIncrementTable.decodeAutoIncJson.onMessage] using this
        have hb : s1.backend = (autoIncrementTable.ImportJSON.onMsg t m st.seq st.backend).2.1 := by
          have := congrArg (fun p => p.2.backend) hm
          simpa [autoIncrementTable.decodeAutoIncJson.onMessage] using this.symm
        have hc1 := importOnMsg_counter t hlaw hdo m st.seq st.backend c hcur hok
        rw [← hb] at hc1
        rw [ih s1 st' _ hc1 hrun]
        by_cases hval : m.autoIncField = 0
        · simp only [hval, if_true, zeroKeyCount, Nat.mod_add_mod]
          congr 2; omega
        · simp only [hval, if_false, zeroKeyCount, Nat.zero_add]
      · rw [hm] at hrun
        simp at hrun

theorem zeroKeyCount_eq_zero (pre : List RawMessage)
    (h : ∀ m, RawMessage.object m ∈ pre → m.autoIncField ≠ 0) : zeroKeyCount pre = 0 := by
  induction pre with
  | nil => rfl
  | cons raw rest ih =>
    have hrest : ∀ m, RawMessage.object m ∈ rest → m.autoIncField ≠ 0 :=
      fun m hm => h m (List.mem_cons_of_mem _ hm)
    cases raw with
    | number n => simpa [zeroKeyCount] using ih hrest
    | invalid err => simpa [zeroKeyCount] using ih hrest
    | object m =>
      simp only [zeroKeyCount, h m (List.mem_cons_self _ _), if_false, Nat.zero_add]
      exact ih hrest

theorem committedSeq_afterLeadingNumber (t : autoIncrementTable) (hlaw : t.seqCodec.Lawful)
    (s : Nat) (hs : s < uint64Mod) (st : ImportState) :
    committedSeq t (afterLeadingNumber t true s st).backend = (s, none) := by
  rw [committedSeq_eq]
  simp only [afterLeadingNumber, if_true, kvGet_kvSet_self, Option.getD_some]
  exact hlaw.decode_encode _ hs

/-! ## Validation against import -/

theorem kvGet_eq_none_of_forall_ne {κ ν : Type} [DecidableEq κ] (k : κ) (s : List (κ × ν))
    (h : ∀ kv ∈ s, kv.1 ≠ k) : kvGet k s = none := by
  induction s with
  | nil => rfl
  | cons hd tl ih =>
    obtain ⟨k', v'⟩ := hd
    have hk : k' ≠ k := h (k', v') (List.mem_cons_self _ _)
    simp only [kvGet, hk, if_false]
    exact ih (fun kv hkv => h kv (List.mem_cons_of_mem _ hkv))

theorem save_insert_of_fresh (t : autoIncrementTable) (hdo : t.tableImpl.doSave = doSaveModel)
    (b : Backend) (m : Message) (c : Nat)
    (hval : m.autoIncField = 0) (hcur : committedSeq t b = (c, none))
    (hno : c + 1 < uint64Mod) (hle : ∀ kv ∈ b.commitmentStore, kv.1 ≤ c) :
    (t.save b m saveModeInsert).err = none
      ∧ (t.save b m saveModeInsert).backend =
        { commitmentStore := kvSet (c + 1) m.body b.commitmentStore,
          indexStore := kvSet t.seqCodec.Prefix (t.seqCodec.EncodeValue (c + 1)) b.indexStore } := by
  have hmod : (c + 1) % uint64Mod = c + 1 := Nat.mod_eq_of_lt hno
  have hins := save_eq_of_zero_key t b m saveModeInsert c hval (by decide) hcur
  rw [hmod, hdo] at hins
  have habs : kvGet (c + 1) (flushWrites b.commitmentStore []) = none :=
    kvGet_eq_none_of_forall_ne _ _ (fun kv hkv => by
      have := hle kv hkv
      omega)
  rw [doSaveModel_insert_of_absent _ _ habs] at hins
  rw [hins]
  simp [afterDoSave, batchIndexCommitmentWriter.Close, flushWrites]

theorem baseSave_insert_of_fresh (t : tableImpl) (hdo : t.doSave = doSaveModel)
    (b : Backend) (m : Message) (hfresh : ∀ kv ∈ b.commitmentStore, kv.1 ≠ m.autoIncField) :
    (t.save b m saveModeInsert).err = none
      ∧ (t.save b m saveModeInsert).backend =
        { commitmentStore := kvSet m.autoIncField m.body b.commitmentStore,
          indexStore := b.indexStore } := by
  have habs : kvGet m.autoIncField (flushWrites b.commitmentStore []) = none :=
    kvGet_eq_none_of_forall_ne _ _ hfresh
  rw [baseSave_eq, hdo, doSaveModel_insert_of_absent _ _ habs]
  simp [afterDoSave, batchIndexCommitmentWriter.Close, flushWrites]

theorem importFresh_step (t : autoIncrementTable) (hlaw : t.seqCodec.Lawful)
    (hdo : t.tableImpl.doSave = doSaveModel) (m : Message) (rest : List RawMessage)
    (st : ImportState) (h : importFresh t (RawMessage.object m :: rest) st) :
    (m.autoIncField ≠ 0 → m.autoIncField > st.seq →
        (autoIncrementTable.decodeAutoIncJson.onMessage
          (autoIncrementTable.ImportJSON.onMsg t) m st).1
          = some (invalidIDError m.autoIncField st.seq))
      ∧ ((m.autoIncField = 0 ∨ m.autoIncField ≤ st.seq) →
        (autoIncrementTable.decodeAutoIncJson.onMessage
          (autoIncrementTable.ImportJSON.onMsg t) m st).1 = none
        ∧ importFresh t rest
          (autoIncrementTable.decodeAutoIncJson.onMessage
            (autoIncrementTable.ImportJSON.onMsg t) m st).2) := by
  obtain ⟨hinv, hkeys, hnodup, hvalid⟩ := h
  have hinv' := importInv_step t hlaw hdo rest.length m st hinv
  obtain ⟨hkb, hseq, hlt⟩ := hinv
  have hcur := committedSeq_of_keysBounded t st.backend hkb
  have hvalid' : ∀ m', RawMessage.object m' ∈ rest → t.jsonValidator m' = none :=
    fun m' hm' => hvalid m' (List.mem_cons_of_mem _ hm')
  constructor
  · intro hval hgt
    simp only [autoIncrementTable.decodeAutoIncJson.onMessage,
      importOnMsg_above_max t m st.seq st.backend hval hgt]
  · intro hcase
    by_cases hval : m.autoIncField = 0
    · have hs := save_insert_of_fresh t hdo st.backend m _ hval hcur
        (by simp only [List.length_cons] at hlt; omega) hkb.2
      have hon := importOnMsg_zero_key t m st.seq st.backend hval
      have hexp : explicitKeys (RawMessage.object m :: rest) = explicitKeys rest := by
        simp [explicitKeys, hval]
      rw [hexp] at hkeys hnodup
      refine ⟨?_, hinv', ?_, hnodup, hvalid'⟩
      · simp only [autoIncrementTable.decodeAutoIncJson.onMessage, hon, hs.1]
      · intro kv hkv hkvle
        simp only [autoIncrementTable.decodeAutoIncJson.onMessage, hon, hs.2] at hkv hkvle
        rcases mem_kvSet _ _ _ _ hkv with heq | hold
        · rw [heq] at hkvle
          simp only at hkvle
          omega
        · exact hkeys kv hold hkvle
    · have hle : m.autoIncField ≤ st.seq := by
        rcases hcase with h0 | h1
        · exact absurd h0 hval
        · exact h1
      have hexp : explicitKeys (RawMessage.object m :: rest)
          = m.autoIncField :: explicitKeys rest := by
        simp [explicitKeys, hval]
      rw [hexp] at hkeys hnodup
      have hfresh : ∀ kv ∈ st.backend.commitmentStore, kv.1 ≠ m.autoIncField := by
        intro kv hkv heq
        exact hkeys kv hkv (by rw [heq]; exact hle) (by rw [heq]; exact List.mem_cons_self _ _)
      have hs := baseSave_insert_of_fresh t.tableImpl hdo st.backend m hfresh
      have hon := importOnMsg_within_max t m st.seq st.backend hval hle
      refine ⟨?_, hinv', ?_, (List.nodup_cons.mp hnodup).2, hvalid'⟩
      · simp only [autoIncrementTable.decodeAutoIncJson.onMessage, hon, hs.1]
      · intro kv hkv hkvle
        simp only [autoIncrementTable.decodeAutoIncJson.onMessage, hon, hs.2] at hkv hkvle
        rcases mem_kvSet _ _ _ _ hkv with heq | hold
        · rw [heq]
          exact (List.nodup_cons.mp hnodup).1
        · exact fun hmem => hkeys kv hold hkvle (List.mem_cons_of_mem _ hmem)

theorem validate_import_loop_agree (t : autoIncrementTable) (hlaw : t.seqCodec.Lawful)
    (hdo : t.tableImpl.doSave = doSaveModel)
    (f1 f2 : RawMessage → ImportState → Except Error Bool × ImportState) :
    ∀ (rem : List RawMessage) (sv si : ImportState), sv.seq = si.seq → importFresh t rem si →
      (doDecodeLoop f1
        (autoIncrementTable.decodeAutoIncJson.onMessage (autoIncrementTable.ValidateJSON.onMsg t))
        false rem sv).1 =
      (doDecodeLoop f2
        (autoIncrementTable.decodeAutoIncJson.onMessage (autoIncrementTable.ImportJSON.onMsg t))
        false rem si).1 := by
  intro rem
  induction rem with
  | nil => intro sv si _ _; simp [doDecodeLoop]
  | cons raw rest ih =>
    intro sv si hseq hfresh
    cases raw with
    | number n => simp [doDecodeLoop, RawMessage.unmarshalMessage]
    | invalid err => simp [doDecodeLoop, RawMessage.unmarshalMessage]
    | object m =>
      rw [doDecodeLoop_object_step, doDecodeLoop_object_step, onMessage_validate]
      obtain ⟨hbad, hgood⟩ := importFresh_step t hlaw hdo m rest si hfresh
      have hvalid : t.jsonValidator m = none := hfresh.2.2.2 m (List.mem_cons_self _ _)
      by_cases hcase : m.autoIncField = 0 ∨ m.autoIncField ≤ si.seq
      · obtain ⟨hok, hnext⟩ := hgood hcase
        have hngt : ¬ m.autoIncField > sv.seq := by
          rw [hseq]
          rcases hcase with h0 | h1
          · omega
          · omega
        rw [if_neg hngt, hvalid]
        rcases hm : autoIncrementTable.decodeAutoIncJson.onMessage
          (autoIncrementTable.ImportJSON.onMsg t) m si with ⟨err, si'⟩
        rw [hm] at hok hnext
        simp only at hok hnext
        subst hok
        simp only []
        apply ih sv si' _ hnext
        have hs := onMessage_seq (autoIncrementTable.ImportJSON.onMsg t) m si
        rw [hm] at hs
        exact hseq.trans hs.symm
      · have hval : m.autoIncField ≠ 0 := fun h => hcase (Or.inl h)
        have hgt : m.autoIncField > si.seq := by
          have := fun h => hcase (Or.inr h)
          omega
        have herr := hbad hval hgt
        rw [if_pos (by rw [hseq]; exact hgt), hseq]
        rcases hm : autoIncrementTable.decodeAutoIncJson.onMessage
          (autoIncrementTable.ImportJSON.onMsg t) m si with ⟨err, si'⟩
        rw [hm] at herr
        simp only at herr
        subst herr
        rfl

theorem doDecodeJson_outcome {σ : Type} (reader : Reader)
    (onFirst : RawMessage → σ → Except Error Bool × σ)
    (onMsg : Message → σ → Option Error × σ) (s : σ) :
    (doDecodeJson reader onFirst onMsg s).1 =
      match (doDecodeLoop onFirst onMsg true reader.elems s).1 with
      | Outcome.returned none => Outcome.returned reader.finish
      | out => out := by
  unfold doDecodeJson
  generalize doDecodeLoop onFirst onMsg true reader.elems s = res
  obtain ⟨out, s'⟩ := res
  cases out with
  | returned err => cases err <;> rfl
  | panicked e => rfl

theorem importFresh_start (t : autoIncrementTable) (hlaw : t.seqCodec.Lawful)
    (reader : Reader)
    (hvalid : ∀ m, RawMessage.object m ∈ reader.elems → t.jsonValidator m = none)
    (hdist : (explicitKeys reader.elems).Nodup)
    (hno : reader.leadingNumber.getD 0 + reader.elems.length < uint64Mod) :
    match reader.leadingNumber with
    | some n =>
      importFresh t reader.elems.tail
        (afterLeadingNumber t true n
          { seq := 0, backend := { commitmentStore := [], indexStore := [] }, trace := [] })
    | none =>
      importFresh t reader.elems
        { seq := 0, backend := { commitmentStore := [], indexStore := [] }, trace := [] } := by
  rcases hl : reader.leadingNumber with _ | n
  · simp only []
    rw [hl] at hno
    have hseq : committedSeq t { commitmentStore := [], indexStore := [] } = (0, none) := by
      rw [committedSeq_eq]
      exact hlaw.decode_nil
    refine ⟨⟨keysBounded_of t _ 0 hseq (by simp), ?_, ?_⟩, by simp, hdist, hvalid⟩
    · exact Nat.zero_le _
    · rw [hseq]
      simpa using hno
  · simp only []
    obtain ⟨hn, rest, he⟩ := leadingNumber_eq_some reader n hl
    rw [hl, he] at hno
    rw [he] at hvalid hdist
    simp only [he, List.tail_cons]
    have hseq := committedSeq_afterLeadingNumber t hlaw n hn
      { seq := 0, backend := { commitmentStore := [], indexStore := [] }, trace := [] }
    refine ⟨⟨keysBounded_of t _ n hseq (by simp [afterLeadingNumber]), ?_, ?_⟩, ?_, ?_, ?_⟩
    · rw [hseq, afterLeadingNumber_seq]
    · rw [hseq]
      simp only [Option.getD_some, List.length_cons] at hno
      show n + rest.length < uint64Mod
      omega
    · simp [afterLeadingNumber]
    · simpa [explicitKeys] using hdist
    · exact fun m hm => hvalid m (List.mem_cons_of_mem _ hm)

/-! ## Export and the way back -/

theorem write_of_accepts_none (w : Writer) (p : Chunk) (h : w.accepts = none) :
    w.Write p = (none, { written := w.written ++ [p], accepts := none }) := by
  obtain ⟨written, accepts⟩ := w
  simp only at h
  subst h
  rfl

theorem writeAll_of_accepts_none (ps : List Chunk) :
    ∀ w : Writer, w.accepts = none →
      w.WriteAll ps = (none, { written := w.written ++ ps, accepts := none }) := by
  induction ps with
  | nil =>
    intro w h
    obtain ⟨written, accepts⟩ := w
    simp only at h
    subst h
    simp [Writer.WriteAll]
  | cons p ps ih =>
    intro w h
    simp only [Writer.WriteAll, write_of_accepts_none w p h]
    rw [ih _ rfl]
    simp

theorem exportJSON_eq (t : autoIncrementTable)
    (doExportJSON : Context → Writer → Option Error × Writer) (b : Backend) (writer : Writer)
    (s : Nat) (hw : writer.accepts = none) (hs : committedSeq t b = (s, none)) :
    t.ExportJSON doExportJSON (.ok b) writer =
      doExportJSON (.ok b)
        { written := writer.written
            ++ Chunk.text "[" :: (if s ≠ 0 then [Chunk.uint64 s, Chunk.text ",\n"] else []),
          accepts := none } := by
  unfold committedSeq at hs
  unfold autoIncrementTable.ExportJSON
  simp only [write_of_accepts_none writer _ hw]
  generalize hcur : t.curSeqValue Backend.IndexStoreReader b = cur at hs
  obtain ⟨⟨seq, err⟩, b'⟩ := cur
  simp only [Prod.mk.injEq] at hs
  obtain ⟨rfl, rfl⟩ := hs
  by_cases h0 : seq = 0
  · simp [h0]
  · simp [h0, write_of_accepts_none]

/-- The element a record written by the export is read back as. -/
theorem readArray_recordChunks (rs : List (Nat × Bytes)) :
    readArray false (recordChunks false rs ++ [Chunk.text "]"]) =
      (rs.map (fun kv => RawMessage.object { autoIncField := kv.1, body := kv.2 }), none) := by
  induction rs with
  | nil => simp [recordChunks, readArray]
  | cons r rs ih =>
    obtain ⟨k, v⟩ := r
    simp [recordChunks, readArray, ih]

theorem readArray_recordChunks_start (r : Nat × Bytes) (rs : List (Nat × Bytes)) :
    readArray true (recordChunks true (r :: rs) ++ [Chunk.text "]"]) =
      ((r :: rs).map (fun kv => RawMessage.object { autoIncField := kv.1, body := kv.2 }),
        none) := by
  obtain ⟨k, v⟩ := r
  simp [recordChunks, readArray, readArray_recordChunks]

theorem kvSet_of_absent {κ ν : Type} [DecidableEq κ] (k : κ) (v : ν) (s : List (κ × ν))
    (h : ∀ kv ∈ s, kv.1 ≠ k) : kvSet k v s = s ++ [(k, v)] := by
  induction s with
  | nil => rfl
  | cons x s ih =>
    obtain ⟨k', v'⟩ := x
    have hk : k' ≠ k := h (k', v') (List.mem_cons_self _ _)
    simp only [kvSet, if_neg hk, List.cons_append]
    rw [ih (fun kv hkv => h kv (List.mem_cons_of_mem _ hkv))]

theorem kvGet_map_of_mem {κ ν : Type} [DecidableEq κ] (f : κ → ν) (k : κ) (ks : List κ) :
    kvGet k (ks.map (fun j => (j, f j))) = if k ∈ ks then some (f k) else none := by
  induction ks with
  | nil => simp [kvGet]
  | cons j ks ih =>
    simp only [List.map_cons, kvGet, ih, List.mem_cons]
    by_cases hj : j = k
    · simp [hj]
    · have hj' : ¬ k = j := fun e => hj e.symm
      simp [hj, hj']

theorem kvGet_eq_none_iff {κ ν : Type} [DecidableEq κ] (k : κ) (s : List (κ × ν)) :
    kvGet k s = none ↔ k ∉ s.map Prod.fst := by
  induction s with
  | nil => simp [kvGet]
  | cons x s ih =>
    obtain ⟨k', v'⟩ := x
    by_cases hk : k' = k
    · simp [kvGet, hk]
    · have hk' : ¬ k = k' := fun e => hk e.symm
      simp [kvGet, hk, hk', ih]

theorem mem_storedKeys (b : Backend) (k : Nat) :
    k ∈ ((b.commitmentStore.map Prod.fst).dedup).insertionSort (fun j k => j ≤ k)
      ↔ k ∈ b.commitmentStore.map Prod.fst := by
  rw [(List.perm_insertionSort _ _).mem_iff, List.mem_dedup]

theorem kvGet_recordsInOrder (b : Backend) (k : Nat) :
    kvGet k (recordsInOrder b) = kvGet k b.commitmentStore := by
  unfold recordsInOrder
  rw [kvGet_map_of_mem]
  by_cases hk : k ∈ b.commitmentStore.map Prod.fst
  · rw [if_pos ((mem_storedKeys b k).2 hk)]
    cases hget : kvGet k b.commitmentStore with
    | none => exact absurd hk ((kvGet_eq_none_iff k _).1 hget)
    | some v => rfl
  · rw [if_neg (fun h => hk ((mem_storedKeys b k).1 h))]
    exact ((kvGet_eq_none_iff k _).2 hk).symm

theorem recordsInOrder_keys (b : Backend) :
    (recordsInOrder b).map Prod.fst =
      ((b.commitmentStore.map Prod.fst).dedup).insertionSort (fun j k => j ≤ k) := by
  unfold recordsInOrder
  rw [List.map_map]
  exact List.map_id _

theorem recordsInOrder_nodup (b : Backend) : ((recordsInOrder b).map Prod.fst).Nodup := by
  rw [recordsInOrder_keys]
  exact (List.perm_insertionSort _ _).nodup_iff.2 (List.nodup_dedup _)

theorem recordsInOrder_sorted (b : Backend) :
    ((recordsInOrder b).map Prod.fst).Sorted (fun j k => j ≤ k) := by
  rw [recordsInOrder_keys]
  exact List.sorted_insertionSort _ _

theorem mem_recordsInOrder (b : Backend) (kv : Nat × Bytes) (h : kv ∈ recordsInOrder b) :
    ∃ kv' ∈ b.commitmentStore, kv'.1 = kv.1 := by
  have h1 : kv.1 ∈ (recordsInOrder b).map Prod.fst := List.mem_map_of_mem _ h
  rw [recordsInOrder_keys, mem_storedKeys] at h1
  obtain ⟨kv', hkv', he⟩ := List.mem_map.1 h1
  exact ⟨kv', hkv', he⟩

theorem recordsInOrder_ne_nil (b : Backend) (h : b.commitmentStore ≠ []) :
    recordsInOrder b ≠ [] := by
  intro he
  cases hs : b.commitmentStore with
  | nil => exact h hs
  | cons x s =>
    have h1 : x.1 ∈ b.commitmentStore.map Prod.fst := by
      rw [hs]; simp
    rw [← mem_storedKeys, ← recordsInOrder_keys, he] at h1
    simp at h1

theorem importLoop_records (t : autoIncrementTable) (hdo : t.tableImpl.doSave = doSaveModel)
    (recs : List (Nat × Bytes)) :
    ∀ st : ImportState,
      (∀ kv ∈ recs, kv.1 ≠ 0 ∧ kv.1 ≤ st.seq) →
      (recs.map Prod.fst).Nodup →
      (∀ kv ∈ st.backend.commitmentStore, kv.1 ∉ recs.map Prod.fst) →
      ∃ tr,
        doDecodeLoop (autoIncrementTable.decodeAutoIncJson.onFirst t true)
            (autoIncrementTable.decodeAutoIncJson.onMessage (autoIncrementTable.ImportJSON.onMsg t))
            false
            (recs.map (fun kv => RawMessage.object { autoIncField := kv.1, body := kv.2 })) st =
          (Outcome.returned none,
            { seq := st.seq,
              backend := { commitmentStore := st.backend.commitmentStore ++ recs,
                           indexStore := st.backend.indexStore },
              trace := tr }) := by
  induction recs with
  | nil =>
    intro st _ _ _
    refine ⟨st.trace, ?_⟩
    simp [doDecodeLoop]
  | cons r recs ih =>
    intro st hkeys hnodup hfresh
    obtain ⟨k, v⟩ := r
    have hk := hkeys (k, v) (List.mem_cons_self _ _)
    simp only [List.map_cons, List.nodup_cons] at hnodup
    have hfr : ∀ kv ∈ st.backend.commitmentStore,
        kv.1 ≠ (({ autoIncField := k, body := v } : Message)).autoIncField := by
      intro kv hkv he
      exact hfresh kv hkv (by simp [he])
    obtain ⟨herr, hback⟩ := baseSave_insert_of_fresh t.tableImpl hdo st.backend
      { autoIncField := k, body := v } hfr
    rw [kvSet_of_absent _ _ _ hfr] at hback
    have hstep : autoIncrementTable.decodeAutoIncJson.onMessage
        (autoIncrementTable.ImportJSON.onMsg t) { autoIncField := k, body := v } st =
        (none, { seq := st.seq,
                 backend := { commitmentStore := st.backend.commitmentStore ++ [(k, v)],
                              indexStore := st.backend.indexStore },
                 trace := st.trace ++
                   (t.tableImpl.save st.backend { autoIncField := k, body := v }
                     saveModeInsert).trace }) := by
      unfold autoIncrementTable.decodeAutoIncJson.onMessage
      rw [importOnMsg_within_max t _ _ _ hk.1 hk.2]
      simp only [herr, hback]
    rw [List.map_cons, doDecodeLoop_object_step, hstep]
    simp only
    obtain ⟨tr, htr⟩ := ih
      { seq := st.seq,
        backend := { commitmentStore := st.backend.commitmentStore ++ [(k, v)],
                     indexStore := st.backend.indexStore },
        trace := st.trace ++
          (t.tableImpl.save st.backend { autoIncField := k, body := v } saveModeInsert).trace }
      (fun kv hkv => hkeys kv (List.mem_cons_of_mem _ hkv)) hnodup.2
      (by
        intro kv hkv
        simp only [List.mem_append, List.mem_singleton] at hkv
        rcases hkv with hkv | hkv
        · intro hmem
          exact hfresh kv hkv (by simp [hmem])
        · subst hkv
          exact hnodup.1)
    refine ⟨tr, ?_⟩
    rw [htr]
    simp

theorem exportJSON_model_eq (t : autoIncrementTable) (b : Backend) (s : Nat)
    (hs : committedSeq t b = (s, none)) :
    t.ExportJSON doExportJSONModel (.ok b) Writer.buffer =
      (none,
        { written := Chunk.text "[" :: ((if s ≠ 0 then [Chunk.uint64 s, Chunk.text ",\n"] else [])
            ++ (recordChunks true (recordsInOrder b) ++ [Chunk.text "]"])),
          accepts := none }) := by
  rw [exportJSON_eq t doExportJSONModel b Writer.buffer s rfl hs]
  simp only [doExportJSONModel]
  rw [writeAll_of_accepts_none _ _ rfl]
  simp [Writer.buffer]

theorem readerOf_export_empty :
    readerOf (Chunk.text "[" :: ([] ++ (recordChunks true [] ++ [Chunk.text "]"]))) =
      { start := none, elems := [], finish := none } := by
  decide

theorem readerOf_export_records (s : Nat) (r : Nat × Bytes) (rs : List (Nat × Bytes)) :
    readerOf (Chunk.text "[" :: ([Chunk.uint64 s, Chunk.text ",\n"]
        ++ (recordChunks true (r :: rs) ++ [Chunk.text "]"]))) =
      { start := none,
        elems := RawMessage.number s ::
          (r :: rs).map (fun kv => RawMessage.object { autoIncField := kv.1, body := kv.2 }),
        finish := none } := by
  obtain ⟨k, v⟩ := r
  simp [readerOf, readArray, recordChunks, readArray_recordChunks]

/-! ## Properties of `save` -/

/-- C1: for a message whose auto-increment field is 0 and mode insert or default,
`save` reads the current sequence value `c` from the writer's index store, stages
`c + 1` (the Go `seq++`, so modulo `2 ^ 64`) under the sequence key, sets the
message's field to it and then calls the base `doSave` in mode insert with that
writer and that message; the id it returns is `c + 1`, in particular when `doSave`
succeeds. -/
theorem save_zero_key_mints (t : autoIncrementTable) (backend : Backend) (message : Message)
    (mode : saveMode) (c : Nat)
    (hval : message.autoIncField = 0)
    (hmode : mode = saveModeInsert ∨ mode = saveModeDefault)
    (hcur : (t.curSeqValue batchIndexCommitmentWriter.IndexStore.toReadonlyStore
      (newBatchIndexCommitmentWriter backend)).1 = (c, none)) :
    t.save backend message mode =
      afterDoSave ((c + 1) % uint64Mod)
        (t.tableImpl.doSave
          { backend := backend, commitmentWriter := [],
            indexWriter := [(t.seqCodec.Prefix, t.seqCodec.EncodeValue ((c + 1) % uint64Mod))],
            trace := [Event.indexGet t.seqCodec.Prefix,
              Event.indexSet t.seqCodec.Prefix (t.seqCodec.EncodeValue ((c + 1) % uint64Mod)),
              Event.doSave saveModeInsert { message with autoIncField := (c + 1) % uint64Mod }] }
          { message with autoIncField := (c + 1) % uint64Mod } saveModeInsert)
      ∧ (t.save backend message mode).newId = (c + 1) % uint64Mod
      ∧ (c + 1 < uint64Mod → (t.save backend message mode).newId = c + 1) := by
  have hne : mode ≠ saveModeUpdate := by rcases hmode with h | h <;> simp [h]
  have hsave := save_eq_of_zero_key t backend message mode c hval hne
    ((curSeqValue_newWriter t backend).symm.trans hcur)
  refine ⟨hsave, ?_, ?_⟩
  · rw [hsave]; rfl
  · intro hlt
    rw [hsave]
    exact Nat.mod_eq_of_lt hlt

theorem save_zero_key_mints_witness :
    (modelTable fixed64SeqCodec).save { commitmentStore := [], indexStore := [] }
        { autoIncField := 0, body := [97] } saveModeInsert =
      { newId := 1, err := none, message := { autoIncField := 1, body := [97] },
        backend := { commitmentStore := [(1, [97])],
                     indexStore := [([3, 1], [1, 0, 0, 0, 0, 0, 0, 0])] },
        trace := [Event.indexGet [3, 1], Event.indexSet [3, 1] [1, 0, 0, 0, 0, 0, 0, 0],
          Event.doSave saveModeInsert { autoIncField := 1, body := [97] },
          Event.commitmentGet 1, Event.commitmentSet 1 [97], Event.Write, Event.Close] } :=
  (save_zero_key_mints (modelTable fixed64SeqCodec) { commitmentStore := [], indexStore := [] }
    { autoIncField := 0, body := [97] } saveModeInsert 0 rfl (Or.inl rfl) rfl).1.trans
    (by decide)

/-- C2: for a message whose auto-increment field is 0, `save` in update mode fails with
`PrimaryKeyInvalidOnUpdate` and id 0; the only call on the writer is its `Close`, so
the base `doSave` is not called, and message and backend are as before.  `Update`,
once it has its backend, returns the same error in the same way. -/
theorem save_update_zero_key_fails (t : autoIncrementTable) (backend : Backend)
    (message : Message) (hval : message.autoIncField = 0) :
    t.save backend message saveModeUpdate =
        { newId := 0, err := some Error.PrimaryKeyInvalidOnUpdate, message := message,
          backend := backend, trace := [Event.Close] }
      ∧ t.Update (.ok backend) message =
        { err := some Error.PrimaryKeyInvalidOnUpdate, message := message,
          ctx := .ok backend, trace := [Event.Close] } := by
  have hsave := save_update_eq_of_zero_key t backend message hval
  exact ⟨hsave, by simp only [autoIncrementTable.Update, hsave]⟩

theorem save_update_zero_key_fails_witness :
    (modelTable fixed64SeqCodec).save { commitmentStore := [], indexStore := [] }
        { autoIncField := 0, body := [97] } saveModeUpdate =
        { newId := 0, err := some Error.PrimaryKeyInvalidOnUpdate,
          message := { autoIncField := 0, body := [97] },
          backend := { commitmentStore := [], indexStore := [] }, trace := [Event.Close] }
      ∧ (modelTable fixed64SeqCodec).Update (.ok { commitmentStore := [], indexStore := [] })
        { autoIncField := 0, body := [97] } =
        { err := some Error.PrimaryKeyInvalidOnUpdate,
          message := { autoIncField := 0, body := [97] },
          ctx := .ok { commitmentStore := [], indexStore := [] }, trace := [Event.Close] } :=
  save_update_zero_key_fails (modelTable fixed64SeqCodec)
    { commitmentStore := [], indexStore := [] } { autoIncField := 0, body := [97] } rfl

/-- C3: for a message whose auto-increment field is not 0, `save` in insert mode fails
with `AutoIncrementKeyAlreadySet` and id 0; the only call on the writer is its `Close`,
so the sequence entry is neither read nor written and the base `doSave` is not
called.  `Insert` and `InsertReturningID`, once they have their backend, return the
same error in the same way. -/
theorem save_insert_nonzero_key_fails (t : autoIncrementTable) (backend : Backend)
    (message : Message) (hval : message.autoIncField ≠ 0) :
    t.save backend message saveModeInsert =
        { newId := 0, err := some Error.AutoIncrementKeyAlreadySet, message := message,
          backend := backend, trace := [Event.Close] }
      ∧ t.Insert (.ok backend) message =
        { err := some Error.AutoIncrementKeyAlreadySet, message := message,
          ctx := .ok backend, trace := [Event.Close] }
      ∧ t.InsertReturningID (.ok backend) message =
        (0, { err := some Error.AutoIncrementKeyAlreadySet, message := message,
              ctx := .ok backend, trace := [Event.Close] }) := by
  have hsave := save_insert_eq_of_nonzero_key t backend message hval
  exact ⟨hsave, by simp only [autoIncrementTable.Insert, hsave],
    by simp only [autoIncrementTable.InsertReturningID, hsave]⟩

theorem save_insert_nonzero_key_fails_witness :
    (modelTable fixed64SeqCodec).save { commitmentStore := [], indexStore := [] }
        { autoIncField := 5, body := [97] } saveModeInsert =
        { newId := 0, err := some Error.AutoIncrementKeyAlreadySet,
          message := { autoIncField := 5, body := [97] },
          backend := { commitmentStore := [], indexStore := [] }, trace := [Event.Close] } :=
  (save_insert_nonzero_key_fails (modelTable fixed64SeqCodec)
    { commitmentStore := [], indexStore := [] } { autoIncField := 5, body := [97] }
    (by decide)).1

/-- C4: for a message whose auto-increment field is not 0, `save` in update or default
mode calls the base `doSave` in mode update on a fresh writer (nothing read from or
staged in the index store before the call) with the message as it was passed in, its
auto-increment field untouched; the error of `save` is the error of `doSave`, and the
caller's message after the call is the one `doSave` leaves. -/
theorem save_nonzero_key_updates (t : autoIncrementTable) (backend : Backend)
    (message : Message) (mode : saveMode)
    (hval : message.autoIncField ≠ 0)
    (hmode : mode = saveModeUpdate ∨ mode = saveModeDefault) :
    t.save backend message mode =
        afterDoSave 0
          (t.tableImpl.doSave
            { backend := backend, commitmentWriter := [], indexWriter := [],
              trace := [Event.doSave saveModeUpdate message] }
            message saveModeUpdate)
      ∧ (t.save backend message mode).err =
        (t.tableImpl.doSave
          { backend := backend, commitmentWriter := [], indexWriter := [],
            trace := [Event.doSave saveModeUpdate message] }
          message saveModeUpdate).err
      ∧ (t.save backend message mode).message =
        (t.tableImpl.doSave
          { backend := backend, commitmentWriter := [], indexWriter := [],
            trace := [Event.doSave saveModeUpdate message] }
          message saveModeUpdate).message := by
  have hne : mode ≠ saveModeInsert := by rcases hmode with h | h <;> simp [h]
  have hsave := save_eq_of_nonzero_key t backend message mode hval hne
  exact ⟨hsave, by rw [hsave]; rfl, by rw [hsave]; rfl⟩

theorem save_nonzero_key_updates_witness :
    (modelTable fixed64SeqCodec).save
        { commitmentStore := [(5, [97])], indexStore := [([3, 1], [5, 0, 0, 0, 0, 0, 0, 0])] }
        { autoIncField := 5, body := [98] } saveModeDefault =
      { newId := 0, err := none, message := { autoIncField := 5, body := [98] },
        backend := { commitmentStore := [(5, [98])],
                     indexStore := [([3, 1], [5, 0, 0, 0, 0, 0, 0, 0])] },
        trace := [Event.doSave saveModeUpdate { autoIncField := 5, body := [98] },
          Event.commitmentGet 5, Event.commitmentSet 5 [98], Event.Write, Event.Close] } :=
  (save_nonzero_key_updates (modelTable fixed64SeqCodec)
    { commitmentStore := [(5, [97])], indexStore := [([3, 1], [5, 0, 0, 0, 0, 0, 0, 0])] }
    { autoIncField := 5, body := [98] } saveModeDefault (by decide) (Or.inr rfl)).1.trans
    (by decide)

/-- C5, amended: for every successful call of `save` on a message that came with
auto-increment field 0, the returned id is the value of that field after the call;
for a successful call on a message that came with a non-zero field the returned id
is 0 and the field keeps its value.  The base `doSave` is taken to hand the message
back with the field it received. -/
theorem save_returned_id (t : autoIncrementTable) (backend : Backend) (message : Message)
    (mode : saveMode)
    (hkeep : ∀ w m mo, (t.tableImpl.doSave w m mo).message.autoIncField = m.autoIncField)
    (hok : (t.save backend message mode).err = none) :
    (message.autoIncField = 0 →
        (t.save backend message mode).newId = (t.save backend message mode).message.autoIncField)
      ∧ (message.autoIncField ≠ 0 →
        (t.save backend message mode).newId = 0
          ∧ (t.save backend message mode).message.autoIncField = message.autoIncField) := by
  constructor
  · intro hval
    by_cases hmode : mode = saveModeUpdate
    · subst hmode
      rw [save_update_eq_of_zero_key t backend message hval] at hok
      simp at hok
    · rcases hcur : committedSeq t backend with ⟨c, _ | e⟩
      · rw [save_eq_of_zero_key t backend message mode c hval hmode hcur]
        simp only [afterDoSave]
        rw [hkeep]
      · rw [save_eq_of_zero_key_error t backend message mode c e hval hmode hcur] at hok
        simp at hok
  · intro hval
    by_cases hmode : mode = saveModeInsert
    · subst hmode
      rw [save_insert_eq_of_nonzero_key t backend message hval] at hok
      simp at hok
    · rw [save_eq_of_nonzero_key t backend message mode hval hmode]
      simp only [afterDoSave]
      exact ⟨trivial, hkeep _ _ _⟩

theorem save_returned_id_witness :
    ((modelTable fixed64SeqCodec).save { commitmentStore := [], indexStore := [] }
        { autoIncField := 0, body := [97] } saveModeDefault).newId =
      ((modelTable fixed64SeqCodec).save { commitmentStore := [], indexStore := [] }
        { autoIncField := 0, body := [97] } saveModeDefault).message.autoIncField :=
  (save_returned_id (modelTable fixed64SeqCodec) { commitmentStore := [], indexStore := [] }
    { autoIncField := 0, body := [97] } saveModeDefault
    (fun w m mo => by rw [show (modelTable fixed64SeqCodec).tableImpl.doSave = doSaveModel from rfl,
      doSaveModel_message])
    (by decide)).1 rfl

/-- C5, as stated, fails: a successful `save` of a message with auto-increment field 5
(an update) returns id 0, while the field is 5 after the call. -/
theorem save_returned_id_counterexample :
    ((modelTable fixed64SeqCodec).save
        { commitmentStore := [(5, [97])], indexStore := [([3, 1], [5, 0, 0, 0, 0, 0, 0, 0])] }
        { autoIncField := 5, body := [98] } saveModeUpdate).err = none
      ∧ ((modelTable fixed64SeqCodec).save
        { commitmentStore := [(5, [97])], indexStore := [([3, 1], [5, 0, 0, 0, 0, 0, 0, 0])] }
        { autoIncField := 5, body := [98] } saveModeUpdate).newId = 0
      ∧ ((modelTable fixed64SeqCodec).save
        { commitmentStore := [(5, [97])], indexStore := [([3, 1], [5, 0, 0, 0, 0, 0, 0, 0])] }
        { autoIncField := 5, body := [98] } saveModeUpdate).message.autoIncField = 5 := by
  decide

/-- C6, at the failing input: on a table without sequence entry that holds a record
with key 1, `save` in insert mode of a message with auto-increment field 0 mints id 1,
the base `doSave` fails with `AlreadyExists`, and `save` (hence `InsertReturningID`)
returns that error together with the id 1, not 0. -/
theorem save_error_with_minted_id :
    ((modelTable fixed64SeqCodec).save { commitmentStore := [(1, [97])], indexStore := [] }
        { autoIncField := 0, body := [98] } saveModeInsert).err = some Error.AlreadyExists
      ∧ ((modelTable fixed64SeqCodec).save { commitmentStore := [(1, [97])], indexStore := [] }
        { autoIncField := 0, body := [98] } saveModeInsert).newId = 1
      ∧ ((modelTable fixed64SeqCodec).InsertReturningID
        (.ok { commitmentStore := [(1, [97])], indexStore := [] })
        { autoIncField := 0, body := [98] }).1 = 1 := by
  decide

/-- C7, amended: along any sequence of `save` calls on one table that starts at committed
counter `prior` and does not take the counter to `2 ^ 64` (`prior` plus the number of
successful zero-key saves stays below `2 ^ 64`), every id returned by a successful
save of a zero-key message is strictly greater than `prior` and than every id
returned before it.  The base `doSave` is taken to commit the writer exactly when it
succeeds. -/
theorem runSaves_ids_increasing (t : autoIncrementTable) (hlaw : t.seqCodec.Lawful)
    (hdo : CommitsOnSuccess t.seqCodec.Prefix t.tableImpl.doSave)
    (b : Backend) (ops : List (Message × saveMode)) (prior : Nat)
    (hcur : committedSeq t b = (prior, none))
    (hno : prior + (runSaves t b ops).2.length < uint64Mod) :
    List.Pairwise (fun x y => x < y) (prior :: (runSaves t b ops).2) := by
  have hids := (runSaves_counter_and_ids t hlaw hdo ops b prior hcur).2
  have hmap : (runSaves t b ops).2 =
      (List.range (runSaves t b ops).2.length).map (fun k => prior + (k + 1)) := by
    conv_lhs => rw [hids]
    apply List.map_congr_left
    intro k hk
    have hk' : k < (runSaves t b ops).2.length := List.mem_range.mp hk
    exact Nat.mod_eq_of_lt (by omega)
  rw [hmap, List.pairwise_cons]
  refine ⟨?_, ?_⟩
  · intro id hid
    obtain ⟨k, -, rfl⟩ := List.mem_map.mp hid
    omega
  · rw [List.pairwise_map]
    exact (List.pairwise_lt_range _).imp (fun h => by omega)

theorem runSaves_ids_increasing_witness :
    List.Pairwise (fun x y => x < y)
      (0 :: (runSaves (modelTable fixed64SeqCodec) { commitmentStore := [], indexStore := [] }
        [({ autoIncField := 0, body := [97] }, saveModeInsert),
         ({ autoIncField := 0, body := [98] }, saveModeInsert)]).2) :=
  runSaves_ids_increasing (modelTable fixed64SeqCodec) fixed64SeqCodec_lawful
    (doSaveModel_commits _) { commitmentStore := [], indexStore := [] }
    [({ autoIncField := 0, body := [97] }, saveModeInsert),
     ({ autoIncField := 0, body := [98] }, saveModeInsert)] 0 (by decide) (by decide)

/-- C7, as stated, fails: on a table whose stored counter is `2 ^ 64 - 2`, two inserts of
zero-key messages both succeed; the first returns `2 ^ 64 - 1` and the second returns
0, which is not greater than the id minted just before. -/
theorem runSaves_ids_wrap_counterexample :
    committedSeq (modelTable fixed64SeqCodec)
        { commitmentStore := [],
          indexStore := [([3, 1], [254, 255, 255, 255, 255, 255, 255, 255])] }
        = (18446744073709551614, none)
      ∧ (runSaves (modelTable fixed64SeqCodec)
        { commitmentStore := [],
          indexStore := [([3, 1], [254, 255, 255, 255, 255, 255, 255, 255])] }
        [({ autoIncField := 0, body := [97] }, saveModeInsert),
         ({ autoIncField := 0, body := [98] }, saveModeInsert)]).2
        = [18446744073709551615, 0] := by
  decide

/-- C8: along any sequence of `save` calls on one table, with `N` the number of
successful saves of zero-key messages (inserts) and any updates in between, the
committed sequence counter ends at its prior value plus `N` and the `k`-th successful
insert returns the prior value plus `k` (Go `uint64` arithmetic, so modulo `2 ^ 64`;
the plain sums when the counter stays below `2 ^ 64`); on a table without sequence
entry the prior value is 0, so the first two inserts return 1 and 2.  The base
`doSave` is taken to commit the writer exactly when it succeeds. -/
theorem runSaves_counter (t : autoIncrementTable) (hlaw : t.seqCodec.Lawful)
    (hdo : CommitsOnSuccess t.seqCodec.Prefix t.tableImpl.doSave)
    (b : Backend) (ops : List (Message × saveMode)) (prior : Nat)
    (hcur : committedSeq t b = (prior, none)) :
    committedSeq t (runSaves t b ops).1 =
        ((prior + (runSaves t b ops).2.length) % uint64Mod, none)
      ∧ (∀ k (hk : k < (runSaves t b ops).2.length),
          (runSaves t b ops).2.get ⟨k, hk⟩ = (prior + (k + 1)) % uint64Mod)
      ∧ (prior + (runSaves t b ops).2.length < uint64Mod →
          committedSeq t (runSaves t b ops).1 = (prior + (runSaves t b ops).2.length, none)
          ∧ ∀ k (hk : k < (runSaves t b ops).2.length),
            (runSaves t b ops).2.get ⟨k, hk⟩ = prior + (k + 1))
      ∧ (kvGet t.seqCodec.Prefix b.indexStore = none → prior = 0) := by
  obtain ⟨hseq, hids⟩ := runSaves_counter_and_ids t hlaw hdo ops b prior hcur
  have hget : ∀ k (hk : k < (runSaves t b ops).2.length),
      (runSaves t b ops).2.get ⟨k, hk⟩ = (prior + (k + 1)) % uint64Mod := by
    intro k hk
    have h1 : (runSaves t b ops).2[k]? = some ((prior + (k + 1)) % uint64Mod) := by
      conv_lhs => rw [hids]
      simp [List.getElem?_map, List.getElem?_range hk]
    have h2 : (runSaves t b ops).2[k]? = some ((runSaves t b ops).2.get ⟨k, hk⟩) := by
      simp [List.getElem?_eq_getElem hk]
    exact Option.some.inj (h2.symm.trans h1)
  refine ⟨hseq, hget, ?_, ?_⟩
  · intro hno
    refine ⟨by rw [hseq, Nat.mod_eq_of_lt hno], ?_⟩
    intro k hk
    rw [hget k hk]
    exact Nat.mod_eq_of_lt (by omega)
  · intro hnone
    rw [committedSeq_eq, hnone, Option.getD_none, hlaw.decode_nil] at hcur
    exact (Prod.mk.inj hcur).1.symm

theorem runSaves_counter_witness :
    committedSeq (modelTable fixed64SeqCodec)
        (runSaves (modelTable fixed64SeqCodec) { commitmentStore := [], indexStore := [] }
          [({ autoIncField := 0, body := [97] }, saveModeInsert),
           ({ autoIncField := 1, body := [99] }, saveModeUpdate),
           ({ autoIncField := 7, body := [99] }, saveModeUpdate),
           ({ autoIncField := 0, body := [98] }, saveModeInsert)]).1 = (2, none)
      ∧ (runSaves (modelTable fixed64SeqCodec) { commitmentStore := [], indexStore := [] }
          [({ autoIncField := 0, body := [97] }, saveModeInsert),
           ({ autoIncField := 1, body := [99] }, saveModeUpdate),
           ({ autoIncField := 7, body := [99] }, saveModeUpdate),
           ({ autoIncField := 0, body := [98] }, saveModeInsert)]).2 = [1, 2] :=
  ⟨(runSaves_counter (modelTable fixed64SeqCodec) fixed64SeqCodec_lawful
      (doSaveModel_commits _) { commitmentStore := [], indexStore := [] }
      [({ autoIncField := 0, body := [97] }, saveModeInsert),
       ({ autoIncField := 1, body := [99] }, saveModeUpdate),
       ({ autoIncField := 7, body := [99] }, saveModeUpdate),
       ({ autoIncField := 0, body := [98] }, saveModeInsert)] 0 (by decide)).1.trans
      (by decide),
    by decide⟩

/-- C10, amended: on a table over the modelled base engine whose committed counter `c` is
below `2 ^ 64 - 1`, after a successful `Insert` of a zero-key message the message carries
the id `c + 1`, and `Save` on that message and that context is resolved to update mode:
it calls the base `doSave` in mode update, succeeds, makes no access to the sequence
entry, leaves the id of the message and the committed counter as they were, and leaves
the stores, hence the number of stored records, unchanged. -/
theorem insert_then_save_is_update (t : autoIncrementTable) (hlaw : t.seqCodec.Lawful)
    (hdo : t.tableImpl.doSave = doSaveModel)
    (b : Backend) (m : Message) (c : Nat)
    (hval : m.autoIncField = 0)
    (hcur : committedSeq t b = (c, none))
    (hno : c + 1 < uint64Mod)
    (hok : (t.Insert (.ok b) m).err = none) :
    (t.Insert (.ok b) m).message = { m with autoIncField := c + 1 }
      ∧ (t.Insert (.ok b) m).ctx =
        .ok { commitmentStore := kvSet (c + 1) m.body b.commitmentStore,
              indexStore := kvSet t.seqCodec.Prefix (t.seqCodec.EncodeValue (c + 1)) b.indexStore }
      ∧ t.Save (t.Insert (.ok b) m).ctx (t.Insert (.ok b) m).message =
        { err := none, message := { m with autoIncField := c + 1 },
          ctx := (t.Insert (.ok b) m).ctx,
          trace := [Event.doSave saveModeUpdate { m with autoIncField := c + 1 },
            Event.commitmentGet (c + 1), Event.commitmentSet (c + 1) m.body,
            Event.Write, Event.Close] }
      ∧ committedSeq t
          { commitmentStore := kvSet (c + 1) m.body b.commitmentStore,
            indexStore := kvSet t.seqCodec.Prefix (t.seqCodec.EncodeValue (c + 1)) b.indexStore }
          = (c + 1, none) := by
  have hmod : (c + 1) % uint64Mod = c + 1 := Nat.mod_eq_of_lt hno
  have hins := save_eq_of_zero_key t b m saveModeInsert c hval (by decide) hcur
  rw [hmod, hdo] at hins
  have herr : (t.save b m saveModeInsert).err = none := hok
  rw [hins] at herr
  simp only [afterDoSave, doSaveModel_insert_err] at herr
  have habs : kvGet (c + 1) (flushWrites b.commitmentStore []) = none := by
    by_contra hne
    rw [if_pos (by
      cases hk : kvGet (c + 1) (flushWrites b.commitmentStore ([] : List (Nat × Bytes)))
      · exact absurd hk hne
      · rfl)] at herr
    exact absurd herr (by simp)
  rw [doSaveModel_insert_of_absent _ _ habs] at hins
  simp only [afterDoSave, batchIndexCommitmentWriter.Close, flushWrites, List.nil_append,
    List.foldl_cons, List.foldl_nil, List.cons_append] at hins
  have hI : t.Insert (.ok b) m =
      { err := none, message := { m with autoIncField := c + 1 },
        ctx := .ok { commitmentStore := kvSet (c + 1) m.body b.commitmentStore,
                     indexStore := kvSet t.seqCodec.Prefix (t.seqCodec.EncodeValue (c + 1))
                       b.indexStore },
        trace := [Event.indexGet t.seqCodec.Prefix,
          Event.indexSet t.seqCodec.Prefix (t.seqCodec.EncodeValue (c + 1)),
          Event.doSave saveModeInsert { m with autoIncField := c + 1 },
          Event.commitmentGet (c + 1), Event.commitmentSet (c + 1) m.body,
          Event.Write, Event.Close] } := by
    simp only [autoIncrementTable.Insert, hins]
  have hupd := save_eq_of_nonzero_key t
    { commitmentStore := kvSet (c + 1) m.body b.commitmentStore,
      indexStore := kvSet t.seqCodec.Prefix (t.seqCodec.EncodeValue (c + 1)) b.indexStore }
    { m with autoIncField := c + 1 } saveModeDefault (by simp) (by decide)
  rw [hdo, doSaveModel_update_of_present _ _ (by simp [flushWrites, kvGet_kvSet_self])] at hupd
  simp only [afterDoSave, batchIndexCommitmentWriter.Close, flushWrites, List.nil_append,
    List.foldl_cons, List.foldl_nil, List.cons_append, kvSet_kvSet_self] at hupd
  refine ⟨by rw [hI], by rw [hI], ?_, ?_⟩
  · rw [hI]
    simp only [autoIncrementTable.Save, hupd]
  · rw [committedSeq_eq]
    simp only [kvGet_kvSet_self, Option.getD_some]
    exact hlaw.decode_encode _ hno

theorem insert_then_save_is_update_witness :
    (modelTable fixed64SeqCodec).Save
        ((modelTable fixed64SeqCodec).Insert (.ok { commitmentStore := [], indexStore := [] })
          { autoIncField := 0, body := [97] }).ctx
        ((modelTable fixed64SeqCodec).Insert (.ok { commitmentStore := [], indexStore := [] })
          { autoIncField := 0, body := [97] }).message =
      { err := none, message := { autoIncField := 1, body := [97] },
        ctx := .ok { commitmentStore := [(1, [97])],
                     indexStore := [([3, 1], [1, 0, 0, 0, 0, 0, 0, 0])] },
        trace := [Event.doSave saveModeUpdate { autoIncField := 1, body := [97] },
          Event.commitmentGet 1, Event.commitmentSet 1 [97], Event.Write, Event.Close] } :=
  (insert_then_save_is_update (modelTable fixed64SeqCodec) fixed64SeqCodec_lawful rfl
    { commitmentStore := [], indexStore := [] } { autoIncField := 0, body := [97] } 0
    rfl (by decide) (by decide) (by decide)).2.2.1.trans (by decide)

/-- C10, as stated, fails: on a table whose stored counter is `2 ^ 64 - 1` the `Insert` of a
zero-key message succeeds and leaves the message with id 0 (the increment wraps), and
the following `Save` of that message succeeds as a second insert: it mints id 1, moves
the counter to 1 and stores a second record. -/
theorem insert_then_save_reinserts_counterexample :
    ((modelTable fixed64SeqCodec).Insert
        (.ok { commitmentStore := [],
               indexStore := [([3, 1], [255, 255, 255, 255, 255, 255, 255, 255])] })
        { autoIncField := 0, body := [97] }) =
      { err := none, message := { autoIncField := 0, body := [97] },
        ctx := .ok { commitmentStore := [(0, [97])],
                     indexStore := [([3, 1], [0, 0, 0, 0, 0, 0, 0, 0])] },
        trace := [Event.indexGet [3, 1], Event.indexSet [3, 1] [0, 0, 0, 0, 0, 0, 0, 0],
          Event.doSave saveModeInsert { autoIncField := 0, body := [97] },
          Event.commitmentGet 0, Event.commitmentSet 0 [97], Event.Write, Event.Close] }
      ∧ (modelTable fixed64SeqCodec).Save
        (.ok { commitmentStore := [(0, [97])],
               indexStore := [([3, 1], [0, 0, 0, 0, 0, 0, 0, 0])] })
        { autoIncField := 0, body := [97] } =
      { err := none, message := { autoIncField := 1, body := [97] },
        ctx := .ok { commitmentStore := [(0, [97]), (1, [97])],
                     indexStore := [([3, 1], [1, 0, 0, 0, 0, 0, 0, 0])] },
        trace := [Event.indexGet [3, 1], Event.indexSet [3, 1] [1, 0, 0, 0, 0, 0, 0, 0],
          Event.doSave saveModeInsert { autoIncField := 1, body := [97] },
          Event.commitmentGet 1, Event.commitmentSet 1 [97], Event.Write, Event.Close] } := by
  decide

/-- C9, amended: on a table over the modelled base engine, "every record of the commitment
store has a surrogate key at most the committed sequence counter" holds for the empty
table; it is preserved by `Update`; it is preserved by `Insert`, `InsertReturningID` and
`Save` whenever the message has a non-zero key or the committed counter is below
`2 ^ 64 - 1`; and it is preserved by `ImportJSON` on every input whose leading number,
if there is one, is at least every stored key, provided the counter cannot reach
`2 ^ 64` during the import (the leading number, or else the committed counter, plus
the number of elements is below `2 ^ 64`). -/
theorem keysBounded_preserved (t : autoIncrementTable) (hlaw : t.seqCodec.Lawful)
    (hdo : t.tableImpl.doSave = doSaveModel) :
    keysBounded t { commitmentStore := [], indexStore := [] }
      ∧ (∀ b m, keysBounded t b → ctxKeysBounded t (t.Update (.ok b) m).ctx)
      ∧ (∀ b m, keysBounded t b →
          (m.autoIncField = 0 → (committedSeq t b).1 + 1 < uint64Mod) →
          ctxKeysBounded t (t.Insert (.ok b) m).ctx
            ∧ ctxKeysBounded t (t.InsertReturningID (.ok b) m).2.ctx
            ∧ ctxKeysBounded t (t.Save (.ok b) m).ctx)
      ∧ (∀ b reader, keysBounded t b →
          (∀ n, reader.leadingNumber = some n → ∀ kv ∈ b.commitmentStore, kv.1 ≤ n) →
          reader.leadingNumber.getD (committedSeq t b).1 + reader.elems.length < uint64Mod →
          ctxKeysBounded t (t.ImportJSON (.ok b) reader).2.1) := by
  refine ⟨?_, ?_, ?_, ?_⟩
  · refine keysBounded_of t _ 0 ?_ (by simp)
    rw [committedSeq_eq]
    exact hlaw.decode_nil
  · intro b m hinv
    show keysBounded t (t.save b m saveModeUpdate).backend
    by_cases hval : m.autoIncField = 0
    · rw [save_update_eq_of_zero_key t b m hval]
      exact hinv
    · exact (save_keysBounded t hlaw hdo b m saveModeUpdate hinv (fun h => absurd h hval)).1
  · intro b m hinv hno
    exact ⟨(save_keysBounded t hlaw hdo b m saveModeInsert hinv hno).1,
      (save_keysBounded t hlaw hdo b m saveModeInsert hinv hno).1,
      (save_keysBounded t hlaw hdo b m saveModeDefault hinv hno).1⟩
  · intro b reader hinv hlead hno
    exact decodeAutoIncJson_import_keysBounded t hlaw hdo b reader hinv hlead hno

theorem keysBounded_preserved_witness :
    ctxKeysBounded (modelTable fixed64SeqCodec)
      ((modelTable fixed64SeqCodec).ImportJSON
        (.ok { commitmentStore := [(2, [97])],
               indexStore := [([3, 1], [2, 0, 0, 0, 0, 0, 0, 0])] })
        { start := none,
          elems := [RawMessage.number 5, RawMessage.object { autoIncField := 3, body := [120] },
            RawMessage.object { autoIncField := 0, body := [121] }],
          finish := none }).2.1 :=
  (keysBounded_preserved (modelTable fixed64SeqCodec) fixed64SeqCodec_lawful rfl).2.2.2
    { commitmentStore := [(2, [97])], indexStore := [([3, 1], [2, 0, 0, 0, 0, 0, 0, 0])] }
    { start := none,
      elems := [RawMessage.number 5, RawMessage.object { autoIncField := 3, body := [120] },
        RawMessage.object { autoIncField := 0, body := [121] }],
      finish := none }
    (by decide) (by decide) (by decide)

/-- C9, as stated, fails, in two ways.  `ImportJSON` of the input `[2]` into a table that
holds a record with key 7 under counter 7 succeeds and sets the counter to 2, below the
stored key.  And `Insert` of a zero-key message into a table that holds a record with
key `2 ^ 64 - 1` under counter `2 ^ 64 - 1` succeeds and wraps the counter to 0. -/
theorem keysBounded_broken_counterexample :
    (keysBounded (modelTable fixed64SeqCodec)
        { commitmentStore := [(7, [97])], indexStore := [([3, 1], [7, 0, 0, 0, 0, 0, 0, 0])] }
      ∧ ((modelTable fixed64SeqCodec).ImportJSON
          (.ok { commitmentStore := [(7, [97])],
                 indexStore := [([3, 1], [7, 0, 0, 0, 0, 0, 0, 0])] })
          { start := none, elems := [RawMessage.number 2], finish := none }).1
          = Outcome.returned none
      ∧ ¬ ctxKeysBounded (modelTable fixed64SeqCodec)
          ((modelTable fixed64SeqCodec).ImportJSON
            (.ok { commitmentStore := [(7, [97])],
                   indexStore := [([3, 1], [7, 0, 0, 0, 0, 0, 0, 0])] })
            { start := none, elems := [RawMessage.number 2], finish := none }).2.1)
      ∧ (keysBounded (modelTable fixed64SeqCodec)
          { commitmentStore := [(18446744073709551615, [97])],
            indexStore := [([3, 1], [255, 255, 255, 255, 255, 255, 255, 255])] }
        ∧ ((modelTable fixed64SeqCodec).Insert
            (.ok { commitmentStore := [(18446744073709551615, [97])],
                   indexStore := [([3, 1], [255, 255, 255, 255, 255, 255, 255, 255])] })
            { autoIncField := 0, body := [98] }).err = none
        ∧ ¬ ctxKeysBounded (modelTable fixed64SeqCodec)
            ((modelTable fixed64SeqCodec).Insert
              (.ok { commitmentStore := [(18446744073709551615, [97])],
                     indexStore := [([3, 1], [255, 255, 255, 255, 255, 255, 255, 255])] })
              { autoIncField := 0, body := [98] }).ctx) := by
  decide

/-! ## Failing saves and the JSON protocol -/

/-- C11: a call of `save` that returns an error leaves the backend as it was: commitment
store and index store, and with them the committed sequence counter, are identical
before and after the call, also when the increment of the sequence was already staged
in the writer at the time the base `doSave` failed.  The base `doSave` is taken to
commit nothing when it fails, so that what is staged is dropped with the writer. -/
theorem save_error_leaves_backend (t : autoIncrementTable)
    (hfail : NoCommitOnFailure t.tableImpl.doSave)
    (backend : Backend) (message : Message) (mode : saveMode)
    (herr : (t.save backend message mode).err ≠ none) :
    (t.save backend message mode).backend = backend
      ∧ (t.save backend message mode).backend.commitmentStore = backend.commitmentStore
      ∧ (t.save backend message mode).backend.indexStore = backend.indexStore
      ∧ committedSeq t (t.save backend message mode).backend = committedSeq t backend := by
  have h := save_backend_of_error t hfail backend message mode herr
  exact ⟨h, by rw [h], by rw [h], by rw [h]⟩

theorem save_error_leaves_backend_witness :
    (modelTable fixed64SeqCodec).save { commitmentStore := [(1, [97])], indexStore := [] }
        { autoIncField := 0, body := [98] } saveModeInsert =
      { newId := 1, err := some Error.AlreadyExists,
        message := { autoIncField := 1, body := [98] },
        backend := { commitmentStore := [(1, [97])], indexStore := [] },
        trace := [Event.indexGet [3, 1], Event.indexSet [3, 1] [1, 0, 0, 0, 0, 0, 0, 0],
          Event.doSave saveModeInsert { autoIncField := 1, body := [98] },
          Event.commitmentGet 1, Event.Close] }
      ∧ ((modelTable fixed64SeqCodec).save { commitmentStore := [(1, [97])], indexStore := [] }
        { autoIncField := 0, body := [98] } saveModeInsert).backend =
        { commitmentStore := [(1, [97])], indexStore := [] } :=
  ⟨by decide,
    (save_error_leaves_backend (modelTable fixed64SeqCodec) doSaveModel_noCommitOnFailure
      { commitmentStore := [(1, [97])], indexStore := [] }
      { autoIncField := 0, body := [98] } saveModeInsert (by decide)).1⟩

/-- C12: in `ValidateJSON`, a message element with surrogate key `id` met under the
remembered maximum `M` fails exactly on the bound: if `id > M` the element returns the
error with the text "invalid ID id, expected a value <= M, the highest sequence number",
whatever the validators of the table are (none is consulted); if `id <= M`, also for
`id = M`, the bound lets the element pass and its result is the validator's. -/
theorem validateJSON_id_bound (t : autoIncrementTable) (message : Message) (st : ImportState) :
    (message.autoIncField > st.seq →
        autoIncrementTable.decodeAutoIncJson.onMessage (autoIncrementTable.ValidateJSON.onMsg t)
          message st =
        (some (Error.Errorf ("invalid ID " ++ toString message.autoIncField
          ++ ", expected a value <= " ++ toString st.seq ++ ", the highest sequence number")),
          st))
      ∧ (message.autoIncField ≤ st.seq →
        autoIncrementTable.decodeAutoIncJson.onMessage (autoIncrementTable.ValidateJSON.onMsg t)
          message st = (t.jsonValidator message, st)) := by
  rw [onMessage_validate]
  constructor
  · intro h
    rw [if_pos h]
    rfl
  · intro h
    rw [if_neg (Nat.not_lt.mpr h)]

theorem validateJSON_id_bound_witness :
    autoIncrementTable.decodeAutoIncJson.onMessage
        (autoIncrementTable.ValidateJSON.onMsg (modelTable fixed64SeqCodec))
        { autoIncField := 7, body := [121] }
        { seq := 5, backend := { commitmentStore := [], indexStore := [] }, trace := [] } =
      (some (Error.Errorf "invalid ID 7, expected a value <= 5, the highest sequence number"),
        { seq := 5, backend := { commitmentStore := [], indexStore := [] }, trace := [] })
      ∧ autoIncrementTable.decodeAutoIncJson.onMessage
        (autoIncrementTable.ValidateJSON.onMsg (modelTable fixed64SeqCodec))
        { autoIncField := 5, body := [121] }
        { seq := 5, backend := { commitmentStore := [], indexStore := [] }, trace := [] } =
      (none, { seq := 5, backend := { commitmentStore := [], indexStore := [] }, trace := [] }) :=
  ⟨((validateJSON_id_bound (modelTable fixed64SeqCodec) { autoIncField := 7, body := [121] }
      { seq := 5, backend := { commitmentStore := [], indexStore := [] }, trace := [] }).1
      (by decide)).trans (by decide),
    ((validateJSON_id_bound (modelTable fixed64SeqCodec) { autoIncField := 5, body := [121] }
      { seq := 5, backend := { commitmentStore := [], indexStore := [] }, trace := [] }).2
      (by decide)).trans (by decide)⟩

/-- C13: in `ValidateJSON`, for a message element whose surrogate key is at most the
remembered maximum, the result of the element is the result of the custom validator of
the table when one is configured, whatever the default validator is, and the result of
`DefaultJSONValidator` when none is configured. -/
theorem validateJSON_one_validator (t : autoIncrementTable) (message : Message)
    (st : ImportState) (hle : message.autoIncField ≤ st.seq) :
    (∀ validator, t.tableImpl.customJSONValidator = some validator →
        autoIncrementTable.decodeAutoIncJson.onMessage (autoIncrementTable.ValidateJSON.onMsg t)
          message st = (validator message, st))
      ∧ (t.tableImpl.customJSONValidator = none →
        autoIncrementTable.decodeAutoIncJson.onMessage (autoIncrementTable.ValidateJSON.onMsg t)
          message st = (t.tableImpl.DefaultJSONValidator message, st)) := by
  rw [onMessage_validate, if_neg (Nat.not_lt.mpr hle)]
  constructor
  · intro validator h
    simp [autoIncrementTable.jsonValidator, h]
  · intro h
    simp [autoIncrementTable.jsonValidator, h]

theorem validateJSON_one_validator_witness :
    autoIncrementTable.decodeAutoIncJson.onMessage
        (autoIncrementTable.ValidateJSON.onMsg
          { tableImpl := modelTableImpl
              (some (fun m => if m.body = [] then some (Error.Collaborator 7) else none))
              (fun _ => some (Error.Collaborator 8)),
            seqCodec := fixed64SeqCodec })
        { autoIncField := 3, body := [] }
        { seq := 5, backend := { commitmentStore := [], indexStore := [] }, trace := [] } =
      (some (Error.Collaborator 7),
        { seq := 5, backend := { commitmentStore := [], indexStore := [] }, trace := [] }) :=
  (validateJSON_one_validator
    { tableImpl := modelTableImpl
        (some (fun m => if m.body = [] then some (Error.Collaborator 7) else none))
        (fun _ => some (Error.Collaborator 8)),
      seqCodec := fixed64SeqCodec }
    { autoIncField := 3, body := [] }
    { seq := 5, backend := { commitmentStore := [], indexStore := [] }, trace := [] }
    (by decide)).1 _ rfl

/-- C15: on every input, read with every table, `ValidateJSON` leaves the stores as they
are: the commitment store, the index store and so the committed sequence counter are the
same after the call, and no call on any writer is made (the trace of the run is empty);
the decode loop runs with the nil backend. -/
theorem validateJSON_no_write (t : autoIncrementTable) (reader : Reader) (world : Backend) :
    (t.ValidateJSON reader world).2.backend = world
      ∧ (t.ValidateJSON reader world).2.trace = []
      ∧ committedSeq t (t.ValidateJSON reader world).2.backend = committedSeq t world
      ∧ t.ValidateJSON reader world =
        t.decodeAutoIncJson false reader (autoIncrementTable.ValidateJSON.onMsg t) world := by
  have h : (t.ValidateJSON reader world).2.backend = world
      ∧ (t.ValidateJSON reader world).2.trace = [] := by
    unfold autoIncrementTable.ValidateJSON autoIncrementTable.decodeAutoIncJson
    rcases reader.start with _ | err
    · simp only [doDecodeJson_state]
      refine doDecodeLoop_preserves _ _
        (fun st : ImportState => st.backend = world ∧ st.trace = []) ?_ ?_
        reader.elems true _ ⟨rfl, rfl⟩
      · intro raw s hs
        simp only [autoIncrementTable.decodeAutoIncJson.onFirst, Bool.false_eq_true, if_false]
        split <;> exact hs
      · intro msg s hs
        rw [onMessage_validate]
        exact hs
    · exact ⟨rfl, rfl⟩
  exact ⟨h.1, h.2, by rw [h.1], rfl⟩

/-- C14: on an input whose first element is not a number, the maximal id handed to every
message element is 0, in `ValidateJSON` as in `ImportJSON` (the run is the run in which
every message element gets the bound 0).  Under the bound 0 a message element with a
non-zero key fails with the invalid-ID error in both methods, and an element with key 0
passes the bound (it gets the validator's result, resp. is saved in insert mode).  So
both methods fail on an input that holds a message element with non-zero key; and when
the elements before the first such element went through, the error is the invalid-ID
error of that element, and the state is the one those elements left. -/
theorem no_leading_number_bound_zero (t : autoIncrementTable) (reader : Reader)
    (world : Backend) (hnone : reader.leadingNumber = none) :
    (∀ backend onMsg, t.decodeAutoIncJson backend reader onMsg world =
        t.decodeAutoIncJson backend reader (fun m _ w => onMsg m 0 w) world)
      ∧ (∀ m w, m.autoIncField ≠ 0 →
          autoIncrementTable.ValidateJSON.onMsg t m 0 w =
            (some (invalidIDError m.autoIncField 0), w, [])
          ∧ autoIncrementTable.ImportJSON.onMsg t m 0 w =
            (some (invalidIDError m.autoIncField 0), w, []))
      ∧ (∀ m w, m.autoIncField = 0 →
          autoIncrementTable.ValidateJSON.onMsg t m 0 w = (t.jsonValidator m, w, [])
          ∧ autoIncrementTable.ImportJSON.onMsg t m 0 w =
            ((t.save w m saveModeInsert).err, (t.save w m saveModeInsert).backend,
              (t.save w m saveModeInsert).trace))
      ∧ (∀ m, RawMessage.object m ∈ reader.elems → m.autoIncField ≠ 0 →
          (∃ e, (t.ValidateJSON reader world).1 = Outcome.returned (some e))
          ∧ (∃ e, (t.ImportJSON (.ok world) reader).1 = Outcome.returned (some e)))
      ∧ (∀ pre m post, reader.start = none →
          reader.elems = pre ++ RawMessage.object m :: post → m.autoIncField ≠ 0 →
          (∀ st, t.ValidateJSON { start := none, elems := pre, finish := none } world =
              (Outcome.returned none, st) →
            t.ValidateJSON reader world =
              (Outcome.returned (some (invalidIDError m.autoIncField 0)), st))
          ∧ (∀ st, t.decodeAutoIncJson true { start := none, elems := pre, finish := none }
              (autoIncrementTable.ImportJSON.onMsg t) world = (Outcome.returned none, st) →
            t.ImportJSON (.ok world) reader =
              (Outcome.returned (some (invalidIDError m.autoIncField 0)),
                .ok st.backend, st.trace))) := by
  have hV : ∀ m w, m.autoIncField ≠ 0 →
      autoIncrementTable.ValidateJSON.onMsg t m 0 w =
        (some (invalidIDError m.autoIncField 0), w, []) := by
    intro m w hm
    simp [autoIncrementTable.ValidateJSON.onMsg, Nat.pos_of_ne_zero hm]
  have hI : ∀ m w, m.autoIncField ≠ 0 →
      autoIncrementTable.ImportJSON.onMsg t m 0 w =
        (some (invalidIDError m.autoIncField 0), w, []) := by
    intro m w hm
    simp [autoIncrementTable.ImportJSON.onMsg, hm, Nat.pos_of_ne_zero hm]
  refine ⟨?_, fun m w hm => ⟨hV m w hm, hI m w hm⟩, ?_, ?_, ?_⟩
  · intro backend onMsg
    have h := decodeAutoIncJson_maxID t backend reader onMsg world
    rw [hnone] at h
    exact h
  · intro m w hm
    constructor
    · simp only [autoIncrementTable.ValidateJSON.onMsg, hm, autoIncrementTable.jsonValidator]
      cases t.tableImpl.customJSONValidator <;> simp
    · simp [autoIncrementTable.ImportJSON.onMsg, hm]
  · intro m hmem hm
    constructor
    · exact decodeAutoIncJson_error_of_mem t false reader _ world m hnone hmem
        (fun w => by rw [hV m w hm]; simp)
    · obtain ⟨e, he⟩ := decodeAutoIncJson_error_of_mem t true reader
        (autoIncrementTable.ImportJSON.onMsg t) world m hnone hmem
        (fun w => by rw [hI m w hm]; simp)
      refine ⟨e, ?_⟩
      simp only [autoIncrementTable.ImportJSON]
      exact he
  · intro pre m post hstart helems hm
    have hreader : reader =
        { start := none, elems := pre ++ RawMessage.object m :: post,
          finish := reader.finish } := by
      cases reader
      simp only [Reader.mk.injEq] at hstart helems ⊢
      exact ⟨hstart, helems, trivial⟩
    have hseq : ∀ backend onMsg (st : ImportState),
        t.decodeAutoIncJson backend { start := none, elems := pre, finish := none } onMsg world
          = (Outcome.returned none, st) → st.seq = 0 := by
      intro backend onMsg st hst
      have h := decodeAutoIncJson_seq t backend
        { start := none, elems := pre, finish := none } onMsg world rfl
      rw [hst, leadingNumber_prefix_object none reader.start none reader.finish pre post m,
        ← helems] at h
      have hr : ({ start := reader.start, elems := reader.elems, finish := reader.finish }
          : Reader) = reader := by cases reader; rfl
      rw [hr, hnone] at h
      exact h
    constructor
    · intro st hst
      have h0 := hseq false _ st hst
      rw [hreader]
      exact decodeAutoIncJson_stops_at t false _ world pre m post reader.finish st st _ hst
        (by
          rw [onMessage_validate, h0, if_pos (Nat.pos_of_ne_zero hm)])
    · intro st hst
      have h0 := hseq true _ st hst
      have hfull := decodeAutoIncJson_stops_at t true (autoIncrementTable.ImportJSON.onMsg t)
        world pre m post reader.finish st st (invalidIDError m.autoIncField 0) hst
        (by
          obtain ⟨seq, backend, trace⟩ := st
          simp only at h0
          subst h0
          simp [autoIncrementTable.decodeAutoIncJson.onMessage, hI m backend hm])
      rw [hreader]
      simp only [autoIncrementTable.ImportJSON, hfull]

theorem no_leading_number_bound_zero_witness :
    (modelTable fixed64SeqCodec).ValidateJSON
        { start := none,
          elems := [RawMessage.object { autoIncField := 0, body := [97] },
            RawMessage.object { autoIncField := 3, body := [98] },
            RawMessage.object { autoIncField := 0, body := [99] }],
          finish := none }
        { commitmentStore := [], indexStore := [] } =
      (Outcome.returned (some (invalidIDError 3 0)),
        { seq := 0, backend := { commitmentStore := [], indexStore := [] }, trace := [] })
      ∧ ((modelTable fixed64SeqCodec).ImportJSON (.ok { commitmentStore := [], indexStore := [] })
        { start := none,
          elems := [RawMessage.object { autoIncField := 0, body := [97] },
            RawMessage.object { autoIncField := 3, body := [98] },
            RawMessage.object { autoIncField := 0, body := [99] }],
          finish := none }).1 = Outcome.returned (some (invalidIDError 3 0)) :=
  ⟨((no_leading_number_bound_zero (modelTable fixed64SeqCodec)
      { start := none,
        elems := [RawMessage.object { autoIncField := 0, body := [97] },
          RawMessage.object { autoIncField := 3, body := [98] },
          RawMessage.object { autoIncField := 0, body := [99] }],
        finish := none }
      { commitmentStore := [], indexStore := [] } (by decide)).2.2.2.2
      [RawMessage.object { autoIncField := 0, body := [97] }] { autoIncField := 3, body := [98] }
      [RawMessage.object { autoIncField := 0, body := [99] }] rfl rfl (by decide)).1
      { seq := 0, backend := { commitmentStore := [], indexStore := [] }, trace := [] }
      (by decide),
    by decide⟩

/-- C17, amended: on an input of `ImportJSON` whose first element is the number `s`, from
every state of the stores, the first closure writes `s` under the sequence key through
a writer of its own, which it writes out and closes, so that the committed counter is
`s`; only then the message elements are processed, from that state.  Every message
element gets `s` as its bound.  The counter a message element finds is `s` plus the
number of zero-key elements saved before it (Go `uint64` sum), so it is `s` for the
first message element.  The base `doSave` is taken to commit the writer exactly when it
succeeds. -/
theorem importJSON_leading_number (t : autoIncrementTable) (hlaw : t.seqCodec.Lawful)
    (hdo : CommitsOnSuccess t.seqCodec.Prefix t.tableImpl.doSave)
    (b : Backend) (s : Nat) (hs : s < uint64Mod) (rest : List RawMessage)
    (fin : Option Error) :
    (∀ st, autoIncrementTable.decodeAutoIncJson.onFirst t true (RawMessage.number s) st =
        (.ok true,
          { seq := s,
            backend := { commitmentStore := st.backend.commitmentStore,
                         indexStore := kvSet t.seqCodec.Prefix (t.seqCodec.EncodeValue s)
                           st.backend.indexStore },
            trace := st.trace ++ [Event.indexSet t.seqCodec.Prefix (t.seqCodec.EncodeValue s),
              Event.Write, Event.Close] }))
      ∧ committedSeq t
          { commitmentStore := b.commitmentStore,
            indexStore := kvSet t.seqCodec.Prefix (t.seqCodec.EncodeValue s) b.indexStore }
          = (s, none)
      ∧ (∀ onMsg, doDecodeLoop (autoIncrementTable.decodeAutoIncJson.onFirst t true) onMsg true
            (RawMessage.number s :: rest) { seq := 0, backend := b, trace := [] } =
          doDecodeLoop (autoIncrementTable.decodeAutoIncJson.onFirst t true) onMsg false rest
            (afterLeadingNumber t true s { seq := 0, backend := b, trace := [] }))
      ∧ (∀ onMsg,
          t.decodeAutoIncJson true
            { start := none, elems := RawMessage.number s :: rest, finish := fin } onMsg b =
          t.decodeAutoIncJson true
            { start := none, elems := RawMessage.number s :: rest, finish := fin }
            (fun m _ w => onMsg m s w) b)
      ∧ (∀ pre post st, rest = pre ++ post →
          doDecodeLoop (autoIncrementTable.decodeAutoIncJson.onFirst t true)
            (autoIncrementTable.decodeAutoIncJson.onMessage
              (autoIncrementTable.ImportJSON.onMsg t))
            false pre (afterLeadingNumber t true s { seq := 0, backend := b, trace := [] })
            = (Outcome.returned none, st) →
          st.seq = s
            ∧ committedSeq t st.backend = ((s + zeroKeyCount pre) % uint64Mod, none)
            ∧ doDecodeLoop (autoIncrementTable.decodeAutoIncJson.onFirst t true)
                (autoIncrementTable.decodeAutoIncJson.onMessage
                  (autoIncrementTable.ImportJSON.onMsg t))
                false rest
                (afterLeadingNumber t true s { seq := 0, backend := b, trace := [] })
              = doDecodeLoop (autoIncrementTable.decodeAutoIncJson.onFirst t true)
                (autoIncrementTable.decodeAutoIncJson.onMessage
                  (autoIncrementTable.ImportJSON.onMsg t))
                false post st) := by
  refine ⟨?_, ?_, ?_, ?_, ?_⟩
  · intro st
    rw [onFirst_number t true s st hs]
    simp [afterLeadingNumber]
  · exact committedSeq_afterLeadingNumber t hlaw s hs { seq := 0, backend := b, trace := [] }
  · intro onMsg
    exact doDecodeLoop_first_taken _ _ _ _ _ _ (onFirst_number t true s _ hs)
  · intro onMsg
    have h := decodeAutoIncJson_maxID t true
      { start := none, elems := RawMessage.number s :: rest, finish := fin } onMsg b
    simpa [Reader.leadingNumber, hs] using h
  · intro pre post st hrest hrun
    refine ⟨?_, ?_, ?_⟩
    · have h := doDecodeLoop_seq (autoIncrementTable.decodeAutoIncJson.onFirst t true)
        (autoIncrementTable.ImportJSON.onMsg t) pre
        (afterLeadingNumber t true s { seq := 0, backend := b, trace := [] })
      rw [hrun, afterLeadingNumber_seq] at h
      exact h
    · exact importLoop_counter t hlaw hdo _ pre _ st s
        (committedSeq_afterLeadingNumber t hlaw s hs _) hrun
    · rw [hrest]
      exact doDecodeLoop_append _ _ post pre _ st hrun

theorem importJSON_leading_number_witness :
    committedSeq (modelTable fixed64SeqCodec)
        { commitmentStore := [(9, [97])],
          indexStore := kvSet [3, 1] (fixed64SeqCodec.EncodeValue 5)
            [([3, 1], [9, 0, 0, 0, 0, 0, 0, 0])] } = (5, none) :=
  (importJSON_leading_number (modelTable fixed64SeqCodec) fixed64SeqCodec_lawful
    (doSaveModel_commits _)
    { commitmentStore := [(9, [97])], indexStore := [([3, 1], [9, 0, 0, 0, 0, 0, 0, 0])] }
    5 (by decide) [RawMessage.object { autoIncField := 3, body := [120] }] none).2.1

/-- C17, as stated, fails: on the input `[5, {id 0}, {id 0}]` the second message element
does not find counter 5 in the backend.  The elements before it leave the committed
counter at 6, and it is given the id 7. -/
theorem importJSON_later_element_counter_counterexample :
    committedSeq (modelTable fixed64SeqCodec)
        ((modelTable fixed64SeqCodec).decodeAutoIncJson true
          { start := none,
            elems := [RawMessage.number 5, RawMessage.object { autoIncField := 0, body := [97] }],
            finish := none }
          (autoIncrementTable.ImportJSON.onMsg (modelTable fixed64SeqCodec))
          { commitmentStore := [], indexStore := [] }).2.backend = (6, none)
      ∧ (modelTable fixed64SeqCodec).ImportJSON (.ok { commitmentStore := [], indexStore := [] })
          { start := none,
            elems := [RawMessage.number 5, RawMessage.object { autoIncField := 0, body := [97] },
              RawMessage.object { autoIncField := 0, body := [98] }],
            finish := none } =
        (Outcome.returned none,
          .ok { commitmentStore := [(6, [97]), (7, [98])],
                indexStore := [([3, 1], [7, 0, 0, 0, 0, 0, 0, 0])] },
          [Event.indexSet [3, 1] [5, 0, 0, 0, 0, 0, 0, 0], Event.Write, Event.Close,
            Event.indexGet [3, 1], Event.indexSet [3, 1] [6, 0, 0, 0, 0, 0, 0, 0],
            Event.doSave saveModeInsert { autoIncField := 6, body := [97] },
            Event.commitmentGet 6, Event.commitmentSet 6 [97], Event.Write, Event.Close,
            Event.indexGet [3, 1], Event.indexSet [3, 1] [7, 0, 0, 0, 0, 0, 0, 0],
            Event.doSave saveModeInsert { autoIncField := 7, body := [98] },
            Event.commitmentGet 7, Event.commitmentSet 7 [98], Event.Write, Event.Close]) := by
  decide

/-- C18: a message element of `ImportJSON` whose surrogate key is 0 is saved by the
auto-increment `save` in insert mode: with `c` the committed counter at that point, the
message is given the id `c + 1` (Go `uint64` sum) and handed to the base `doSave` in
insert mode, and when the element succeeds the committed counter is `c + 1`.  After a
leading number `s` and message elements none of which had key 0, `c` is `s`.  The base
`doSave` is taken to commit the writer exactly when it succeeds. -/
theorem importJSON_zero_key_mints (t : autoIncrementTable) (hlaw : t.seqCodec.Lawful)
    (hdo : CommitsOnSuccess t.seqCodec.Prefix t.tableImpl.doSave)
    (b : Backend) (m : Message) (maxID c : Nat)
    (hval : m.autoIncField = 0)
    (hcur : committedSeq t b = (c, none)) :
    autoIncrementTable.ImportJSON.onMsg t m maxID b =
        ((t.save b m saveModeInsert).err, (t.save b m saveModeInsert).backend,
          (t.save b m saveModeInsert).trace)
      ∧ t.save b m saveModeInsert =
        afterDoSave ((c + 1) % uint64Mod)
          (t.tableImpl.doSave
            { backend := b, commitmentWriter := [],
              indexWriter := [(t.seqCodec.Prefix, t.seqCodec.EncodeValue ((c + 1) % uint64Mod))],
              trace := [Event.indexGet t.seqCodec.Prefix,
                Event.indexSet t.seqCodec.Prefix (t.seqCodec.EncodeValue ((c + 1) % uint64Mod)),
                Event.doSave saveModeInsert { m with autoIncField := (c + 1) % uint64Mod }] }
            { m with autoIncField := (c + 1) % uint64Mod } saveModeInsert)
      ∧ ((autoIncrementTable.ImportJSON.onMsg t m maxID b).1 = none →
          committedSeq t (autoIncrementTable.ImportJSON.onMsg t m maxID b).2.1 =
            ((c + 1) % uint64Mod, none))
      ∧ (c + 1 < uint64Mod → (c + 1) % uint64Mod = c + 1)
      ∧ (∀ s pre st0 st, s < uint64Mod →
          (∀ m0, RawMessage.object m0 ∈ pre → m0.autoIncField ≠ 0) →
          doDecodeLoop (autoIncrementTable.decodeAutoIncJson.onFirst t true)
            (autoIncrementTable.decodeAutoIncJson.onMessage
              (autoIncrementTable.ImportJSON.onMsg t))
            false pre (afterLeadingNumber t true s st0) = (Outcome.returned none, st) →
          committedSeq t st.backend = (s, none)) := by
  refine ⟨importOnMsg_zero_key t m maxID b hval,
    save_eq_of_zero_key t b m saveModeInsert c hval (by decide) hcur, ?_,
    fun h => Nat.mod_eq_of_lt h, ?_⟩
  · intro hok
    have h := importOnMsg_counter t hlaw hdo m maxID b c hcur hok
    rw [if_pos hval] at h
    exact h
  · intro s pre st0 st hs hpre hrun
    have h := importLoop_counter t hlaw hdo _ pre _ st s
      (committedSeq_afterLeadingNumber t hlaw s hs st0) hrun
    rw [zeroKeyCount_eq_zero pre hpre, Nat.add_zero, Nat.mod_eq_of_lt hs] at h
    exact h

theorem importJSON_zero_key_mints_witness :
    autoIncrementTable.ImportJSON.onMsg (modelTable fixed64SeqCodec)
        { autoIncField := 0, body := [97] } 5
        { commitmentStore := [(3, [120])], indexStore := [([3, 1], [5, 0, 0, 0, 0, 0, 0, 0])] } =
      (none,
        { commitmentStore := [(3, [120]), (6, [97])],
          indexStore := [([3, 1], [6, 0, 0, 0, 0, 0, 0, 0])] },
        [Event.indexGet [3, 1], Event.indexSet [3, 1] [6, 0, 0, 0, 0, 0, 0, 0],
          Event.doSave saveModeInsert { autoIncField := 6, body := [97] },
          Event.commitmentGet 6, Event.commitmentSet 6 [97], Event.Write, Event.Close]) :=
  (importJSON_zero_key_mints (modelTable fixed64SeqCodec) fixed64SeqCodec_lawful
    (doSaveModel_commits _)
    { commitmentStore := [(3, [120])], indexStore := [([3, 1], [5, 0, 0, 0, 0, 0, 0, 0])] }
    { autoIncField := 0, body := [97] } 5 5 rfl (by decide)).1.trans (by decide)

/-- C19: a message element of `ImportJSON` with non-zero surrogate key `id`, under the
declared maximum `M`: if `id > M` it fails with the invalid-ID error, the stores are left
as they are and no writer is opened; if `id <= M` it is saved by the base engine's
`save` in insert mode, the message as it is, without any access to the sequence entry,
and the committed counter is the same afterwards.  On the modelled base engine, importing
`[M, {id i}]` with `0 < i <= M` into the empty table succeeds, stores the record under
`i` and leaves the counter at `M`; with `i > M` it fails with the invalid-ID error after
the counter was set to `M`. -/
theorem importJSON_nonzero_key (t : autoIncrementTable) (hlaw : t.seqCodec.Lawful)
    (hdo : t.tableImpl.doSave = doSaveModel) :
    (∀ m M b, m.autoIncField ≠ 0 → m.autoIncField > M →
        autoIncrementTable.ImportJSON.onMsg t m M b =
          (some (invalidIDError m.autoIncField M), b, []))
      ∧ (∀ m M b, m.autoIncField ≠ 0 → m.autoIncField ≤ M →
          autoIncrementTable.ImportJSON.onMsg t m M b =
            ((t.tableImpl.save b m saveModeInsert).err,
              (t.tableImpl.save b m saveModeInsert).backend,
              (t.tableImpl.save b m saveModeInsert).trace)
          ∧ t.tableImpl.save b m saveModeInsert =
            afterDoSave 0
              (t.tableImpl.doSave
                { backend := b, commitmentWriter := [], indexWriter := [],
                  trace := [Event.doSave saveModeInsert m] } m saveModeInsert)
          ∧ (autoIncrementTable.ImportJSON.onMsg t m M b).2.1.indexStore = b.indexStore
          ∧ committedSeq t (autoIncrementTable.ImportJSON.onMsg t m M b).2.1 = committedSeq t b)
      ∧ (∀ m M, M < uint64Mod → 0 < m.autoIncField → m.autoIncField ≤ M →
          t.ImportJSON (.ok { commitmentStore := [], indexStore := [] })
              { start := none, elems := [RawMessage.number M, RawMessage.object m],
                finish := none } =
            (Outcome.returned none,
              .ok { commitmentStore := [(m.autoIncField, m.body)],
                    indexStore := [(t.seqCodec.Prefix, t.seqCodec.EncodeValue M)] },
              [Event.indexSet t.seqCodec.Prefix (t.seqCodec.EncodeValue M), Event.Write,
                Event.Close, Event.doSave saveModeInsert m,
                Event.commitmentGet m.autoIncField,
                Event.commitmentSet m.autoIncField m.body, Event.Write, Event.Close])
          ∧ committedSeq t
              { commitmentStore := [(m.autoIncField, m.body)],
                indexStore := [(t.seqCodec.Prefix, t.seqCodec.EncodeValue M)] } = (M, none))
      ∧ (∀ m M, M < uint64Mod → m.autoIncField > M →
          t.ImportJSON (.ok { commitmentStore := [], indexStore := [] })
              { start := none, elems := [RawMessage.number M, RawMessage.object m],
                finish := none } =
            (Outcome.returned (some (invalidIDError m.autoIncField M)),
              .ok { commitmentStore := [],
                    indexStore := [(t.seqCodec.Prefix, t.seqCodec.EncodeValue M)] },
              [Event.indexSet t.seqCodec.Prefix (t.seqCodec.EncodeValue M), Event.Write,
                Event.Close])) := by
  have hindex : ∀ m b, (t.tableImpl.save b m saveModeInsert).backend.indexStore
      = b.indexStore := by
    intro m b
    rw [baseSave_eq, hdo]
    simp only [afterDoSave, batchIndexCommitmentWriter.Close]
    by_cases herr : (doSaveModel
        { backend := b, commitmentWriter := [], indexWriter := [],
          trace := [Event.doSave saveModeInsert m] } m saveModeInsert).err = none
    · rw [doSaveModel_backend_of_ok _ _ _ herr]
      rfl
    · rw [doSaveModel_backend_of_error _ _ _ herr]
  have hloop : ∀ (m : Message) (M : Nat), M < uint64Mod →
      t.decodeAutoIncJson true
          { start := none, elems := [RawMessage.number M, RawMessage.object m], finish := none }
          (autoIncrementTable.ImportJSON.onMsg t) { commitmentStore := [], indexStore := [] } =
        doDecodeLoop (autoIncrementTable.decodeAutoIncJson.onFirst t true)
          (autoIncrementTable.decodeAutoIncJson.onMessage (autoIncrementTable.ImportJSON.onMsg t))
          false [RawMessage.object m]
          (afterLeadingNumber t true M
            { seq := 0, backend := { commitmentStore := [], indexStore := [] }, trace := [] }) := by
    intro m M hM
    unfold autoIncrementTable.decodeAutoIncJson
    simp only []
    rw [doDecodeJson_finish_none _ _ _ _ rfl]
    exact doDecodeLoop_first_taken _ _ _ _ _ _ (onFirst_number t true M _ hM)
  refine ⟨fun m M b hval hgt => importOnMsg_above_max t m M b hval hgt, ?_, ?_, ?_⟩
  · intro m M b hval hle
    have hon := importOnMsg_within_max t m M b hval hle
    refine ⟨hon, rfl, ?_, ?_⟩
    · rw [hon]
      exact hindex m b
    · rw [hon]
      exact committedSeq_of_kvGet_eq t b _ (by rw [hindex m b])
  · intro m M hM hpos hle
    have hval : m.autoIncField ≠ 0 := Nat.pos_iff_ne_zero.mp hpos
    constructor
    · simp only [autoIncrementTable.ImportJSON, hloop m M hM, doDecodeLoop_object_step]
      simp only [autoIncrementTable.decodeAutoIncJson.onMessage, afterLeadingNumber, if_true,
        importOnMsg_within_max t m M _ hval hle, baseSave_eq, hdo]
      rw [doSaveModel_insert_of_absent _ _ (by simp [flushWrites, kvGet])]
      simp [afterDoSave, batchIndexCommitmentWriter.Close, flushWrites, kvSet, doDecodeLoop]
    · rw [committedSeq_eq]
      simp only [kvGet, if_true, Option.getD_some]
      exact hlaw.decode_encode _ hM
  · intro m M hM hgt
    have hval : m.autoIncField ≠ 0 := by omega
    simp only [autoIncrementTable.ImportJSON, hloop m M hM, doDecodeLoop_object_step]
    simp [autoIncrementTable.decodeAutoIncJson.onMessage, afterLeadingNumber,
      importOnMsg_above_max t m M _ hval hgt, kvSet]

theorem importJSON_nonzero_key_witness :
    ((modelTable fixed64SeqCodec).ImportJSON (.ok { commitmentStore := [], indexStore := [] })
        { start := none,
          elems := [RawMessage.number 5, RawMessage.object { autoIncField := 3, body := [120] }],
          finish := none } =
      (Outcome.returned none,
        .ok { commitmentStore := [(3, [120])],
              indexStore := [([3, 1], [5, 0, 0, 0, 0, 0, 0, 0])] },
        [Event.indexSet [3, 1] [5, 0, 0, 0, 0, 0, 0, 0], Event.Write, Event.Close,
          Event.doSave saveModeInsert { autoIncField := 3, body := [120] },
          Event.commitmentGet 3, Event.commitmentSet 3 [120], Event.Write, Event.Close]))
      ∧ ((modelTable fixed64SeqCodec).ImportJSON (.ok { commitmentStore := [], indexStore := [] })
        { start := none,
          elems := [RawMessage.number 5, RawMessage.object { autoIncField := 7, body := [121] }],
          finish := none } =
      (Outcome.returned
          (some (Error.Errorf "invalid ID 7, expected a value <= 5, the highest sequence number")),
        .ok { commitmentStore := [], indexStore := [([3, 1], [5, 0, 0, 0, 0, 0, 0, 0])] },
        [Event.indexSet [3, 1] [5, 0, 0, 0, 0, 0, 0, 0], Event.Write, Event.Close])) :=
  ⟨((importJSON_nonzero_key (modelTable fixed64SeqCodec) fixed64SeqCodec_lawful rfl).2.2.1
      { autoIncField := 3, body := [120] } 5 (by decide) (by decide) (by decide)).1.trans
      (by decide),
    ((importJSON_nonzero_key (modelTable fixed64SeqCodec) fixed64SeqCodec_lawful rfl).2.2.2
      { autoIncField := 7, body := [121] } 5 (by decide) (by decide)).trans (by decide)⟩

/-- C20: `ImportJSON` is not atomic over its input.  When the message elements before a
message element went through and that element fails (its id is above the maximum, or
its insert fails), `ImportJSON` returns the error of that element and stops: the result
is the same whatever follows the element; the stores are those that the elements before
it (the leading number and the message elements) left, as an import of these elements
alone leaves them; and the failing element has written nothing.  The base `doSave` is
taken to commit nothing when it fails. -/
theorem importJSON_stops_at_failure (t : autoIncrementTable)
    (hfail : NoCommitOnFailure t.tableImpl.doSave)
    (b : Backend) (pre : List RawMessage) (m : Message) (post : List RawMessage)
    (fin : Option Error) (st : ImportState) (e : Error)
    (hpre : t.decodeAutoIncJson true { start := none, elems := pre, finish := none }
      (autoIncrementTable.ImportJSON.onMsg t) b = (Outcome.returned none, st))
    (hk : (autoIncrementTable.ImportJSON.onMsg t m st.seq st.backend).1 = some e) :
    t.ImportJSON (.ok b)
        { start := none, elems := pre ++ RawMessage.object m :: post, finish := fin } =
        (Outcome.returned (some e), .ok st.backend,
          st.trace ++ (autoIncrementTable.ImportJSON.onMsg t m st.seq st.backend).2.2)
      ∧ t.ImportJSON (.ok b) { start := none, elems := pre, finish := none } =
        (Outcome.returned none, .ok st.backend, st.trace)
      ∧ (autoIncrementTable.ImportJSON.onMsg t m st.seq st.backend).2.1 = st.backend := by
  have hback := importOnMsg_backend_of_error t hfail m st.seq st.backend (by rw [hk]; simp)
  have hstep : autoIncrementTable.decodeAutoIncJson.onMessage
      (autoIncrementTable.ImportJSON.onMsg t) m st =
      (some e, { st with trace := st.trace
        ++ (autoIncrementTable.ImportJSON.onMsg t m st.seq st.backend).2.2 }) := by
    rcases hon : autoIncrementTable.ImportJSON.onMsg t m st.seq st.backend with ⟨err, world, calls⟩
    rw [hon] at hk hback
    simp only at hk hback
    simp only [autoIncrementTable.decodeAutoIncJson.onMessage, hon, hk, hback]
  have hfull := decodeAutoIncJson_stops_at t true (autoIncrementTable.ImportJSON.onMsg t) b
    pre m post fin st _ e hpre hstep
  refine ⟨?_, ?_, hback⟩
  · simp only [autoIncrementTable.ImportJSON, hfull]
  · simp only [autoIncrementTable.ImportJSON, hpre]

theorem importJSON_stops_at_failure_witness :
    (modelTable fixed64SeqCodec).ImportJSON (.ok { commitmentStore := [], indexStore := [] })
        { start := none,
          elems := [RawMessage.number 5, RawMessage.object { autoIncField := 3, body := [120] }]
            ++ RawMessage.object { autoIncField := 7, body := [121] }
              :: [RawMessage.object { autoIncField := 4, body := [122] }],
          finish := none } =
      (Outcome.returned (some (invalidIDError 7 5)),
        .ok { commitmentStore := [(3, [120])],
              indexStore := [([3, 1], [5, 0, 0, 0, 0, 0, 0, 0])] },
        [Event.indexSet [3, 1] [5, 0, 0, 0, 0, 0, 0, 0], Event.Write, Event.Close,
          Event.doSave saveModeInsert { autoIncField := 3, body := [120] },
          Event.commitmentGet 3, Event.commitmentSet 3 [120], Event.Write, Event.Close]) :=
  (importJSON_stops_at_failure (modelTable fixed64SeqCodec) doSaveModel_noCommitOnFailure
    { commitmentStore := [], indexStore := [] }
    [RawMessage.number 5, RawMessage.object { autoIncField := 3, body := [120] }]
    { autoIncField := 7, body := [121] }
    [RawMessage.object { autoIncField := 4, body := [122] }] none
    { seq := 5,
      backend := { commitmentStore := [(3, [120])],
                   indexStore := [([3, 1], [5, 0, 0, 0, 0, 0, 0, 0])] },
      trace := [Event.indexSet [3, 1] [5, 0, 0, 0, 0, 0, 0, 0], Event.Write, Event.Close,
        Event.doSave saveModeInsert { autoIncField := 3, body := [120] },
        Event.commitmentGet 3, Event.commitmentSet 3 [120], Event.Write, Event.Close] }
    (invalidIDError 7 5) (by decide) (by decide)).1.trans (by decide)

/-- C16, amended: on the modelled base engine, for every input whose message elements are
all accepted by the validator of the table, whose non-zero surrogate keys are pairwise
distinct, and whose declared maximum (0 without leading number) plus number of elements
is below `2 ^ 64`, `ValidateJSON` and `ImportJSON` into the empty table end the same
way: one returns an error exactly when the other does, and it is the same error. -/
theorem validate_import_same_verdict (t : autoIncrementTable) (hlaw : t.seqCodec.Lawful)
    (hdo : t.tableImpl.doSave = doSaveModel) (reader : Reader) (world : Backend)
    (hvalid : ∀ m, RawMessage.object m ∈ reader.elems → t.jsonValidator m = none)
    (hdist : (explicitKeys reader.elems).Nodup)
    (hno : reader.leadingNumber.getD 0 + reader.elems.length < uint64Mod) :
    (t.ValidateJSON reader world).1 =
        (t.ImportJSON (.ok { commitmentStore := [], indexStore := [] }) reader).1
      ∧ ((∃ e, (t.ValidateJSON reader world).1 = Outcome.returned (some e)) ↔
        (∃ e, (t.ImportJSON (.ok { commitmentStore := [], indexStore := [] }) reader).1
          = Outcome.returned (some e))) := by
  have hsame : (t.ValidateJSON reader world).1 =
      (t.ImportJSON (.ok { commitmentStore := [], indexStore := [] }) reader).1 := by
    simp only [autoIncrementTable.ValidateJSON, autoIncrementTable.ImportJSON,
      autoIncrementTable.decodeAutoIncJson]
    rcases reader.start with _ | err
    · simp only [doDecodeJson_outcome, doDecodeLoop_start]
      have hstart := importFresh_start t hlaw reader hvalid hdist hno
      rcases hl : reader.leadingNumber with _ | n
      · rw [hl] at hstart
        simp only [] at hstart ⊢
        rw [validate_import_loop_agree t hlaw hdo
          (autoIncrementTable.decodeAutoIncJson.onFirst t false)
          (autoIncrementTable.decodeAutoIncJson.onFirst t true) reader.elems
          { seq := 0, backend := world, trace := [] }
          { seq := 0, backend := { commitmentStore := [], indexStore := [] }, trace := [] }
          rfl hstart]
      · rw [hl] at hstart
        simp only [] at hstart ⊢
        rw [validate_import_loop_agree t hlaw hdo
          (autoIncrementTable.decodeAutoIncJson.onFirst t false)
          (autoIncrementTable.decodeAutoIncJson.onFirst t true) reader.elems.tail
          (afterLeadingNumber t false n { seq := 0, backend := world, trace := [] })
          (afterLeadingNumber t true n
            { seq := 0, backend := { commitmentStore := [], indexStore := [] }, trace := [] })
          (by rw [afterLeadingNumber_seq, afterLeadingNumber_seq]) hstart]
    · rfl
  exact ⟨hsame, by rw [hsame]⟩

theorem validate_import_same_verdict_witness :
    ((modelTable fixed64SeqCodec).ValidateJSON
        { start := none,
          elems := [RawMessage.number 5, RawMessage.object { autoIncField := 3, body := [120] },
            RawMessage.object { autoIncField := 0, body := [121] },
            RawMessage.object { autoIncField := 7, body := [122] }],
          finish := none }
        { commitmentStore := [], indexStore := [] }).1 =
      ((modelTable fixed64SeqCodec).ImportJSON (.ok { commitmentStore := [], indexStore := [] })
        { start := none,
          elems := [RawMessage.number 5, RawMessage.object { autoIncField := 3, body := [120] },
            RawMessage.object { autoIncField := 0, body := [121] },
            RawMessage.object { autoIncField := 7, body := [122] }],
          finish := none }).1 :=
  (validate_import_same_verdict (modelTable fixed64SeqCodec) fixed64SeqCodec_lawful rfl
    { start := none,
      elems := [RawMessage.number 5, RawMessage.object { autoIncField := 3, body := [120] },
        RawMessage.object { autoIncField := 0, body := [121] },
        RawMessage.object { autoIncField := 7, body := [122] }],
      finish := none }
    { commitmentStore := [], indexStore := [] }
    (fun _ _ => rfl) (by decide) (by decide)).1

/-- C16, as stated, fails, in three ways.  With a custom validator that rejects empty
bodies, `ValidateJSON` rejects the input `[{id 0, empty body}]` and `ImportJSON` into
the empty table accepts it.  On the input `[5, {id 3}, {id 3}]` `ValidateJSON` accepts
and `ImportJSON` fails with `AlreadyExists`.  On the input
`[2 ^ 64 - 1, {id 0}, {id 0}, {id 1}]` `ValidateJSON` accepts and `ImportJSON`, whose
minted ids wrap to 0 and 1, fails with `AlreadyExists`. -/
theorem validate_import_differ_counterexample :
    ((autoIncrementTable.ValidateJSON
          { tableImpl := modelTableImpl
              (some (fun m => if m.body = [] then some (Error.Collaborator 7) else none))
              (fun _ => none),
            seqCodec := fixed64SeqCodec }
          { start := none, elems := [RawMessage.object { autoIncField := 0, body := [] }],
            finish := none }
          { commitmentStore := [], indexStore := [] }).1
        = Outcome.returned (some (Error.Collaborator 7))
      ∧ (autoIncrementTable.ImportJSON
          { tableImpl := modelTableImpl
              (some (fun m => if m.body = [] then some (Error.Collaborator 7) else none))
              (fun _ => none),
            seqCodec := fixed64SeqCodec }
          (.ok { commitmentStore := [], indexStore := [] })
          { start := none, elems := [RawMessage.object { autoIncField := 0, body := [] }],
            finish := none }).1
        = Outcome.returned none)
      ∧ (((modelTable fixed64SeqCodec).ValidateJSON
          { start := none,
            elems := [RawMessage.number 5, RawMessage.object { autoIncField := 3, body := [120] },
              RawMessage.object { autoIncField := 3, body := [121] }],
            finish := none }
          { commitmentStore := [], indexStore := [] }).1 = Outcome.returned none
        ∧ ((modelTable fixed64SeqCodec).ImportJSON
          (.ok { commitmentStore := [], indexStore := [] })
          { start := none,
            elems := [RawMessage.number 5, RawMessage.object { autoIncField := 3, body := [120] },
              RawMessage.object { autoIncField := 3, body := [121] }],
            finish := none }).1 = Outcome.returned (some Error.AlreadyExists))
      ∧ (((modelTable fixed64SeqCodec).ValidateJSON
          { start := none,
            elems := [RawMessage.number 18446744073709551615,
              RawMessage.object { autoIncField := 0, body := [120] },
              RawMessage.object { autoIncField := 0, body := [121] },
              RawMessage.object { autoIncField := 1, body := [122] }],
            finish := none }
          { commitmentStore := [], indexStore := [] }).1 = Outcome.returned none
        ∧ ((modelTable fixed64SeqCodec).ImportJSON
          (.ok { commitmentStore := [], indexStore := [] })
          { start := none,
            elems := [RawMessage.number 18446744073709551615,
              RawMessage.object { autoIncField := 0, body := [120] },
              RawMessage.object { autoIncField := 0, body := [121] },
              RawMessage.object { autoIncField := 1, body := [122] }],
            finish := none }).1 = Outcome.returned (some Error.AlreadyExists)) := by
  decide

/-! ## The other methods of the table -/

/-- C24: `EncodeEntry` of the auto-increment table returns, for a sequence entry, exactly
what the sequence codec's `EncodeEntry` returns on it, and for every other entry exactly
what the base table's `EncodeEntry` returns on it: key, value and error. -/
theorem encodeEntry_decorator
    (seqCodecEncodeEntry tableImplEncodeEntry : Entry → Bytes × Bytes × Option Error)
    (entry : Entry) :
    (∀ value, entry = Entry.SeqEntry value →
        autoIncrementTable.EncodeEntry seqCodecEncodeEntry tableImplEncodeEntry entry =
          seqCodecEncodeEntry entry)
      ∧ ((∀ value, entry ≠ Entry.SeqEntry value) →
        autoIncrementTable.EncodeEntry seqCodecEncodeEntry tableImplEncodeEntry entry =
          tableImplEncodeEntry entry) := by
  constructor
  · intro value h
    subst h
    rfl
  · intro h
    cases entry with
    | PrimaryKeyEntry key value => rfl
    | IndexKeyEntry indexKey primaryKey => rfl
    | SeqEntry value => exact absurd rfl (h value)

theorem encodeEntry_decorator_witness :
    autoIncrementTable.EncodeEntry (fun _ => ([3, 1], [5], none))
        (fun _ => ([], [], some (Error.Collaborator 2))) (Entry.SeqEntry 5) = ([3, 1], [5], none)
      ∧ autoIncrementTable.EncodeEntry (fun _ => ([3, 1], [5], none))
        (fun _ => ([], [], some (Error.Collaborator 2))) (Entry.PrimaryKeyEntry 1 [97])
        = ([], [], some (Error.Collaborator 2)) :=
  ⟨(encodeEntry_decorator (fun _ => ([3, 1], [5], none))
      (fun _ => ([], [], some (Error.Collaborator 2))) (Entry.SeqEntry 5)).1 5 rfl,
    (encodeEntry_decorator (fun _ => ([3, 1], [5], none))
      (fun _ => ([], [], some (Error.Collaborator 2))) (Entry.PrimaryKeyEntry 1 [97])).2
      (fun _ h => by cases h)⟩

/-- C25: `GetTable` returns the receiving table when the full name of the message's type
equals the full name of the message type the table is configured with, and the nil
result otherwise. -/
theorem getTable_by_full_name (t : autoIncrementTable) (messageType fullName : String) :
    (fullName = messageType → t.GetTable messageType fullName = some t)
      ∧ (fullName ≠ messageType → t.GetTable messageType fullName = none) := by
  constructor
  · intro h
    simp [autoIncrementTable.GetTable, h]
  · intro h
    simp [autoIncrementTable.GetTable, h]

theorem getTable_by_full_name_witness :
    ((modelTable fixed64SeqCodec).GetTable "testpb.ExampleAutoIncrementTable"
        "testpb.ExampleAutoIncrementTable").isSome = true
      ∧ (modelTable fixed64SeqCodec).GetTable "testpb.ExampleAutoIncrementTable"
        "testpb.ExampleTable" = none :=
  ⟨by rw [(getTable_by_full_name (modelTable fixed64SeqCodec)
      "testpb.ExampleAutoIncrementTable" "testpb.ExampleAutoIncrementTable").1 rfl]; rfl,
    (getTable_by_full_name (modelTable fixed64SeqCodec)
      "testpb.ExampleAutoIncrementTable" "testpb.ExampleTable").2 (by decide)⟩

/-- C28, amended: for a message with surrogate key 0, mode insert or default, and a
committed counter `c` below `2 ^ 64 - 1`: if the base `doSave` fails on the message that
carries the minted id, `save` returns the error of `doSave`, the backend and with it
the committed counter `c` are unchanged, the caller's message keeps the minted value
`c + 1` in its surrogate-key field, and `Insert` of that message on that backend fails
with `AutoIncrementKeyAlreadySet`.  The base `doSave` is taken to commit nothing when
it fails and to hand the message back with the field it received. -/
theorem save_failed_doSave_keeps_id (t : autoIncrementTable)
    (hfail : NoCommitOnFailure t.tableImpl.doSave)
    (hkeep : ∀ w m mo, (t.tableImpl.doSave w m mo).message.autoIncField = m.autoIncField)
    (b : Backend) (m : Message) (mode : saveMode) (c : Nat)
    (hval : m.autoIncField = 0)
    (hmode : mode = saveModeInsert ∨ mode = saveModeDefault)
    (hcur : committedSeq t b = (c, none))
    (hno : c + 1 < uint64Mod)
    (hdo : (t.tableImpl.doSave
      { backend := b, commitmentWriter := [],
        indexWriter := [(t.seqCodec.Prefix, t.seqCodec.EncodeValue (c + 1))],
        trace := [Event.indexGet t.seqCodec.Prefix,
          Event.indexSet t.seqCodec.Prefix (t.seqCodec.EncodeValue (c + 1)),
          Event.doSave saveModeInsert { m with autoIncField := c + 1 }] }
      { m with autoIncField := c + 1 } saveModeInsert).err ≠ none) :
    (t.save b m mode).err =
        (t.tableImpl.doSave
          { backend := b, commitmentWriter := [],
            indexWriter := [(t.seqCodec.Prefix, t.seqCodec.EncodeValue (c + 1))],
            trace := [Event.indexGet t.seqCodec.Prefix,
              Event.indexSet t.seqCodec.Prefix (t.seqCodec.EncodeValue (c + 1)),
              Event.doSave saveModeInsert { m with autoIncField := c + 1 }] }
          { m with autoIncField := c + 1 } saveModeInsert).err
      ∧ (t.save b m mode).backend = b
      ∧ committedSeq t (t.save b m mode).backend = (c, none)
      ∧ (t.save b m mode).message.autoIncField = c + 1
      ∧ t.Insert (.ok (t.save b m mode).backend) (t.save b m mode).message =
        { err := some Error.AutoIncrementKeyAlreadySet, message := (t.save b m mode).message,
          ctx := .ok b, trace := [Event.Close] } := by
  have hne : mode ≠ saveModeUpdate := by rcases hmode with h | h <;> simp [h]
  have hmod : (c + 1) % uint64Mod = c + 1 := Nat.mod_eq_of_lt hno
  have hsave := save_eq_of_zero_key t b m mode c hval hne hcur
  rw [hmod] at hsave
  have herr : (t.save b m mode).err ≠ none := by rw [hsave]; exact hdo
  have hback := save_backend_of_error t hfail b m mode herr
  have hfield : (t.save b m mode).message.autoIncField = c + 1 := by
    rw [hsave]
    simp only [afterDoSave]
    rw [hkeep]
  refine ⟨by rw [hsave]; rfl, hback, by rw [hback]; exact hcur, hfield, ?_⟩
  rw [hback]
  have hins := save_insert_eq_of_nonzero_key t b (t.save b m mode).message
    (by rw [hfield]; exact Nat.succ_ne_zero c)
  simp only [autoIncrementTable.Insert, hins]

theorem save_failed_doSave_keeps_id_witness :
    (modelTable fixed64SeqCodec).Insert
        (.ok ((modelTable fixed64SeqCodec).save
          { commitmentStore := [(1, [97])], indexStore := [] }
          { autoIncField := 0, body := [98] } saveModeInsert).backend)
        ((modelTable fixed64SeqCodec).save
          { commitmentStore := [(1, [97])], indexStore := [] }
          { autoIncField := 0, body := [98] } saveModeInsert).message =
      { err := some Error.AutoIncrementKeyAlreadySet,
        message := { autoIncField := 1, body := [98] },
        ctx := .ok { commitmentStore := [(1, [97])], indexStore := [] },
        trace := [Event.Close] } :=
  (save_failed_doSave_keeps_id (modelTable fixed64SeqCodec) doSaveModel_noCommitOnFailure
    (fun w m mo => by
      rw [show (modelTable fixed64SeqCodec).tableImpl.doSave = doSaveModel from rfl,
        doSaveModel_message])
    { commitmentStore := [(1, [97])], indexStore := [] } { autoIncField := 0, body := [98] }
    saveModeInsert 0 rfl (Or.inl rfl) (by decide) (by decide) (by decide)).2.2.2.2.trans
    (by decide)

/-- C28, as stated, fails: on a table whose stored counter is `2 ^ 64 - 1` and which holds
a record with key 0, `save` in insert mode of a zero-key message mints the id 0 (the
increment wraps), the base `doSave` fails with `AlreadyExists`, the message is left with
the field 0, and `Insert` of that message fails again with `AlreadyExists`, not with
`AutoIncrementKeyAlreadySet`. -/
theorem save_failed_doSave_wrap_counterexample :
    (modelTable fixed64SeqCodec).save
        { commitmentStore := [(0, [97])],
          indexStore := [([3, 1], [255, 255, 255, 255, 255, 255, 255, 255])] }
        { autoIncField := 0, body := [98] } saveModeInsert =
      { newId := 0, err := some Error.AlreadyExists,
        message := { autoIncField := 0, body := [98] },
        backend := { commitmentStore := [(0, [97])],
                     indexStore := [([3, 1], [255, 255, 255, 255, 255, 255, 255, 255])] },
        trace := [Event.indexGet [3, 1], Event.indexSet [3, 1] [0, 0, 0, 0, 0, 0, 0, 0],
          Event.doSave saveModeInsert { autoIncField := 0, body := [98] },
          Event.commitmentGet 0, Event.Close] }
      ∧ ((modelTable fixed64SeqCodec).Insert
          (.ok { commitmentStore := [(0, [97])],
                 indexStore := [([3, 1], [255, 255, 255, 255, 255, 255, 255, 255])] })
          { autoIncField := 0, body := [98] }).err = some Error.AlreadyExists := by
  decide

/-! ## Export and the round trip -/

/-- C21: on a backend whose committed sequence counter is `s` and an output that accepts
every write, `ExportJSON` writes `[`, then, if and only if `s` is not 0, the decimal
rendering of `s` and the separator `,\n`, and then is the base engine's `doExportJSON`
on that output, so that what follows is exactly what `doExportJSON` writes; for `s = 0`
the bytes before the part of `doExportJSON` are `[` alone. -/
theorem exportJSON_output (t : autoIncrementTable)
    (doExportJSON : Context → Writer → Option Error × Writer) (marshal : Message → String)
    (b : Backend) (writer : Writer) (s : Nat)
    (hw : writer.accepts = none) (hs : committedSeq t b = (s, none)) :
    t.ExportJSON doExportJSON (.ok b) writer =
        doExportJSON (.ok b)
          { written := writer.written
              ++ Chunk.text "[" :: (if s ≠ 0 then [Chunk.uint64 s, Chunk.text ",\n"] else []),
            accepts := none }
      ∧ render marshal
          (Chunk.text "[" :: (if s ≠ 0 then [Chunk.uint64 s, Chunk.text ",\n"] else [])) =
        (if s ≠ 0 then "[" ++ toString s ++ ",\n" else "[") := by
  refine ⟨exportJSON_eq t doExportJSON b writer s hw hs, ?_⟩
  by_cases h0 : s = 0
  · simp [h0, render, Chunk.render]
  · simp [h0, render, Chunk.render, String.append_assoc]

theorem exportJSON_output_witness :
    (modelTable fixed64SeqCodec).ExportJSON doExportJSONModel
        (.ok { commitmentStore := [(1, [4]), (2, [5])],
               indexStore := [([3, 1], [2, 0, 0, 0, 0, 0, 0, 0])] })
        Writer.buffer =
      (none,
        { written := [Chunk.text "[", Chunk.uint64 2, Chunk.text ",\n",
            Chunk.message { autoIncField := 1, body := [4] }, Chunk.text ",\n",
            Chunk.message { autoIncField := 2, body := [5] }, Chunk.text "]"],
          accepts := none }) :=
  (exportJSON_output (modelTable fixed64SeqCodec) doExportJSONModel (fun _ => "")
    { commitmentStore := [(1, [4]), (2, [5])],
      indexStore := [([3, 1], [2, 0, 0, 0, 0, 0, 0, 0])] }
    Writer.buffer 2 rfl (by decide)).1.trans (by decide)

/-- C22, at the failing input: the import of `[5]` into the empty table leaves a table
without records whose committed counter is 5; on it `ExportJSON`, with the base
engine's part as modelled, writes `[`, `5`, `,\n` and `]`, that is the bytes `[5,\n]`,
where only whitespace stands between the comma and the closing bracket. -/
theorem exportJSON_trailing_comma :
    ((modelTable fixed64SeqCodec).ImportJSON (.ok { commitmentStore := [], indexStore := [] })
        { start := none, elems := [RawMessage.number 5], finish := none }).2.1 =
        .ok { commitmentStore := [], indexStore := [([3, 1], [5, 0, 0, 0, 0, 0, 0, 0])] }
      ∧ (modelTable fixed64SeqCodec).ExportJSON doExportJSONModel
          (.ok { commitmentStore := [], indexStore := [([3, 1], [5, 0, 0, 0, 0, 0, 0, 0])] })
          Writer.buffer =
        (none,
          { written := [Chunk.text "[", Chunk.uint64 5, Chunk.text ",\n", Chunk.text "]"],
            accepts := none })
      ∧ ∀ marshal : Message → String,
          render marshal [Chunk.text "[", Chunk.uint64 5, Chunk.text ",\n", Chunk.text "]"] =
            "[5,\n]" :=
  ⟨by decide, by decide, fun _ => rfl⟩

/-- C23, as stated, fails on reachable states.  After the imports of `[7, {id 7}]` and then
`[2]` the table holds the record 7 under the counter 2; its export is `[2, {id 7}]`,
and the import of that into the empty table fails with the invalid-ID error.  After
the import of `[2 ^ 64 - 1]` and an insert, whose minted id wraps to 0, the table holds
the record 0 under the counter 0; its export is `[{id 0}]`, and the import of that
succeeds with the record under the key 1 and the counter 1.  After the import of `[5]`
the table holds no record under the counter 5; its export ends in a separator before
the closing bracket, and the import of that fails. -/
theorem export_import_round_trip_counterexample :
    (((modelTable fixed64SeqCodec).ImportJSON
          ((modelTable fixed64SeqCodec).ImportJSON
            (.ok { commitmentStore := [], indexStore := [] })
            { start := none,
              elems := [RawMessage.number 7, RawMessage.object { autoIncField := 7, body := [1] }],
              finish := none }).2.1
          { start := none, elems := [RawMessage.number 2], finish := none }).2.1 =
        .ok { commitmentStore := [(7, [1])], indexStore := [([3, 1], [2, 0, 0, 0, 0, 0, 0, 0])] }
      ∧ (modelTable fixed64SeqCodec).ExportJSON doExportJSONModel
          (.ok { commitmentStore := [(7, [1])],
                 indexStore := [([3, 1], [2, 0, 0, 0, 0, 0, 0, 0])] })
          Writer.buffer =
        (none,
          { written := [Chunk.text "[", Chunk.uint64 2, Chunk.text ",\n",
              Chunk.message { autoIncField := 7, body := [1] }, Chunk.text "]"],
            accepts := none })
      ∧ ((modelTable fixed64SeqCodec).ImportJSON
          (.ok { commitmentStore := [], indexStore := [] })
          (readerOf [Chunk.text "[", Chunk.uint64 2, Chunk.text ",\n",
            Chunk.message { autoIncField := 7, body := [1] }, Chunk.text "]"])).1 =
        Outcome.returned (some (invalidIDError 7 2)))
    ∧ (((modelTable fixed64SeqCodec).Insert
          ((modelTable fixed64SeqCodec).ImportJSON
            (.ok { commitmentStore := [], indexStore := [] })
            { start := none, elems := [RawMessage.number (2 ^ 64 - 1)], finish := none }).2.1
          { autoIncField := 0, body := [4] }).ctx =
        .ok { commitmentStore := [(0, [4])], indexStore := [([3, 1], [0, 0, 0, 0, 0, 0, 0, 0])] }
      ∧ (modelTable fixed64SeqCodec).ExportJSON doExportJSONModel
          (.ok { commitmentStore := [(0, [4])],
                 indexStore := [([3, 1], [0, 0, 0, 0, 0, 0, 0, 0])] })
          Writer.buffer =
        (none,
          { written := [Chunk.text "[", Chunk.message { autoIncField := 0, body := [4] },
              Chunk.text "]"],
            accepts := none })
      ∧ ((modelTable fixed64SeqCodec).ImportJSON
          (.ok { commitmentStore := [], indexStore := [] })
          (readerOf [Chunk.text "[", Chunk.message { autoIncField := 0, body := [4] },
            Chunk.text "]"])).1 = Outcome.returned none
      ∧ ((modelTable fixed64SeqCodec).ImportJSON
          (.ok { commitmentStore := [], indexStore := [] })
          (readerOf [Chunk.text "[", Chunk.message { autoIncField := 0, body := [4] },
            Chunk.text "]"])).2.1 =
        .ok { commitmentStore := [(1, [4])],
              indexStore := [([3, 1], [1, 0, 0, 0, 0, 0, 0, 0])] })
    ∧ (((modelTable fixed64SeqCodec).ImportJSON
          (.ok { commitmentStore := [], indexStore := [] })
          { start := none, elems := [RawMessage.number 5], finish := none }).2.1 =
        .ok { commitmentStore := [], indexStore := [([3, 1], [5, 0, 0, 0, 0, 0, 0, 0])] }
      ∧ ((modelTable fixed64SeqCodec).ExportJSON doExportJSONModel
          (.ok { commitmentStore := [], indexStore := [([3, 1], [5, 0, 0, 0, 0, 0, 0, 0])] })
          Writer.buffer).2.written =
        [Chunk.text "[", Chunk.uint64 5, Chunk.text ",\n", Chunk.text "]"]
      ∧ ((modelTable fixed64SeqCodec).ImportJSON
          (.ok { commitmentStore := [], indexStore := [] })
          (readerOf [Chunk.text "[", Chunk.uint64 5, Chunk.text ",\n", Chunk.text "]"])).1 =
        Outcome.returned (some Error.JSONImportError)) := by
  refine ⟨⟨?_, ?_, ?_⟩, ⟨?_, ?_, ?_, ?_⟩, ⟨?_, ?_, ?_⟩⟩ <;> decide

/-- C23, amended: for every state of an auto-increment table, over the modelled base
engine and a lawful sequence codec, in which every stored record has a non-zero
surrogate key that is at most the committed sequence counter `s`, and which holds at
least one record if `s` is not 0: `ExportJSON` succeeds, and `ImportJSON` of what it
wrote into the empty table succeeds and yields a table that holds the same records
(under every key the same value as the source table, stored in primary-key order) and
whose committed sequence counter is `s`. -/
theorem export_import_round_trip (t : autoIncrementTable)
    (hdo : t.tableImpl.doSave = doSaveModel) (hlaw : t.seqCodec.Lawful)
    (b : Backend) (s : Nat) (hs : committedSeq t b = (s, none))
    (hkeys : ∀ kv ∈ b.commitmentStore, kv.1 ≠ 0 ∧ kv.1 ≤ s)
    (hne : s ≠ 0 → b.commitmentStore ≠ []) :
    (t.ExportJSON doExportJSONModel (.ok b) Writer.buffer).1 = none
      ∧ ∃ b' tr,
        t.ImportJSON (.ok { commitmentStore := [], indexStore := [] })
            (readerOf (t.ExportJSON doExportJSONModel (.ok b) Writer.buffer).2.written) =
          (Outcome.returned none, .ok b', tr)
        ∧ b'.commitmentStore = recordsInOrder b
        ∧ (∀ k, kvGet k b'.commitmentStore = kvGet k b.commitmentStore)
        ∧ committedSeq t b' = (s, none) := by
  rw [exportJSON_model_eq t b s hs]
  refine ⟨rfl, ?_⟩
  simp only
  by_cases h0 : s = 0
  · subst h0
    have hstore : b.commitmentStore = [] := by
      cases hst : b.commitmentStore with
      | nil => rfl
      | cons x xs =>
        have := hkeys x (by rw [hst]; exact List.mem_cons_self _ _)
        omega
    have hrecs : recordsInOrder b = [] := by
      simp [recordsInOrder, hstore]
    rw [hrecs, if_neg (by simp), readerOf_export_empty]
    refine ⟨{ commitmentStore := [], indexStore := [] }, [], rfl, rfl, ?_, ?_⟩
    · intro k
      rw [hstore]
    · rw [committedSeq_eq]
      exact hlaw.decode_nil
  · have hlt : s < uint64Mod := by
      rw [committedSeq_eq] at hs
      exact hlaw.decode_lt _ _ hs
    have hrne := recordsInOrder_ne_nil b (hne h0)
    cases hrecs : recordsInOrder b with
    | nil => exact absurd hrecs hrne
    | cons r rs =>
      rw [if_pos h0, readerOf_export_records]
      have hmem : ∀ kv ∈ r :: rs, kv.1 ≠ 0 ∧ kv.1 ≤ s := by
        intro kv hkv
        rw [← hrecs] at hkv
        obtain ⟨kv', hkv', he⟩ := mem_recordsInOrder b kv hkv
        rw [← he]
        exact hkeys kv' hkv'
      have hnodup : ((r :: rs).map Prod.fst).Nodup := by
        rw [← hrecs]
        exact recordsInOrder_nodup b
      obtain ⟨tr, htr⟩ := importLoop_records t hdo (r :: rs)
        (afterLeadingNumber t true s
          { seq := 0, backend := { commitmentStore := [], indexStore := [] }, trace := [] })
        (by simpa [afterLeadingNumber] using hmem) hnodup
        (by simp [afterLeadingNumber])
      refine ⟨{ commitmentStore := r :: rs,
                indexStore := kvSet t.seqCodec.Prefix (t.seqCodec.EncodeValue s) [] },
        tr, ?_, rfl, ?_, ?_⟩
      · unfold autoIncrementTable.ImportJSON autoIncrementTable.decodeAutoIncJson
        simp only
        rw [doDecodeJson_finish_none _ _ _ _ rfl, doDecodeLoop_start]
        simp only [Reader.leadingNumber, if_pos hlt, List.tail_cons]
        rw [htr]
        simp [afterLeadingNumber]
      · intro k
        simp only
        rw [← hrecs]
        exact kvGet_recordsInOrder b k
      · rw [← committedSeq_afterLeadingNumber t hlaw s hlt
          { seq := 0, backend := { commitmentStore := [], indexStore := [] }, trace := [] }]
        exact committedSeq_of_kvGet_eq _ _ _ rfl

theorem export_import_round_trip_witness :
    committedSeq (modelTable fixed64SeqCodec)
        { commitmentStore := [(2, [5]), (1, [4])],
          indexStore := [([3, 1], [2, 0, 0, 0, 0, 0, 0, 0])] } = (2, none)
      ∧ ((modelTable fixed64SeqCodec).ExportJSON doExportJSONModel
          (.ok { commitmentStore := [(2, [5]), (1, [4])],
                 indexStore := [([3, 1], [2, 0, 0, 0, 0, 0, 0, 0])] })
          Writer.buffer).1 = none
      ∧ ∃ b' tr,
        (modelTable fixed64SeqCodec).ImportJSON (.ok { commitmentStore := [], indexStore := [] })
            (readerOf ((modelTable fixed64SeqCodec).ExportJSON doExportJSONModel
              (.ok { commitmentStore := [(2, [5]), (1, [4])],
                     indexStore := [([3, 1], [2, 0, 0, 0, 0, 0, 0, 0])] })
              Writer.buffer).2.written) =
          (Outcome.returned none, .ok b', tr)
        ∧ b'.commitmentStore =
          recordsInOrder { commitmentStore := [(2, [5]), (1, [4])],
                           indexStore := [([3, 1], [2, 0, 0, 0, 0, 0, 0, 0])] }
        ∧ (∀ k, kvGet k b'.commitmentStore = kvGet k [(2, [5]), (1, [4])])
        ∧ committedSeq (modelTable fixed64SeqCodec) b' = (2, none) :=
  ⟨by decide,
    export_import_round_trip (modelTable fixed64SeqCodec) rfl fixed64SeqCodec_lawful
      { commitmentStore := [(2, [5]), (1, [4])],
        indexStore := [([3, 1], [2, 0, 0, 0, 0, 0, 0, 0])] }
      2 (by decide) (by decide) (by decide)⟩

end Ormtable

/-! # Properties of the fee grant keys -/

namespace Feegrant

theorem mustLengthPrefix_of_le (bz : Bytes) (h : bz.length ≤ 255) :
    MustLengthPrefix bz = some (bz.length :: bz) := by
  simp [MustLengthPrefix, h]

theorem feeAllowanceKey_eq (granter grantee : AccAddress)
    (hg : granter.length ≤ 255) (he : grantee.length ≤ 255) :
    FeeAllowanceKey granter grantee =
      some (0 :: grantee.length :: grantee ++ granter.length :: granter) := by
  simp [FeeAllowanceKey, FeeAllowancePrefixByGrantee, FeeAllowanceKeyPrefix,
    mustLengthPrefix_of_le, hg, he]

theorem feeAllowanceKey_some (granter grantee : AccAddress) (key : Bytes)
    (h : FeeAllowanceKey granter grantee = some key) :
    granter.length ≤ 255 ∧ grantee.length ≤ 255 := by
  by_cases hg : granter.length ≤ 255
  · by_cases he : grantee.length ≤ 255
    · exact ⟨hg, he⟩
    · simp [FeeAllowanceKey, MustLengthPrefix, hg, he] at h
  · simp [FeeAllowanceKey, MustLengthPrefix, hg] at h

theorem feeAllowancePrefixByGrantee_eq (grantee : AccAddress) (he : grantee.length ≤ 255) :
    FeeAllowancePrefixByGrantee grantee = some (0 :: grantee.length :: grantee) := by
  simp [FeeAllowancePrefixByGrantee, FeeAllowanceKeyPrefix, mustLengthPrefix_of_le, he]

theorem feeAllowancePrefixByGrantee_some (grantee : AccAddress) (p : Bytes)
    (h : FeeAllowancePrefixByGrantee grantee = some p) : grantee.length ≤ 255 := by
  by_cases he : grantee.length ≤ 255
  · exact he
  · simp [FeeAllowancePrefixByGrantee, MustLengthPrefix, he] at h

/-- C27: for a granter and a grantee address of at most 255 bytes each, `FeeAllowanceKey`
is the byte `0x00`, the length of the grantee, the grantee, the length of the granter,
the granter, in this order; its length is the two lengths plus 3; and it begins with
`FeeAllowancePrefixByGrantee(grantee)`, which is `0x00`, the length of the grantee, the
grantee. -/
theorem feeAllowanceKey_format (granter grantee : AccAddress)
    (hg : granter.length ≤ 255) (he : grantee.length ≤ 255) :
    FeeAllowanceKey granter grantee =
        some (0 :: grantee.length :: grantee ++ granter.length :: granter)
      ∧ (0 :: grantee.length :: grantee ++ granter.length :: granter).length =
        grantee.length + granter.length + 3
      ∧ FeeAllowancePrefixByGrantee grantee = some (0 :: grantee.length :: grantee)
      ∧ (0 :: grantee.length :: grantee ++ granter.length :: granter) =
        (0 :: grantee.length :: grantee) ++ (granter.length :: granter) := by
  refine ⟨feeAllowanceKey_eq granter grantee hg he, ?_,
    feeAllowancePrefixByGrantee_eq grantee he, rfl⟩
  simp only [List.length_cons, List.length_append]
  omega

theorem feeAllowanceKey_format_witness :
    FeeAllowanceKey [1, 2] [9] = some [0, 1, 9, 2, 1, 2]
      ∧ FeeAllowancePrefixByGrantee [9] = some [0, 1, 9] :=
  ⟨(feeAllowanceKey_format [1, 2] [9] (by decide) (by decide)).1,
    (feeAllowanceKey_format [1, 2] [9] (by decide) (by decide)).2.2.1⟩

/-- C30: `FeeAllowanceKey` is injective: two pairs of addresses (of at most 255 bytes, for
the function to return) with the same key have the same granter and the same grantee;
and a key of `(granter, grantee1)` that begins with `FeeAllowancePrefixByGrantee(grantee2)`
has `grantee1 = grantee2`. -/
theorem feeAllowanceKey_injective (granter1 grantee1 granter2 grantee2 : AccAddress)
    (key : Bytes) (h1 : FeeAllowanceKey granter1 grantee1 = some key) :
    (FeeAllowanceKey granter2 grantee2 = some key → granter1 = granter2 ∧ grantee1 = grantee2)
      ∧ (∀ p rest, FeeAllowancePrefixByGrantee grantee2 = some p → key = p ++ rest →
          grantee1 = grantee2) := by
  obtain ⟨hg1, he1⟩ := feeAllowanceKey_some _ _ _ h1
  rw [feeAllowanceKey_eq granter1 grantee1 hg1 he1] at h1
  have hk := Option.some.inj h1
  constructor
  · intro h2
    obtain ⟨hg2, he2⟩ := feeAllowanceKey_some _ _ _ h2
    rw [feeAllowanceKey_eq granter2 grantee2 hg2 he2, ← hk] at h2
    have h := Option.some.inj h2
    simp only [List.cons_append, List.cons.injEq, true_and] at h
    obtain ⟨hlen, happ⟩ := h
    have hgrantee := List.append_inj_left happ hlen
    have hrest := List.append_inj_right happ hlen
    simp only [List.cons.injEq] at hrest
    exact ⟨hrest.2.symm, hgrantee.symm⟩
  · intro p rest hp hkey
    have he2 := feeAllowancePrefixByGrantee_some _ _ hp
    rw [feeAllowancePrefixByGrantee_eq grantee2 he2] at hp
    rw [← Option.some.inj hp, ← hk] at hkey
    simp only [List.cons_append, List.cons.injEq, true_and] at hkey
    obtain ⟨hlen, happ⟩ := hkey
    exact List.append_inj_left happ hlen

theorem feeAllowanceKey_injective_witness :
    [1, 2] = [1, 2] ∧ [9] = ([9] : AccAddress) :=
  (feeAllowanceKey_injective [1, 2] [9] [1, 2] [9] [0, 1, 9, 2, 1, 2] (by decide)).1
    (by decide)

/-- The two slice expressions of `ParseAddressesFromFeeAllowanceKey` are never out of
range: each is guarded by the check before it. -/
theorem parseAddresses_slices_in_range (key : Bytes) (low high : Nat) :
    ParseAddressesFromFeeAllowanceKey key ≠ ParseResult.sliceOutOfRange low high := by
  unfold ParseAddressesFromFeeAllowanceKey
  split
  · simp
  · split
    · simp
    · rename_i g _
      split
      · simp
      · rename_i h1
        have h1' : 1 + g ≤ key.length := by simpa [AssertKeyAtLeastLength] using h1
        have hs1 : slice key 1 (1 + g) = some ((key.drop 1).take (1 + g - 1)) := by
          simp [slice, h1']
        rw [hs1]
        simp only
        split
        · simp
        · rename_i r _
          split
          · simp
          · rename_i h2
            have h2' : 2 + g + r ≤ key.length := by simpa [AssertKeyAtLeastLength] using h2
            have hs2 : slice key (2 + r) (2 + g + r) =
                some ((key.drop (2 + r)).take (2 + g + r - (2 + r))) := by
              simp only [slice]
              rw [if_pos ⟨by omega, h2'⟩]
            rw [hs2]
            simp

/-- With the length byte 255 the index `1+granteeAddrLen` wraps to 0, which is in range. -/
theorem parseAddresses_length_byte_255 (rest : Bytes) (index : Nat) :
    ParseAddressesFromFeeAllowanceKey (255 :: rest) ≠ ParseResult.indexOutOfRange index := by
  have hidx : (255 :: rest)[(1 + 255) % 256]? = some 255 := by
    have h0 : (1 + 255) % 256 = 0 := by decide
    rw [h0]
    exact List.getElem?_cons_zero
  unfold ParseAddressesFromFeeAllowanceKey
  simp only [List.getElem?_cons_zero, hidx]
  split
  · simp
  · split
    · simp
    · split
      · simp
      · split
        · simp
        · split <;> simp

/-- C26, at the failing input: for the granter `[1, 2]` and the grantee `[9]` the key is
`[0, 1, 9, 2, 1, 2]`, and `ParseAddressesFromFeeAllowanceKey` on the key without its
first byte returns the granter `[2]` with the grantee `[9]`: the granter is sliced from
`2+granterAddrLen`, not from `2+granteeAddrLen`. -/
theorem parseAddresses_round_trip_fails :
    FeeAllowanceKey [1, 2] [9] = some [0, 1, 9, 2, 1, 2]
      ∧ ParseAddressesFromFeeAllowanceKey [1, 9, 2, 1, 2] = ParseResult.ok [2] [9]
      ∧ ParseAddressesFromFeeAllowanceKey [1, 9, 2, 1, 2] ≠ ParseResult.ok [1, 2] [9] := by
  decide

/-- C29, at the failing input: on the key `[1, 9]`, which ends right after the one byte
of the grantee, both checks of `AssertKeyAtLeastLength` before the index expression
`key[1+granteeAddrLen]` pass and the index 2 is out of range; the same happens on the
key `[0]` with the index 1. -/
theorem parseAddresses_index_out_of_range :
    wellFormed [1, 9]
      ∧ AssertKeyAtLeastLength [1, 9] 1 = true
      ∧ AssertKeyAtLeastLength [1, 9] (1 + 1) = true
      ∧ ParseAddressesFromFeeAllowanceKey [1, 9] = ParseResult.indexOutOfRange 2
      ∧ ParseAddressesFromFeeAllowanceKey [0] = ParseResult.indexOutOfRange 1 := by
  decide

end Feegrant
